import Mathlib

/-!
Authorization utilities of keycloak-bridge.

Shallow embedding of `internal/keycloakb/authorizationutil.go`:
`TranslateGroupIDIntoGroupName`, `TranslateGroupNameIntoGroupID` and `Validate`.

Conventions of the embedding:
* a Go `*string` is an `Option String` (`none` is the nil pointer);
* a Go map that is only read through `m[k]` is an association list read by `lookup`
  (first match), which represents every finite map;
* a nil-pointer dereference is an explicit outcome (`none` for the translator that can
  meet one, `ValidateResult.panic` for `Validate`);
* `range` over a Go map visits every entry once in an unspecified order: the order is an
  explicit parameter (`RangeOrder`) of `Validate`.
-/

namespace KeycloakBridge

/-! ## Data model -/

/-- Modelled from the spec: `dto.Authorization`, declared in package `internal/dto`, whose
declaration is not among the source files. Spec §3: `realmID`, `groupID` and `action` are required strings, `targetRealmID`
and `targetGroupID` are optional. The source dereferences both target fields, so they are
pointers. -/
structure Authorization where
  RealmID : String
  GroupID : String
  Action : String
  TargetRealmID : Option String
  TargetGroupID : Option String
  deriving DecidableEq, Repr

/-- The two fields of `kc.GroupRepresentation` read by the source, both through a pointer
dereference (`*group.Id`, `*group.Name`). -/
structure GroupRepresentation where
  Id : Option String
  Name : Option String
  deriving DecidableEq, Repr

/-- Read of a Go map `m[k]` with its `ok` flag: `none` when the key is absent. -/
def lookup {V : Type} (k : String) : List (String × V) → Option V
  | [] => none
  | (k', v) :: rest => if k' = k then some v else lookup k rest

/-- Read of a nested Go map `m[a][b]` with its `ok` flag. Reading a missing outer key gives
the nil inner map, on which every read reports `ok = false`. -/
def lookup2 {V : Type} (a b : String) (m : List (String × List (String × V))) : Option V :=
  match lookup a m with
  | none => none
  | some inner => lookup b inner

/-! ## Translators -/

/-- The loop `for _, group := range groups { groupIDMapping[*group.Id] = *group.Name }`.
An assignment shadows earlier entries of the same key; an entry without ID or name is a
nil dereference (`none`). -/
def fillGroupIDMapping : List GroupRepresentation → List (String × String) →
    Option (List (String × String))
  | [], mapping => some mapping
  | group :: rest, mapping =>
    match group.Id, group.Name with
    | some id, some name => fillGroupIDMapping rest ((id, name) :: mapping)
    | _, _ => none

/-- The mapping groupID -> groupName of `TranslateGroupIDIntoGroupName`, started with the
sentinel `groupIDMapping["*"] = "*"`. -/
def groupIDMapping (groups : List GroupRepresentation) : Option (List (String × String)) :=
  fillGroupIDMapping groups [("*", "*")]

/-- Body of the loop over `origin` in `TranslateGroupIDIntoGroupName`: `none` is the
`continue` of an unknown group ID. -/
def translateIDRecord (mapping : List (String × String)) (auth : Authorization) :
    Option Authorization :=
  match auth.TargetGroupID with
  | none =>
    some { RealmID := auth.RealmID, GroupID := auth.GroupID, Action := auth.Action,
           TargetRealmID := auth.TargetRealmID, TargetGroupID := none }
  | some gid =>
    match lookup gid mapping with
    | none => none
    | some v =>
      some { RealmID := auth.RealmID, GroupID := auth.GroupID, Action := auth.Action,
             TargetRealmID := auth.TargetRealmID, TargetGroupID := some v }

/-- `TranslateGroupIDIntoGroupName`: `none` when building the mapping dereferences a nil
group ID or name, otherwise the translated records in input order. -/
def TranslateGroupIDIntoGroupName (origin : List Authorization)
    (groups : List GroupRepresentation) : Option (List Authorization) :=
  match groupIDMapping groups with
  | none => none
  | some mapping => some (origin.filterMap (translateIDRecord mapping))

/-- Body of the loop of `TranslateGroupNameIntoGroupID`: `none` is the `continue` of an
unknown (realm, group name) pair. -/
def translateNameRecord (mapper : List (String × List (String × String)))
    (authz : Authorization) : Option Authorization :=
  match authz.TargetRealmID, authz.TargetGroupID with
  | some realm, some name =>
    match lookup2 realm name mapper with
    | none => none
    | some targetGroupID =>
      some { RealmID := authz.RealmID, GroupID := authz.GroupID, Action := authz.Action,
             TargetRealmID := authz.TargetRealmID, TargetGroupID := some targetGroupID }
  | _, _ =>
    some { RealmID := authz.RealmID, GroupID := authz.GroupID, Action := authz.Action,
           TargetRealmID := authz.TargetRealmID, TargetGroupID := none }

/-- `TranslateGroupNameIntoGroupID`. -/
def TranslateGroupNameIntoGroupID (origin : List Authorization)
    (mapper : List (String × List (String × String))) : List Authorization :=
  origin.filterMap (translateNameRecord mapper)

/-! ## Matrix builder -/

/-- The outer key of the matrix: the `(groupID, action)` bucket of a record. -/
def bucketKey (r : Authorization) : String × String := (r.GroupID, r.Action)

/-- The nested map `targetRealmID -> targetGroupID -> granted` of one bucket, and the map
of all buckets; the third level is kept as its key set. -/
abbrev RealmEntries := List (String × List String)

/-- The Go map ranged over by `Validate` (`*authZ.Matrix`): bucket -> target realm ->
target group. -/
abbrev AuthorizationMatrix := List ((String × String) × RealmEntries)

/-- Target realms recorded in bucket `k`: the distinct present target realms of its
records. -/
def targetRealmsOf (k : String × String) (rs : List Authorization) : List String :=
  (rs.filterMap (fun r => if bucketKey r = k then r.TargetRealmID else none)).dedup

/-- Target groups recorded under realm `realm` of bucket `k`: the distinct present target
groups of the records of that bucket and realm. -/
def targetGroupsOf (k : String × String) (realm : String) (rs : List Authorization) :
    List String :=
  (rs.filterMap (fun r =>
    if bucketKey r = k ∧ r.TargetRealmID = some realm then r.TargetGroupID else none)).dedup

/-- Modelled from the spec: the result type of `api.ConvertToAPIAuthorizations`, declared in
package `api/management`, which is not among the source files. `Matrix` is the nested map of spec §3;
`Unscoped` is the distinguished place of spec §4.3 for the buckets that hold a record
without target realm, apart from every realm value. -/
structure AuthorizationsRepresentation where
  Matrix : AuthorizationMatrix
  Unscoped : List (String × String)
  deriving DecidableEq, Repr

/-- Modelled from the spec: `api.ConvertToAPIAuthorizations`, a function of package
`api/management`, which is not among the source files; it is the matrix builder of spec §4.3. Records are grouped by
`(groupID, action)`, then by target realm, then by target group; duplicates collapse; a
record without target realm is recorded apart from the realm values. -/
def ConvertToAPIAuthorizations (rs : List Authorization) : AuthorizationsRepresentation :=
  { Matrix := (rs.map bucketKey).dedup.map (fun k =>
      (k, (targetRealmsOf k rs).map (fun realm => (realm, targetGroupsOf k realm rs))))
    Unscoped := ((rs.filter (fun r => r.TargetRealmID = none)).map bucketKey).dedup }

/-! ## Validate -/

/-- The four errors `Validate` creates with `errors.New`. -/
inductive ValidateError
  | InvalidTargetRealm
  | InvalidTargetGroup
  | AmbiguousWildcardRealm
  | AmbiguousWildcardGroup
  deriving DecidableEq, Repr

/-- The message given to `errors.New` for each error. -/
def ValidateError.message : ValidateError → String
  | .InvalidTargetRealm => "Invalid target realm"
  | .InvalidTargetGroup => "Invalid target group"
  | .AmbiguousWildcardRealm =>
    "If \x27*\x27 is used as targetRealm, no other rules for this action are allowed"
  | .AmbiguousWildcardGroup =>
    "If \x27*\x27 is used as targetGroupId, no other rules are allowed"

/-- What a call of `Validate` does: return `nil`, return an error, or stop on a nil-pointer
dereference. -/
inductive ValidateResult
  | nil
  | error (e : ValidateError)
  | panic
  deriving DecidableEq, Repr

/-- Body of the first loop of `Validate` for one record: the target-realm check, then the
target-group check, whose map read dereferences `auth.TargetRealmID` unguarded. `nil`
means the loop goes on. -/
def checkRecord (allowed : List (String × List (String × String))) (auth : Authorization) :
    ValidateResult :=
  match (match auth.TargetRealmID with
         | some realm => (lookup realm allowed).isNone
         | none => false) with
  | true => .error .InvalidTargetRealm
  | false =>
    match auth.TargetGroupID with
    | none => .nil
    | some group =>
      match auth.TargetRealmID with
      | none => .panic
      | some realm =>
        match lookup2 realm group allowed with
        | none => .error .InvalidTargetGroup
        | some _ => .nil

/-- The first loop of `Validate`: records in slice order, first non-nil outcome returned. -/
def checkRecords (allowed : List (String × List (String × String))) :
    List Authorization → ValidateResult
  | [] => .nil
  | auth :: rest =>
    match checkRecord allowed auth with
    | .nil => checkRecords allowed rest
    | r => r

/-- The order in which the three nested `range` statements of `Validate` visit the entries
of their maps. Go leaves it unspecified: each `range` visits every entry once, so each
order is a permutation of the entries, and it may differ from one map to the next (the
inner orders depend on the keys that lead to the map). -/
structure RangeOrder where
  buckets : AuthorizationMatrix → AuthorizationMatrix
  realms : String × String → RealmEntries → RealmEntries
  groups : String × String → String → List String → List String
  buckets_perm : ∀ m, (buckets m).Perm m
  realms_perm : ∀ k u, (realms k u).Perm u
  groups_perm : ∀ k r v, (groups k r v).Perm v

/-- Every map is visited in the order its entries are stored. -/
def RangeOrder.stored : RangeOrder :=
  { buckets := fun m => m, realms := fun _ u => u, groups := fun _ _ v => v,
    buckets_perm := fun _ => List.Perm.refl _, realms_perm := fun _ _ => List.Perm.refl _,
    groups_perm := fun _ _ _ => List.Perm.refl _ }

/-- Every map is visited in the reverse of the order its entries are stored. -/
def RangeOrder.reversed : RangeOrder :=
  { buckets := fun m => m.reverse, realms := fun _ u => u.reverse,
    groups := fun _ _ v => v.reverse,
    buckets_perm := fun _ => List.reverse_perm _,
    realms_perm := fun _ _ => List.reverse_perm _,
    groups_perm := fun _ _ _ => List.reverse_perm _ }

/-- The loop `for targetGroup := range v`, with `n = len(v)`. -/
def checkGroupKeys (n : Nat) : List String → Option ValidateError
  | [] => none
  | targetGroup :: rest =>
    if targetGroup = "*" ∧ n ≠ 1 then some .AmbiguousWildcardGroup
    else checkGroupKeys n rest

/-- The loop `for realmID, v := range u`, with `n = len(u)`. -/
def checkRealmEntries (ord : RangeOrder) (k : String × String) (n : Nat) :
    RealmEntries → Option ValidateError
  | [] => none
  | (realmID, v) :: rest =>
    if realmID = "*" ∧ n ≠ 1 then some .AmbiguousWildcardRealm
    else
      match checkGroupKeys v.length (ord.groups k realmID v) with
      | some e => some e
      | none => checkRealmEntries ord k n rest

/-- The loop `for _, u := range checker`. -/
def checkBuckets (ord : RangeOrder) : AuthorizationMatrix → Option ValidateError
  | [] => none
  | (k, u) :: rest =>
    match checkRealmEntries ord k u.length (ord.realms k u) with
    | some e => some e
    | none => checkBuckets ord rest

/-- The wildcard checks of `Validate` on the matrix, visited in the order `ord`. -/
def checkMatrix (ord : RangeOrder) (checker : AuthorizationMatrix) : Option ValidateError :=
  checkBuckets ord (ord.buckets checker)

/-- `Validate`, for the map iteration order `ord`. -/
def Validate (ord : RangeOrder) (authorizations : List Authorization)
    (allowedTargetRealmsAndGroupIDs : List (String × List (String × String))) :
    ValidateResult :=
  match checkRecords allowedTargetRealmsAndGroupIDs authorizations with
  | .nil =>
    match checkMatrix ord (ConvertToAPIAuthorizations authorizations).Matrix with
    | some e => .error e
    | none => .nil
  | r => r

/-! ## Properties of rule sets -/

/-- No record has a target group without a target realm. -/
def Paired (rs : List Authorization) : Prop :=
  ∀ r ∈ rs, r.TargetGroupID ≠ none → r.TargetRealmID ≠ none

/-- The record has a target realm that is not a key of the allow-list. -/
def BadRealm (allowed : List (String × List (String × String))) (r : Authorization) : Prop :=
  ∃ R ∈ r.TargetRealmID, lookup R allowed = none

/-- The record has a target realm that is a key of the allow-list and a target group that
is not a member of the allow-list entry of that realm. -/
def BadGroup (allowed : List (String × List (String × String))) (r : Authorization) : Prop :=
  ∃ R ∈ r.TargetRealmID, ∃ G ∈ r.TargetGroupID,
    lookup R allowed ≠ none ∧ lookup2 R G allowed = none

/-- Every present target realm is a key of the allow-list. -/
def RealmsAllowed (allowed : List (String × List (String × String)))
    (rs : List Authorization) : Prop :=
  ∀ r ∈ rs, ∀ R ∈ r.TargetRealmID, lookup R allowed ≠ none

/-- Every present target group (of a record with a target realm) is a member of the
allow-list entry of the target realm. -/
def GroupsAllowed (allowed : List (String × List (String × String)))
    (rs : List Authorization) : Prop :=
  ∀ r ∈ rs, ∀ R ∈ r.TargetRealmID, ∀ G ∈ r.TargetGroupID, lookup2 R G allowed ≠ none

/-- Two records of one `(groupID, action)` bucket have target realms `"*"` and a realm
other than `"*"`. -/
def WildcardRealmCoexistence (rs : List Authorization) : Prop :=
  ∃ r₁ ∈ rs, ∃ r₂ ∈ rs, bucketKey r₁ = bucketKey r₂ ∧ r₁.TargetRealmID = some "*" ∧
    r₂.TargetRealmID ≠ none ∧ r₂.TargetRealmID ≠ some "*"

/-- Two records of one `(groupID, action, targetRealmID)` bucket have target groups `"*"`
and a group other than `"*"`. -/
def WildcardGroupCoexistence (rs : List Authorization) : Prop :=
  ∃ r₁ ∈ rs, ∃ r₂ ∈ rs, bucketKey r₁ = bucketKey r₂ ∧ r₁.TargetRealmID ≠ none ∧
    r₁.TargetRealmID = r₂.TargetRealmID ∧ r₁.TargetGroupID = some "*" ∧
    r₂.TargetGroupID ≠ none ∧ r₂.TargetGroupID ≠ some "*"

instance (rs : List Authorization) : Decidable (Paired rs) := by
  unfold Paired; infer_instance

instance (allowed : List (String × List (String × String))) (r : Authorization) :
    Decidable (BadRealm allowed r) := by
  unfold BadRealm; infer_instance

instance (allowed : List (String × List (String × String))) (r : Authorization) :
    Decidable (BadGroup allowed r) := by
  unfold BadGroup; infer_instance

instance (allowed : List (String × List (String × String))) (rs : List Authorization) :
    Decidable (RealmsAllowed allowed rs) := by
  unfold RealmsAllowed; infer_instance

instance (allowed : List (String × List (String × String))) (rs : List Authorization) :
    Decidable (GroupsAllowed allowed rs) := by
  unfold GroupsAllowed; infer_instance

instance (rs : List Authorization) : Decidable (WildcardRealmCoexistence rs) := by
  unfold WildcardRealmCoexistence; infer_instance

instance (rs : List Authorization) : Decidable (WildcardGroupCoexistence rs) := by
  unfold WildcardGroupCoexistence; infer_instance

/-- Some bucket of the matrix holds the realm key `"*"` and is not of length one. -/
def RealmViolation (m : AuthorizationMatrix) : Prop :=
  ∃ b ∈ m, ∃ p ∈ b.2, p.1 = "*" ∧ b.2.length ≠ 1

/-- Some realm entry of the matrix holds the group key `"*"` and is not of length one. -/
def GroupViolation (m : AuthorizationMatrix) : Prop :=
  ∃ b ∈ m, ∃ p ∈ b.2, "*" ∈ p.2 ∧ p.2.length ≠ 1

/-- A directory in which every group entry carries an ID and a name (spec §3: a directory
snapshot is a mapping groupID <-> groupName). -/
def WellFormedDirectory (groups : List GroupRepresentation) : Prop :=
  ∀ g ∈ groups, g.Id ≠ none ∧ g.Name ≠ none

instance (groups : List GroupRepresentation) : Decidable (WellFormedDirectory groups) := by
  unfold WellFormedDirectory; infer_instance

/-- The directory resolves group ID `gid` to `name`: the mapping the source builds from it
(sentinel included) holds `name` under `gid`. -/
def Resolves (groups : List GroupRepresentation) (gid name : String) : Prop :=
  ∃ mapping, groupIDMapping groups = some mapping ∧ lookup gid mapping = some name

/-- The record's target group ID is present and the mapping built from the directory has
no entry for it: the record `TranslateGroupIDIntoGroupName` skips. -/
def unresolvableID (groups : List GroupRepresentation) (r : Authorization) : Bool :=
  match r.TargetGroupID, groupIDMapping groups with
  | some gid, some mapping => (lookup gid mapping).isNone
  | _, _ => false

/-- Both target fields of the record are present and the mapper has no entry
`mapper[targetRealmID][targetGroupID]`: the record `TranslateGroupNameIntoGroupID` skips. -/
def unresolvableName (mapper : List (String × List (String × String)))
    (r : Authorization) : Bool :=
  match r.TargetRealmID, r.TargetGroupID with
  | some realm, some name => (lookup2 realm name mapper).isNone
  | _, _ => false

/-- The four fields of a record that the translators copy. -/
def untranslatedFields (r : Authorization) : String × String × String × Option String :=
  (r.RealmID, r.GroupID, r.Action, r.TargetRealmID)

/-- Some realm entry of the matrix holds the group key `"*"` and is not of length one, and
the realm check of that entry passes: the entries on which the loop of `Validate` can
reach the group error. -/
def StrictGroupViolation (m : AuthorizationMatrix) : Prop :=
  ∃ b ∈ m, ∃ p ∈ b.2, ("*" ∈ p.2 ∧ p.2.length ≠ 1) ∧ ¬(p.1 = "*" ∧ b.2.length ≠ 1)

/-- A wildcard-group coexistence under a target realm whose own realm check passes: the
realm is not `"*"`, or the bucket has no target realm other than `"*"`. -/
def StrictGroupCoexistence (rs : List Authorization) : Prop :=
  ∃ r₁ ∈ rs, ∃ r₂ ∈ rs, (bucketKey r₁ = bucketKey r₂ ∧ r₁.TargetRealmID ≠ none ∧
    r₁.TargetRealmID = r₂.TargetRealmID ∧ r₁.TargetGroupID = some "*" ∧
    r₂.TargetGroupID ≠ none ∧ r₂.TargetGroupID ≠ some "*") ∧
    ¬(r₁.TargetRealmID = some "*" ∧
      ∃ r₃ ∈ rs, bucketKey r₃ = bucketKey r₁ ∧ r₃.TargetRealmID ≠ none ∧
        r₃.TargetRealmID ≠ some "*")

instance (rs : List Authorization) : Decidable (StrictGroupCoexistence rs) := by
  unfold StrictGroupCoexistence; infer_instance

/-- The entries of a map with the entry `x`, when it is one of them, moved to the front. -/
def visitFirst {α : Type} [DecidableEq α] (x : α) (l : List α) : List α :=
  if x ∈ l then x :: l.erase x else l

/-- The iteration order that visits bucket `b` first and, in every bucket, realm entry `p`
first. -/
def RangeOrder.startingWith (b : (String × String) × RealmEntries)
    (p : String × List String) : RangeOrder :=
  { buckets := visitFirst b, realms := fun _ u => visitFirst p u, groups := fun _ _ v => v,
    buckets_perm := fun m => by
      by_cases h : b ∈ m
      · simpa [visitFirst, h] using (List.perm_cons_erase h).symm
      · simp [visitFirst, h]
    realms_perm := fun _ u => by
      by_cases h : p ∈ u
      · simpa [visitFirst, h] using (List.perm_cons_erase h).symm
      · simp [visitFirst, h]
    groups_perm := fun _ _ _ => List.Perm.refl _ }

/-! ## Read-side query on the matrix -/

/-- Modelled from the spec: `isGranted` of spec §6, which is not among the source files, for
a query with a concrete target realm and a concrete target group. A stored grant of the
`(groupID, action)` bucket matches when its target realm is the queried realm or `"*"` and
its target group is the queried group or `"*"`. -/
def isGranted (authZ : AuthorizationsRepresentation) (groupID action targetRealmID
    targetGroupID : String) : Bool :=
  authZ.Matrix.any (fun b =>
    decide (b.1 = (groupID, action)) &&
    b.2.any (fun p =>
      (decide (p.1 = targetRealmID) || decide (p.1 = "*")) &&
      (decide (targetGroupID ∈ p.2) || decide ("*" ∈ p.2))))

/-! ## Account API (`api/account/api.go`) -/

/-- The fields of `kc.CredentialRepresentation` (library keycloak-client) that
`ConvertCredential` reads, and `Value`, which it leaves out. The field `Type` is named
`CredentialType` here. -/
structure KcCredentialRepresentation where
  ID : Option String
  CredentialType : Option String
  UserLabel : Option String
  CreatedDate : Option Int
  CredentialData : Option String
  Value : Option String
  Temporary : Option Bool
  deriving DecidableEq, Repr

/-- `CredentialRepresentation` of `api/account/api.go`. The field `Type` is named
`CredentialType` here. -/
structure CredentialRepresentation where
  ID : Option String
  CredentialType : Option String
  UserLabel : Option String
  CreatedDate : Option Int
  CredentialData : Option String
  Value : Option String
  Temporary : Option Bool
  deriving DecidableEq, Repr

/-- `ConvertCredential`. Its argument is a pointer: `none` is the nil pointer, whose first
field read is a nil dereference (result `none`). -/
def ConvertCredential (credKc : Option KcCredentialRepresentation) :
    Option CredentialRepresentation :=
  match credKc with
  | none => none
  | some c =>
    some { ID := c.ID, CredentialType := c.CredentialType, UserLabel := c.UserLabel,
           CreatedDate := c.CreatedDate, CredentialData := c.CredentialData,
           Value := none, Temporary := c.Temporary }

/-- `AccreditationRepresentation` of `api/account/api.go`. The field `Type` is named
`AccreditationType` here. -/
structure AccreditationRepresentation where
  AccreditationType : Option String
  ExpiryDate : Option String
  Expired : Option Bool
  Revoked : Option Bool
  deriving DecidableEq, Repr

/-- Body of the loop of `convertToAccreditations` for a value that parsed. The function
`keycloakb.IsDateInThePast` is not among the source files and is a parameter. -/
def convertAccreditation (isDateInThePast : Option String → Option Bool)
    (accred : AccreditationRepresentation) : AccreditationRepresentation :=
  { AccreditationType := accred.AccreditationType
    ExpiryDate := accred.ExpiryDate
    Expired := if accred.Revoked = some true then accred.Revoked
               else isDateInThePast accred.ExpiryDate
    Revoked := none }

/-- `convertToAccreditations`, without its log output. `unmarshal` stands for
`json.Unmarshal` into a fresh `AccreditationRepresentation` (`none` when it returns an
error). -/
def convertToAccreditations (unmarshal : String → Option AccreditationRepresentation)
    (isDateInThePast : Option String → Option Bool) (values : List String) :
    List AccreditationRepresentation :=
  values.filterMap (fun accredJSON =>
    match unmarshal accredJSON with
    | some accred => some (convertAccreditation isDateInThePast accred)
    | none => none)

/-- `AccountRepresentation` of `api/account/api.go`. -/
structure AccountRepresentation where
  Gender : Option String
  FirstName : Option String
  LastName : Option String
  Username : Option String
  Email : Option String
  EmailVerified : Option Bool
  PhoneNumber : Option String
  PhoneNumberVerified : Option Bool
  BirthDate : Option String
  BirthLocation : Option String
  Nationality : Option String
  IDDocumentType : Option String
  IDDocumentNumber : Option String
  IDDocumentExpiration : Option String
  IDDocumentCountry : Option String
  Locale : Option String
  Accreditations : Option (List AccreditationRepresentation)
  deriving DecidableEq, Repr

/-- The fields of `kc.UserRepresentation` (library keycloak-client) that `api.go` reads or
writes; `Attributes` is a pointer to a map from attribute key to values. -/
structure KcUserRepresentation where
  Username : Option String
  Email : Option String
  EmailVerified : Option Bool
  FirstName : Option String
  LastName : Option String
  Attributes : Option (List (String × List String))
  deriving DecidableEq, Repr

/-- Write of a Go map `m[k] = v`: the entry of key `k` is replaced, or added. -/
def mapSet {V : Type} (k : String) (v : V) : List (String × V) → List (String × V)
  | [] => [(k, v)]
  | (k', v') :: rest => if k' = k then (k, v) :: rest else (k', v') :: mapSet k v rest

/-- `kc.Attributes.SetStringWhenNotNil` (library keycloak-client): the attribute `key` is
set to the single value `*value` when `value` is not nil. -/
def SetStringWhenNotNil (key : String) (value : Option String)
    (attributes : List (String × List String)) : List (String × List String) :=
  match value with
  | none => attributes
  | some v => mapSet key [v] attributes

/-- `ConvertToKCUser`. The attribute keys `constants.AttrbPhoneNumber` and
`constants.AttrbLocale` are not among the source files and are parameters. -/
def ConvertToKCUser (attrbPhoneNumber attrbLocale : String) (user : AccountRepresentation) :
    KcUserRepresentation :=
  let attributes := SetStringWhenNotNil attrbLocale user.Locale
    (SetStringWhenNotNil attrbPhoneNumber user.PhoneNumber [])
  { Username := user.Username
    Email := user.Email
    EmailVerified := none
    FirstName := user.FirstName
    LastName := user.LastName
    Attributes := if attributes.length > 0 then some attributes else none }

/-! ## KYC (`pkg/kyc`) -/

/-- Modelled from the spec: `isPhoneNumberVerified` of `pkg/kyc/component.go`, which is not
among the source files; only its test `TestIsPhoneNumberVerified` is. It takes a pointer to
the attribute map and returns true when the attributes are present and the first value of
the `phoneNumberVerified` attribute is the boolean value true. Reading a string as a
boolean is the parameter `parseBool` (`none` when the string is not a boolean). -/
def isPhoneNumberVerified (parseBool : String → Option Bool)
    (attrbs : Option (List (String × List String))) : Bool :=
  match attrbs with
  | none => false
  | some m =>
    match lookup "phoneNumberVerified" m with
    | some (value :: _) => parseBool value = some true
    | _ => false

/-! ## Lemmas on the translators -/

theorem fillGroupIDMapping_isSome (groups : List GroupRepresentation)
    (h : WellFormedDirectory groups) (mapping : List (String × String)) :
    ∃ mp, fillGroupIDMapping groups mapping = some mp := by
  induction groups generalizing mapping with
  | nil => exact ⟨mapping, rfl⟩
  | cons g gs ih =>
    have hg := h g (List.mem_cons_self _ _)
    have hgs : WellFormedDirectory gs := fun x hx => h x (List.mem_cons_of_mem _ hx)
    obtain ⟨id, hid⟩ := Option.ne_none_iff_exists'.mp hg.1
    obtain ⟨name, hname⟩ := Option.ne_none_iff_exists'.mp hg.2
    simp only [fillGroupIDMapping, hid, hname]
    exact ih hgs _

theorem filterMap_eq_self_of_forall {α : Type} (f : α → Option α) (l : List α)
    (h : ∀ a ∈ l, f a = some a) : l.filterMap f = l := by
  induction l with
  | nil => rfl
  | cons a t ih =>
    have ha := h a (List.mem_cons_self _ _)
    have ht := ih (fun x hx => h x (List.mem_cons_of_mem _ hx))
    simp [List.filterMap_cons, ha, ht]

/-! ## Lemmas on the wildcard checks -/

theorem checkGroupKeys_eq_none_iff (n : Nat) (l : List String) :
    checkGroupKeys n l = none ↔ ¬("*" ∈ l ∧ n ≠ 1) := by
  induction l with
  | nil => simp [checkGroupKeys]
  | cons a t ih =>
    simp only [checkGroupKeys]
    split_ifs with h
    · obtain ⟨ha, hn⟩ := h
      simp [ha, hn]
    · rw [ih]
      simp only [List.mem_cons, not_and, not_not] at h ⊢
      constructor
      · rintro ht (ha | hm)
        · exact h ha.symm
        · exact ht hm
      · intro ht hm
        exact ht (Or.inr hm)

theorem checkGroupKeys_eq_some (n : Nat) (l : List String) (e : ValidateError)
    (h : checkGroupKeys n l = some e) :
    e = .AmbiguousWildcardGroup ∧ "*" ∈ l ∧ n ≠ 1 := by
  induction l with
  | nil => simp [checkGroupKeys] at h
  | cons a t ih =>
    simp only [checkGroupKeys] at h
    split_ifs at h with hc
    · obtain ⟨ha, hn⟩ := hc
      refine ⟨(Option.some.inj h).symm, ?_, hn⟩
      simp [ha]
    · obtain ⟨h1, h2, h3⟩ := ih h
      exact ⟨h1, List.mem_cons_of_mem _ h2, h3⟩

theorem checkRealmEntries_eq_none_iff (ord : RangeOrder) (k : String × String) (n : Nat)
    (l : RealmEntries) :
    checkRealmEntries ord k n l = none ↔
      ∀ p ∈ l, ¬(p.1 = "*" ∧ n ≠ 1) ∧ ¬("*" ∈ p.2 ∧ p.2.length ≠ 1) := by
  induction l with
  | nil => simp [checkRealmEntries]
  | cons p t ih =>
    obtain ⟨realmID, v⟩ := p
    simp only [checkRealmEntries, List.forall_mem_cons]
    split_ifs with h
    · simp only [reduceCtorEq, false_iff]
      intro hall
      exact hall.1.1 h
    · cases hg : checkGroupKeys v.length (ord.groups k realmID v) with
      | some e =>
        simp only [reduceCtorEq, false_iff]
        intro hall
        obtain ⟨_, hm, hn⟩ := checkGroupKeys_eq_some _ _ _ hg
        exact hall.1.2 ⟨((ord.groups_perm k realmID v).mem_iff).mp hm, hn⟩
      | none =>
        simp only [ih]
        rw [checkGroupKeys_eq_none_iff] at hg
        constructor
        · intro ht
          refine ⟨⟨h, ?_⟩, ht⟩
          rintro ⟨hm, hn⟩
          exact hg ⟨((ord.groups_perm k realmID v).mem_iff).mpr hm, hn⟩
        · intro hall
          exact hall.2

theorem checkRealmEntries_eq_some (ord : RangeOrder) (k : String × String) (n : Nat)
    (l : RealmEntries) (e : ValidateError) (h : checkRealmEntries ord k n l = some e) :
    (e = .AmbiguousWildcardRealm ∧ ∃ p ∈ l, p.1 = "*" ∧ n ≠ 1) ∨
    (e = .AmbiguousWildcardGroup ∧ ∃ p ∈ l, "*" ∈ p.2 ∧ p.2.length ≠ 1) := by
  induction l with
  | nil => simp [checkRealmEntries] at h
  | cons p t ih =>
    obtain ⟨realmID, v⟩ := p
    simp only [checkRealmEntries] at h
    split_ifs at h with hc
    · exact Or.inl ⟨(Option.some.inj h).symm, (realmID, v), List.mem_cons_self _ _, hc⟩
    · cases hg : checkGroupKeys v.length (ord.groups k realmID v) with
      | some e' =>
        rw [hg] at h
        obtain ⟨he, hm, hn⟩ := checkGroupKeys_eq_some _ _ _ hg
        have hee : e' = e := Option.some.inj h
        subst hee
        exact Or.inr ⟨he, (realmID, v), List.mem_cons_self _ _,
          ((ord.groups_perm k realmID v).mem_iff).mp hm, hn⟩
      | none =>
        rw [hg] at h
        rcases ih h with ⟨he, q, hq, hq'⟩ | ⟨he, q, hq, hq'⟩
        · exact Or.inl ⟨he, q, List.mem_cons_of_mem _ hq, hq'⟩
        · exact Or.inr ⟨he, q, List.mem_cons_of_mem _ hq, hq'⟩

theorem checkBuckets_eq_none_iff (ord : RangeOrder) (m : AuthorizationMatrix) :
    checkBuckets ord m = none ↔ ¬RealmViolation m ∧ ¬GroupViolation m := by
  induction m with
  | nil => simp [checkBuckets, RealmViolation, GroupViolation]
  | cons b t ih =>
    obtain ⟨k, u⟩ := b
    simp only [checkBuckets]
    cases hu : checkRealmEntries ord k u.length (ord.realms k u) with
    | some e =>
      simp only [reduceCtorEq, false_iff, not_and, not_not]
      intro hr
      rcases checkRealmEntries_eq_some _ _ _ _ _ hu with ⟨_, p, hp, hp'⟩ | ⟨_, p, hp, hp'⟩
      · exact absurd ⟨(k, u), List.mem_cons_self _ _, p,
          ((ord.realms_perm k u).mem_iff).mp hp, hp'⟩ hr
      · exact ⟨(k, u), List.mem_cons_self _ _, p, ((ord.realms_perm k u).mem_iff).mp hp, hp'⟩
    | none =>
      simp only [ih]
      rw [checkRealmEntries_eq_none_iff] at hu
      have hu' : ∀ p ∈ u, ¬(p.1 = "*" ∧ u.length ≠ 1) ∧ ¬("*" ∈ p.2 ∧ p.2.length ≠ 1) :=
        fun p hp => hu p (((ord.realms_perm k u).mem_iff).mpr hp)
      constructor
      · rintro ⟨hr, hg⟩
        constructor
        · rintro ⟨b, hb, p, hp, hp'⟩
          rcases List.mem_cons.mp hb with rfl | hb
          · exact (hu' p hp).1 hp'
          · exact hr ⟨b, hb, p, hp, hp'⟩
        · rintro ⟨b, hb, p, hp, hp'⟩
          rcases List.mem_cons.mp hb with rfl | hb
          · exact (hu' p hp).2 hp'
          · exact hg ⟨b, hb, p, hp, hp'⟩
      · rintro ⟨hr, hg⟩
        constructor
        · rintro ⟨b, hb, hrest⟩
          exact hr ⟨b, List.mem_cons_of_mem _ hb, hrest⟩
        · rintro ⟨b, hb, hrest⟩
          exact hg ⟨b, List.mem_cons_of_mem _ hb, hrest⟩

theorem checkBuckets_eq_some (ord : RangeOrder) (m : AuthorizationMatrix) (e : ValidateError)
    (h : checkBuckets ord m = some e) :
    (e = .AmbiguousWildcardRealm ∧ RealmViolation m) ∨
    (e = .AmbiguousWildcardGroup ∧ GroupViolation m) := by
  induction m with
  | nil => simp [checkBuckets] at h
  | cons b t ih =>
    obtain ⟨k, u⟩ := b
    simp only [checkBuckets] at h
    cases hu : checkRealmEntries ord k u.length (ord.realms k u) with
    | some e' =>
      rw [hu] at h
      have hee : e' = e := Option.some.inj h
      subst hee
      rcases checkRealmEntries_eq_some _ _ _ _ _ hu with ⟨he, p, hp, hp'⟩ | ⟨he, p, hp, hp'⟩
      · exact Or.inl ⟨he, (k, u), List.mem_cons_self _ _, p,
          ((ord.realms_perm k u).mem_iff).mp hp, hp'⟩
      · exact Or.inr ⟨he, (k, u), List.mem_cons_self _ _, p,
          ((ord.realms_perm k u).mem_iff).mp hp, hp'⟩
    | none =>
      rw [hu] at h
      rcases ih h with ⟨he, b, hb, hrest⟩ | ⟨he, b, hb, hrest⟩
      · exact Or.inl ⟨he, b, List.mem_cons_of_mem _ hb, hrest⟩
      · exact Or.inr ⟨he, b, List.mem_cons_of_mem _ hb, hrest⟩

theorem realmViolation_perm {m m' : AuthorizationMatrix} (h : m'.Perm m) :
    RealmViolation m' ↔ RealmViolation m := by
  unfold RealmViolation
  constructor
  · rintro ⟨b, hb, hrest⟩
    exact ⟨b, h.mem_iff.mp hb, hrest⟩
  · rintro ⟨b, hb, hrest⟩
    exact ⟨b, h.mem_iff.mpr hb, hrest⟩

theorem groupViolation_perm {m m' : AuthorizationMatrix} (h : m'.Perm m) :
    GroupViolation m' ↔ GroupViolation m := by
  unfold GroupViolation
  constructor
  · rintro ⟨b, hb, hrest⟩
    exact ⟨b, h.mem_iff.mp hb, hrest⟩
  · rintro ⟨b, hb, hrest⟩
    exact ⟨b, h.mem_iff.mpr hb, hrest⟩

theorem checkMatrix_eq_none_iff (ord : RangeOrder) (m : AuthorizationMatrix) :
    checkMatrix ord m = none ↔ ¬RealmViolation m ∧ ¬GroupViolation m := by
  unfold checkMatrix
  rw [checkBuckets_eq_none_iff, realmViolation_perm (ord.buckets_perm m),
    groupViolation_perm (ord.buckets_perm m)]

theorem checkMatrix_eq_some (ord : RangeOrder) (m : AuthorizationMatrix) (e : ValidateError)
    (h : checkMatrix ord m = some e) :
    (e = .AmbiguousWildcardRealm ∧ RealmViolation m) ∨
    (e = .AmbiguousWildcardGroup ∧ GroupViolation m) := by
  unfold checkMatrix at h
  rcases checkBuckets_eq_some _ _ _ h with ⟨he, hv⟩ | ⟨he, hv⟩
  · exact Or.inl ⟨he, (realmViolation_perm (ord.buckets_perm m)).mp hv⟩
  · exact Or.inr ⟨he, (groupViolation_perm (ord.buckets_perm m)).mp hv⟩

/-! ## Lemmas on the matrix builder -/

theorem mem_targetRealmsOf (k : String × String) (rs : List Authorization) (R : String) :
    R ∈ targetRealmsOf k rs ↔ ∃ r ∈ rs, bucketKey r = k ∧ r.TargetRealmID = some R := by
  simp only [targetRealmsOf, List.mem_dedup, List.mem_filterMap]
  constructor
  · rintro ⟨r, hr, h⟩
    split_ifs at h with hk
    exact ⟨r, hr, hk, h⟩
  · rintro ⟨r, hr, hk, h⟩
    exact ⟨r, hr, by simp [hk, h]⟩

theorem mem_targetGroupsOf (k : String × String) (realm : String) (rs : List Authorization)
    (G : String) :
    G ∈ targetGroupsOf k realm rs ↔
      ∃ r ∈ rs, bucketKey r = k ∧ r.TargetRealmID = some realm ∧ r.TargetGroupID = some G := by
  simp only [targetGroupsOf, List.mem_dedup, List.mem_filterMap]
  constructor
  · rintro ⟨r, hr, h⟩
    split_ifs at h with hk
    exact ⟨r, hr, hk.1, hk.2, h⟩
  · rintro ⟨r, hr, hk, hR, h⟩
    exact ⟨r, hr, by simp [hk, hR, h]⟩

theorem length_ne_one_iff_exists_ne {l : List String} (hl : l.Nodup) {a : String}
    (ha : a ∈ l) : l.length ≠ 1 ↔ ∃ b ∈ l, b ≠ a := by
  constructor
  · intro hlen
    match l, hl, ha, hlen with
    | [x], _, _, hlen => exact absurd rfl hlen
    | x :: y :: t, hl, _, _ =>
      have hxy : x ≠ y := by
        intro h
        rw [List.nodup_cons] at hl
        exact hl.1 (by simp [h])
      by_cases hx : x = a
      · exact ⟨y, by simp, fun hy => hxy (hx.trans hy.symm)⟩
      · exact ⟨x, by simp, hx⟩
  · rintro ⟨b, hb, hba⟩ hlen
    obtain ⟨c, hc⟩ := List.length_eq_one.mp hlen
    subst hc
    rw [List.mem_singleton] at ha hb
    exact hba (hb.trans ha.symm)

theorem mem_matrix (rs : List Authorization) (b : (String × String) × RealmEntries) :
    b ∈ (ConvertToAPIAuthorizations rs).Matrix ↔
      (∃ r ∈ rs, bucketKey r = b.1) ∧
      b.2 = (targetRealmsOf b.1 rs).map (fun realm => (realm, targetGroupsOf b.1 realm rs)) := by
  obtain ⟨k, u⟩ := b
  simp only [ConvertToAPIAuthorizations, List.mem_map, List.mem_dedup, Prod.mk.injEq]
  constructor
  · rintro ⟨k', ⟨r, hr, hk⟩, rfl, rfl⟩
    exact ⟨⟨r, hr, hk⟩, rfl⟩
  · rintro ⟨⟨r, hr, hk⟩, hu⟩
    exact ⟨k, ⟨r, hr, hk⟩, rfl, hu.symm⟩

theorem realmViolation_iff (rs : List Authorization) :
    RealmViolation (ConvertToAPIAuthorizations rs).Matrix ↔ WildcardRealmCoexistence rs := by
  constructor
  · rintro ⟨⟨k, u⟩, hb, ⟨R, v⟩, hp, hR, hlen⟩
    obtain ⟨_, hu⟩ := (mem_matrix rs _).mp hb
    simp only at hu hR hlen hp
    subst hu hR
    rw [List.length_map] at hlen
    have hstar : "*" ∈ targetRealmsOf k rs := by
      obtain ⟨R', hR', heq⟩ := List.mem_map.mp hp
      simp only [Prod.mk.injEq] at heq
      rw [← heq.1]
      exact hR'
    obtain ⟨R', hR', hne⟩ :=
      (length_ne_one_iff_exists_ne (List.nodup_dedup _) hstar).mp hlen
    obtain ⟨r₁, hr₁, hk₁, hT₁⟩ := (mem_targetRealmsOf _ _ _).mp hstar
    obtain ⟨r₂, hr₂, hk₂, hT₂⟩ := (mem_targetRealmsOf _ _ _).mp hR'
    refine ⟨r₁, hr₁, r₂, hr₂, hk₁.trans hk₂.symm, hT₁, ?_, ?_⟩
    · rw [hT₂]; simp
    · rw [hT₂]; simpa using hne
  · rintro ⟨r₁, hr₁, r₂, hr₂, hk, hT₁, hT₂, hT₂'⟩
    obtain ⟨R, hR⟩ := Option.ne_none_iff_exists'.mp hT₂
    have hstar : "*" ∈ targetRealmsOf (bucketKey r₁) rs :=
      (mem_targetRealmsOf _ _ _).mpr ⟨r₁, hr₁, rfl, hT₁⟩
    have hmemR : R ∈ targetRealmsOf (bucketKey r₁) rs :=
      (mem_targetRealmsOf _ _ _).mpr ⟨r₂, hr₂, hk.symm, hR⟩
    have hne : R ≠ "*" := by
      intro h
      rw [hR, h] at hT₂'
      exact hT₂' rfl
    refine ⟨(bucketKey r₁, (targetRealmsOf (bucketKey r₁) rs).map
        (fun realm => (realm, targetGroupsOf (bucketKey r₁) realm rs))),
      (mem_matrix rs _).mpr ⟨⟨r₁, hr₁, rfl⟩, rfl⟩,
      ("*", targetGroupsOf (bucketKey r₁) "*" rs), ?_, rfl, ?_⟩
    · exact List.mem_map.mpr ⟨"*", hstar, rfl⟩
    · simp only [List.length_map]
      exact (length_ne_one_iff_exists_ne (List.nodup_dedup _) hstar).mpr ⟨R, hmemR, hne⟩

theorem groupViolation_iff (rs : List Authorization) :
    GroupViolation (ConvertToAPIAuthorizations rs).Matrix ↔ WildcardGroupCoexistence rs := by
  constructor
  · rintro ⟨⟨k, u⟩, hb, ⟨R, v⟩, hp, hstar, hlen⟩
    obtain ⟨_, hu⟩ := (mem_matrix rs _).mp hb
    simp only at hu hstar hlen hp
    subst hu
    obtain ⟨R', _, heq⟩ := List.mem_map.mp hp
    simp only [Prod.mk.injEq] at heq
    obtain ⟨hRR, hv⟩ := heq
    subst hRR hv
    obtain ⟨G, hG, hne⟩ :=
      (length_ne_one_iff_exists_ne (List.nodup_dedup _) hstar).mp hlen
    obtain ⟨r₁, hr₁, hk₁, hT₁, hG₁⟩ := (mem_targetGroupsOf _ _ _ _).mp hstar
    obtain ⟨r₂, hr₂, hk₂, hT₂, hG₂⟩ := (mem_targetGroupsOf _ _ _ _).mp hG
    refine ⟨r₁, hr₁, r₂, hr₂, hk₁.trans hk₂.symm, ?_, hT₁.trans hT₂.symm, hG₁, ?_, ?_⟩
    · rw [hT₁]; simp
    · rw [hG₂]; simp
    · rw [hG₂]; simpa using hne
  · rintro ⟨r₁, hr₁, r₂, hr₂, hk, hT₁, hT, hG₁, hG₂, hG₂'⟩
    obtain ⟨R, hR⟩ := Option.ne_none_iff_exists'.mp hT₁
    obtain ⟨G, hG⟩ := Option.ne_none_iff_exists'.mp hG₂
    have hR₂ : r₂.TargetRealmID = some R := hT ▸ hR
    have hstar : "*" ∈ targetGroupsOf (bucketKey r₁) R rs :=
      (mem_targetGroupsOf _ _ _ _).mpr ⟨r₁, hr₁, rfl, hR, hG₁⟩
    have hmemG : G ∈ targetGroupsOf (bucketKey r₁) R rs :=
      (mem_targetGroupsOf _ _ _ _).mpr ⟨r₂, hr₂, hk.symm, hR₂, hG⟩
    have hne : G ≠ "*" := by
      intro h
      rw [hG, h] at hG₂'
      exact hG₂' rfl
    refine ⟨(bucketKey r₁, (targetRealmsOf (bucketKey r₁) rs).map
        (fun realm => (realm, targetGroupsOf (bucketKey r₁) realm rs))),
      (mem_matrix rs _).mpr ⟨⟨r₁, hr₁, rfl⟩, rfl⟩,
      (R, targetGroupsOf (bucketKey r₁) R rs), ?_, hstar, ?_⟩
    · exact List.mem_map.mpr
        ⟨R, (mem_targetRealmsOf _ _ _).mpr ⟨r₁, hr₁, rfl, hR⟩, rfl⟩
    · exact (length_ne_one_iff_exists_ne (List.nodup_dedup _) hstar).mpr ⟨G, hmemG, hne⟩

/-! ## Lemmas on the first loop of Validate -/

theorem checkRecord_cases (allowed : List (String × List (String × String)))
    (r : Authorization) :
    (checkRecord allowed r = .error .InvalidTargetRealm ∧ BadRealm allowed r) ∨
    (checkRecord allowed r = .error .InvalidTargetGroup ∧ BadGroup allowed r) ∨
    (checkRecord allowed r = .panic ∧ r.TargetGroupID ≠ none ∧ r.TargetRealmID = none) ∨
    (checkRecord allowed r = .nil ∧ ¬BadRealm allowed r ∧ ¬BadGroup allowed r ∧
      (r.TargetGroupID ≠ none → r.TargetRealmID ≠ none)) := by
  obtain ⟨a, b, c, realm, group⟩ := r
  cases realm with
  | none =>
    cases group with
    | none => simp [checkRecord, BadRealm, BadGroup]
    | some G => simp [checkRecord, BadRealm, BadGroup]
  | some R =>
    cases hR : lookup R allowed with
    | none => simp [checkRecord, BadRealm, BadGroup, hR]
    | some inner =>
      cases group with
      | none => simp [checkRecord, BadRealm, BadGroup, hR]
      | some G =>
        cases hG : lookup2 R G allowed with
        | none => simp [checkRecord, BadRealm, BadGroup, hR, hG]
        | some x => simp [checkRecord, BadRealm, BadGroup, hR, hG]

theorem checkRecords_append_of_nil (allowed : List (String × List (String × String)))
    (pre rest : List Authorization) (h : ∀ x ∈ pre, checkRecord allowed x = .nil) :
    checkRecords allowed (pre ++ rest) = checkRecords allowed rest := by
  induction pre with
  | nil => rfl
  | cons a t ih =>
    have ha := h a (List.mem_cons_self _ _)
    have ht := ih (fun x hx => h x (List.mem_cons_of_mem _ hx))
    show checkRecords allowed (a :: (t ++ rest)) = checkRecords allowed rest
    rw [checkRecords, ha]
    exact ht

theorem checkRecords_cons_of_ne_nil (allowed : List (String × List (String × String)))
    (r : Authorization) (rest : List Authorization) (h : checkRecord allowed r ≠ .nil) :
    checkRecords allowed (r :: rest) = checkRecord allowed r := by
  rw [checkRecords]
  cases hc : checkRecord allowed r with
  | nil => exact absurd hc h
  | error e => rfl
  | panic => rfl

theorem checkRecords_eq_nil_iff (allowed : List (String × List (String × String)))
    (rs : List Authorization) :
    checkRecords allowed rs = .nil ↔ ∀ r ∈ rs, checkRecord allowed r = .nil := by
  induction rs with
  | nil => simp [checkRecords]
  | cons a t ih =>
    simp only [checkRecords, List.forall_mem_cons]
    cases hc : checkRecord allowed a with
    | nil => simpa using ih
    | error e => simp
    | panic => simp

theorem exists_first_offender (allowed : List (String × List (String × String)))
    (rs : List Authorization) (h : ∃ r ∈ rs, checkRecord allowed r ≠ .nil) :
    ∃ pre r post, rs = pre ++ r :: post ∧ (∀ x ∈ pre, checkRecord allowed x = .nil) ∧
      checkRecord allowed r ≠ .nil := by
  induction rs with
  | nil => simp at h
  | cons a t ih =>
    by_cases ha : checkRecord allowed a = .nil
    · obtain ⟨r, hr, hne⟩ := h
      rcases List.mem_cons.mp hr with rfl | hr
      · exact absurd ha hne
      · obtain ⟨pre, r', post, heq, hpre, hr'⟩ := ih ⟨r, hr, hne⟩
        refine ⟨a :: pre, r', post, by simp [heq], ?_, hr'⟩
        intro x hx
        rcases List.mem_cons.mp hx with rfl | hx
        · exact ha
        · exact hpre x hx
    · exact ⟨[], a, t, rfl, by simp, ha⟩

theorem checkRecord_eq_nil_of (allowed : List (String × List (String × String)))
    (r : Authorization) (h1 : ¬BadRealm allowed r) (h2 : ¬BadGroup allowed r)
    (h3 : r.TargetGroupID ≠ none → r.TargetRealmID ≠ none) :
    checkRecord allowed r = .nil := by
  rcases checkRecord_cases allowed r with ⟨_, h⟩ | ⟨_, h⟩ | ⟨_, hg, hr⟩ | ⟨h, _⟩
  · exact absurd h h1
  · exact absurd h h2
  · exact absurd hr (h3 hg)
  · exact h

theorem not_badRealm_of_realmsAllowed {allowed : List (String × List (String × String))}
    {rs : List Authorization} (h : RealmsAllowed allowed rs) {r : Authorization}
    (hr : r ∈ rs) : ¬BadRealm allowed r := by
  rintro ⟨R, hR, hl⟩
  exact h r hr R hR hl

theorem not_badGroup_of_groupsAllowed {allowed : List (String × List (String × String))}
    {rs : List Authorization} (h : GroupsAllowed allowed rs) {r : Authorization}
    (hr : r ∈ rs) : ¬BadGroup allowed r := by
  rintro ⟨R, hR, G, hG, _, hl⟩
  exact h r hr R hR G hG hl

theorem checkRecords_eq_nil_of (allowed : List (String × List (String × String)))
    (rs : List Authorization) (h1 : Paired rs) (h2 : RealmsAllowed allowed rs)
    (h3 : GroupsAllowed allowed rs) : checkRecords allowed rs = .nil := by
  rw [checkRecords_eq_nil_iff]
  intro r hr
  exact checkRecord_eq_nil_of allowed r (not_badRealm_of_realmsAllowed h2 hr)
    (not_badGroup_of_groupsAllowed h3 hr) (h1 r hr)

theorem Validate_of_checkRecords_ne_nil (ord : RangeOrder) (rs : List Authorization)
    (allowed : List (String × List (String × String)))
    (h : checkRecords allowed rs ≠ .nil) : Validate ord rs allowed = checkRecords allowed rs := by
  unfold Validate
  cases hc : checkRecords allowed rs with
  | nil => exact absurd hc h
  | error e => rfl
  | panic => rfl

theorem Validate_of_checkRecords_nil (ord : RangeOrder) (rs : List Authorization)
    (allowed : List (String × List (String × String)))
    (h : checkRecords allowed rs = .nil) :
    Validate ord rs allowed =
      match checkMatrix ord (ConvertToAPIAuthorizations rs).Matrix with
      | some e => .error e
      | none => .nil := by
  unfold Validate
  rw [h]

theorem checkRecords_eq_first_offender (allowed : List (String × List (String × String)))
    (pre post : List Authorization) (r : Authorization)
    (hpre : ∀ x ∈ pre, checkRecord allowed x = .nil) (hr : checkRecord allowed r ≠ .nil) :
    checkRecords allowed (pre ++ r :: post) = checkRecord allowed r := by
  rw [checkRecords_append_of_nil allowed pre _ hpre, checkRecords_cons_of_ne_nil allowed r post hr]

theorem not_bad_of_checkRecord_nil (allowed : List (String × List (String × String)))
    (r : Authorization) (h : checkRecord allowed r = .nil) :
    ¬BadRealm allowed r ∧ ¬BadGroup allowed r := by
  rcases checkRecord_cases allowed r with ⟨h', _⟩ | ⟨h', _⟩ | ⟨h', _⟩ | ⟨_, h1, h2, _⟩
  · rw [h] at h'; cases h'
  · rw [h] at h'; cases h'
  · rw [h] at h'; cases h'
  · exact ⟨h1, h2⟩

/-- Outcome of `Validate` once the first loop has passed: `nil` when the rule set has no
wildcard coexistence, otherwise one of the two wildcard errors, for a coexistence that the
rule set does contain. -/
theorem Validate_matrix_phase (ord : RangeOrder) (rs : List Authorization)
    (allowed : List (String × List (String × String)))
    (h : checkRecords allowed rs = .nil) :
    (Validate ord rs allowed = .nil ∧
      ¬WildcardRealmCoexistence rs ∧ ¬WildcardGroupCoexistence rs) ∨
    (Validate ord rs allowed = .error .AmbiguousWildcardRealm ∧ WildcardRealmCoexistence rs) ∨
    (Validate ord rs allowed = .error .AmbiguousWildcardGroup ∧ WildcardGroupCoexistence rs) := by
  rw [Validate_of_checkRecords_nil ord rs allowed h]
  cases hm : checkMatrix ord (ConvertToAPIAuthorizations rs).Matrix with
  | none =>
    rw [checkMatrix_eq_none_iff, realmViolation_iff, groupViolation_iff] at hm
    exact Or.inl ⟨rfl, hm⟩
  | some e =>
    rcases checkMatrix_eq_some _ _ _ hm with ⟨he, hv⟩ | ⟨he, hv⟩
    · subst he
      exact Or.inr (Or.inl ⟨rfl, (realmViolation_iff rs).mp hv⟩)
    · subst he
      exact Or.inr (Or.inr ⟨rfl, (groupViolation_iff rs).mp hv⟩)

theorem Validate_eq_nil_of (ord : RangeOrder) (rs : List Authorization)
    (allowed : List (String × List (String × String)))
    (h1 : Paired rs) (h2 : RealmsAllowed allowed rs) (h3 : GroupsAllowed allowed rs)
    (h4 : ¬WildcardRealmCoexistence rs) (h5 : ¬WildcardGroupCoexistence rs) :
    Validate ord rs allowed = .nil := by
  rcases Validate_matrix_phase ord rs allowed (checkRecords_eq_nil_of allowed rs h1 h2 h3)
    with ⟨h, _⟩ | ⟨_, h⟩ | ⟨_, h⟩
  · exact h
  · exact absurd h h4
  · exact absurd h h5

/-- Outcome of `Validate` when the first loop meets an offending record: the outcome of
the first offending record in slice order. -/
theorem Validate_first_offender (ord : RangeOrder) (rs : List Authorization)
    (allowed : List (String × List (String × String)))
    (h : ∃ r ∈ rs, checkRecord allowed r ≠ .nil) :
    ∃ pre r post, rs = pre ++ r :: post ∧ (∀ x ∈ pre, checkRecord allowed x = .nil) ∧
      checkRecord allowed r ≠ .nil ∧ Validate ord rs allowed = checkRecord allowed r := by
  obtain ⟨pre, r, post, heq, hpre, hr⟩ := exists_first_offender allowed rs h
  refine ⟨pre, r, post, heq, hpre, hr, ?_⟩
  have hc : checkRecords allowed rs = checkRecord allowed r := by
    rw [heq]
    exact checkRecords_eq_first_offender allowed pre post r hpre hr
  rw [Validate_of_checkRecords_ne_nil ord rs allowed (by rw [hc]; exact hr), hc]

theorem checkRecord_ne_nil_of_badRealm (allowed : List (String × List (String × String)))
    (r : Authorization) (h : BadRealm allowed r) : checkRecord allowed r ≠ .nil := by
  intro hc
  exact (not_bad_of_checkRecord_nil allowed r hc).1 h

theorem checkRecord_ne_nil_of_badGroup (allowed : List (String × List (String × String)))
    (r : Authorization) (h : BadGroup allowed r) : checkRecord allowed r ≠ .nil := by
  intro hc
  exact (not_bad_of_checkRecord_nil allowed r hc).2 h

/-! ## Round trip on well-formed directories -/

/-- Round trip on a directory in which every entry has an ID and a name: under the
per-record condition, translating to names and back to IDs returns the rule set. -/
theorem translate_roundtrip_of_wellFormed (rs : List Authorization) (dir : List GroupRepresentation)
    (m : List (String × List (String × String)))
    (hdir : WellFormedDirectory dir)
    (h : ∀ r ∈ rs, r.TargetGroupID = none ∨
      ∃ R G N, r.TargetRealmID = some R ∧ r.TargetGroupID = some G ∧
        Resolves dir G N ∧ lookup2 R N m = some G) :
    (TranslateGroupIDIntoGroupName rs dir).map (fun named => TranslateGroupNameIntoGroupID named m)
      = some rs := by
  obtain ⟨mp, hmp⟩ := fillGroupIDMapping_isSome dir hdir [("*", "*")]
  have hmp' : groupIDMapping dir = some mp := hmp
  simp only [TranslateGroupIDIntoGroupName, hmp', Option.map_some', Option.some.injEq,
    TranslateGroupNameIntoGroupID, List.filterMap_filterMap]
  apply filterMap_eq_self_of_forall
  intro r hr
  rcases h r hr with hnone | ⟨R, G, N, hR, hG, ⟨mp2, hmp2, hN⟩, hm⟩
  · obtain ⟨a, b, c, d, e⟩ := r
    simp only at hnone
    subst hnone
    cases d <;> simp [translateIDRecord, translateNameRecord]
  · obtain ⟨a, b, c, d, e⟩ := r
    simp only at hR hG
    subst hR hG
    have : mp2 = mp := by rw [hmp'] at hmp2; exact (Option.some.inj hmp2).symm
    subst this
    simp [translateIDRecord, translateNameRecord, hN, hm]

/-- At a concrete input: one unscoped record, one concrete target and one wildcard
target. -/
theorem translate_roundtrip_of_wellFormed_witness :
    (TranslateGroupIDIntoGroupName
        [⟨"master", "g1", "read", none, none⟩, ⟨"master", "g1", "read", some "R1", some "id1"⟩,
         ⟨"master", "g1", "write", some "R1", some "*"⟩]
        [⟨some "id1", some "admins"⟩]).map
      (fun named => TranslateGroupNameIntoGroupID named [("R1", [("admins", "id1"), ("*", "*")])])
      = some [⟨"master", "g1", "read", none, none⟩,
              ⟨"master", "g1", "read", some "R1", some "id1"⟩,
              ⟨"master", "g1", "write", some "R1", some "*"⟩] :=
  translate_roundtrip_of_wellFormed _ [⟨some "id1", some "admins"⟩] [("R1", [("admins", "id1"), ("*", "*")])]
    (by decide)
    (by
      intro r hr
      simp only [List.mem_cons, List.mem_singleton, List.not_mem_nil, or_false] at hr
      rcases hr with rfl | rfl | rfl
      · exact Or.inl rfl
      · exact Or.inr ⟨"R1", "id1", "admins", rfl, rfl, ⟨_, rfl, by decide⟩, by decide⟩
      · exact Or.inr ⟨"R1", "*", "*", rfl, rfl, ⟨_, rfl, by decide⟩, by decide⟩)

/-! ## C2, C3: a target group without a target realm -/

/-- C2. Evaluation at the failing input: on the rule set made of one record with target
group `"G1"` and no target realm, `Validate` returns no error value at all, so no
`MissingTargetRealm`: it stops on the nil dereference of `auth.TargetRealmID`
(line 96). -/
theorem Validate_unpaired_panics :
    Validate RangeOrder.stored [⟨"master", "g1", "read", none, some "G1"⟩]
      [("R1", [("G1", "G1")])] = .panic ∧
    ¬∃ e, Validate RangeOrder.stored [⟨"master", "g1", "read", none, some "G1"⟩]
      [("R1", [("G1", "G1")])] = .error e := by
  have h : Validate RangeOrder.stored [⟨"master", "g1", "read", none, some "G1"⟩]
      [("R1", [("G1", "G1")])] = .panic := by decide
  exact ⟨h, fun ⟨e, he⟩ => by rw [h] at he; cases he⟩

/-- C3. Evaluation at the failing inputs: whenever the first record has a target group and
no target realm, `Validate` does not return normally: it dereferences the absent target
realm, whatever the other fields, the later records, the allow-list and the iteration
order. -/
theorem Validate_not_total (ord : RangeOrder) (realm group action G : String)
    (rest : List Authorization) (allowed : List (String × List (String × String))) :
    Validate ord (⟨realm, group, action, none, some G⟩ :: rest) allowed = .panic := by
  simp [Validate, checkRecords, checkRecord]

/-! ## C4, C5: referential integrity -/

/-- C4. Target-realm referential integrity: for every allow-list and every list of records
in which no record has a target group without a target realm, if some record has a target
realm (the wildcard `"*"` included) that is not a key of the allow-list, then `Validate`
returns an error and not nil, for every iteration order. -/
theorem Validate_rejects_unknown_target_realm (ord : RangeOrder) (rs : List Authorization)
    (allowed : List (String × List (String × String)))
    (hp : Paired rs) (h : ∃ r ∈ rs, BadRealm allowed r) :
    (∃ e, Validate ord rs allowed = .error e) ∧ Validate ord rs allowed ≠ .nil := by
  obtain ⟨r, hr, hbad⟩ := h
  obtain ⟨pre, r', post, heq, _, hne, hv⟩ := Validate_first_offender ord rs allowed
    ⟨r, hr, checkRecord_ne_nil_of_badRealm allowed r hbad⟩
  have hmem : r' ∈ rs := by rw [heq]; simp
  rcases checkRecord_cases allowed r' with ⟨hc, _⟩ | ⟨hc, _⟩ | ⟨_, hg, hn⟩ | ⟨hc, _⟩
  · rw [hv, hc]; exact ⟨⟨_, rfl⟩, by simp⟩
  · rw [hv, hc]; exact ⟨⟨_, rfl⟩, by simp⟩
  · exact absurd hn (hp r' hmem hg)
  · exact absurd hc hne

/-- C4 at a concrete input: the wildcard realm `"*"` is not an explicit key of the
allow-list. -/
theorem Validate_rejects_unknown_target_realm_witness :
    (∃ e, Validate RangeOrder.stored [⟨"master", "g1", "read", some "*", none⟩]
        [("R1", [("G1", "G1")])] = .error e) ∧
    Validate RangeOrder.stored [⟨"master", "g1", "read", some "*", none⟩]
        [("R1", [("G1", "G1")])] ≠ .nil :=
  Validate_rejects_unknown_target_realm RangeOrder.stored
    [⟨"master", "g1", "read", some "*", none⟩] [("R1", [("G1", "G1")])]
    (by decide) (by decide)

/-- C5. Target-group referential integrity: for every allow-list and every list of records
in which every record with a target group has a target realm and every present target
realm is a key of the allow-list, if some record has a target group that is not a member of
the allow-list entry of its target realm, then `Validate` returns the `InvalidTargetGroup`
error, whose message is "Invalid target group". Scenario: with the allow-list
`R1 -> {G1, G2}`, the records `(g1, read, R1, G1), (g1, read, R1, G9)` give
`InvalidTargetGroup` and the first record alone gives nil. -/
theorem Validate_invalid_target_group :
    (∀ (ord : RangeOrder) (rs : List Authorization)
        (allowed : List (String × List (String × String))),
        Paired rs → RealmsAllowed allowed rs → (∃ r ∈ rs, BadGroup allowed r) →
        Validate ord rs allowed = .error .InvalidTargetGroup) ∧
    ValidateError.InvalidTargetGroup.message = "Invalid target group" ∧
    (∀ ord : RangeOrder,
      Validate ord [⟨"master", "g1", "read", some "R1", some "G1"⟩,
                    ⟨"master", "g1", "read", some "R1", some "G9"⟩]
        [("R1", [("G1", "G1"), ("G2", "G2")])] = .error .InvalidTargetGroup ∧
      Validate ord [⟨"master", "g1", "read", some "R1", some "G1"⟩]
        [("R1", [("G1", "G1"), ("G2", "G2")])] = .nil) := by
  have general : ∀ (ord : RangeOrder) (rs : List Authorization)
      (allowed : List (String × List (String × String))),
      Paired rs → RealmsAllowed allowed rs → (∃ r ∈ rs, BadGroup allowed r) →
      Validate ord rs allowed = .error .InvalidTargetGroup := by
    intro ord rs allowed hp hra h
    obtain ⟨r, hr, hbad⟩ := h
    obtain ⟨pre, r', post, heq, _, hne, hv⟩ := Validate_first_offender ord rs allowed
      ⟨r, hr, checkRecord_ne_nil_of_badGroup allowed r hbad⟩
    have hmem : r' ∈ rs := by rw [heq]; simp
    rcases checkRecord_cases allowed r' with ⟨_, hb⟩ | ⟨hc, _⟩ | ⟨_, hg, hn⟩ | ⟨hc, _⟩
    · exact absurd hb (not_badRealm_of_realmsAllowed hra hmem)
    · rw [hv, hc]
    · exact absurd hn (hp r' hmem hg)
    · exact absurd hc hne
  refine ⟨general, rfl, fun ord => ⟨?_, ?_⟩⟩
  · exact general ord _ _ (by decide) (by decide) (by decide)
  · exact Validate_eq_nil_of ord _ _ (by decide) (by decide) (by decide) (by decide)
      (by decide)

/-- C5 at a concrete input: the scenario of the claim, visited in stored order. -/
theorem Validate_invalid_target_group_witness :
    Validate RangeOrder.stored [⟨"master", "g1", "read", some "R1", some "G1"⟩,
                                ⟨"master", "g1", "read", some "R1", some "G9"⟩]
      [("R1", [("G1", "G1"), ("G2", "G2")])] = .error .InvalidTargetGroup :=
  Validate_invalid_target_group.1 RangeOrder.stored
    [⟨"master", "g1", "read", some "R1", some "G1"⟩,
     ⟨"master", "g1", "read", some "R1", some "G9"⟩]
    [("R1", [("G1", "G1"), ("G2", "G2")])] (by decide) (by decide) (by decide)

/-! ## C6, C7, C8: wildcard exclusivity and acceptance -/

/-- C6. Wildcard-realm exclusivity: for every allow-list and every list of records that
passes the pairing and referential-integrity checks and has no wildcard-group coexistence,
if two records of the same `(groupID, action)` have target realms `"*"` and a realm other
than `"*"`, then `Validate` returns the `AmbiguousWildcardRealm` error, for every
iteration order. -/
theorem Validate_ambiguous_wildcard_realm (ord : RangeOrder) (rs : List Authorization)
    (allowed : List (String × List (String × String)))
    (hp : Paired rs) (hr : RealmsAllowed allowed rs) (hg : GroupsAllowed allowed rs)
    (hng : ¬WildcardGroupCoexistence rs) (h : WildcardRealmCoexistence rs) :
    Validate ord rs allowed = .error .AmbiguousWildcardRealm := by
  rcases Validate_matrix_phase ord rs allowed (checkRecords_eq_nil_of allowed rs hp hr hg)
    with ⟨_, h', _⟩ | ⟨h', _⟩ | ⟨_, h'⟩
  · exact absurd h h'
  · exact h'
  · exact absurd h' hng

/-- C6 at the records `(g, a, "*", absent), (g, a, R1, G1)` of the claim. -/
theorem Validate_ambiguous_wildcard_realm_witness :
    Validate RangeOrder.stored
      [⟨"master", "g", "a", some "*", none⟩, ⟨"master", "g", "a", some "R1", some "G1"⟩]
      [("*", []), ("R1", [("G1", "G1")])] = .error .AmbiguousWildcardRealm :=
  Validate_ambiguous_wildcard_realm RangeOrder.stored
    [⟨"master", "g", "a", some "*", none⟩, ⟨"master", "g", "a", some "R1", some "G1"⟩]
    [("*", []), ("R1", [("G1", "G1")])]
    (by decide) (by decide) (by decide) (by decide) (by decide)

/-- C7. Wildcard-group exclusivity: for every allow-list and every list of records that
passes the pairing and referential-integrity checks and has no wildcard-realm coexistence,
if two records of the same `(groupID, action, targetRealmID)` have target groups `"*"` and
a group other than `"*"`, then `Validate` returns the `AmbiguousWildcardGroup` error, for
every iteration order. -/
theorem Validate_ambiguous_wildcard_group (ord : RangeOrder) (rs : List Authorization)
    (allowed : List (String × List (String × String)))
    (hp : Paired rs) (hr : RealmsAllowed allowed rs) (hg : GroupsAllowed allowed rs)
    (hnr : ¬WildcardRealmCoexistence rs) (h : WildcardGroupCoexistence rs) :
    Validate ord rs allowed = .error .AmbiguousWildcardGroup := by
  rcases Validate_matrix_phase ord rs allowed (checkRecords_eq_nil_of allowed rs hp hr hg)
    with ⟨_, _, h'⟩ | ⟨_, h'⟩ | ⟨h', _⟩
  · exact absurd h h'
  · exact absurd h' hnr
  · exact h'

/-- C7 at the records `(g, a, R1, "*"), (g, a, R1, G1)` of the claim. -/
theorem Validate_ambiguous_wildcard_group_witness :
    Validate RangeOrder.stored
      [⟨"master", "g", "a", some "R1", some "*"⟩, ⟨"master", "g", "a", some "R1", some "G1"⟩]
      [("R1", [("*", "*"), ("G1", "G1")])] = .error .AmbiguousWildcardGroup :=
  Validate_ambiguous_wildcard_group RangeOrder.stored
    [⟨"master", "g", "a", some "R1", some "*"⟩, ⟨"master", "g", "a", some "R1", some "G1"⟩]
    [("R1", [("*", "*"), ("G1", "G1")])]
    (by decide) (by decide) (by decide) (by decide) (by decide)

/-- C8. `Validate` accepts every well-formed rule set: it returns nil, for every iteration
order, when (1) every record with a target group has a target realm, (2) every present
target realm is a key of the allow-list, (3) every present target group is a member of the
allow-list entry of its target realm, (4) no `(groupID, action)` bucket holds target realm
`"*"` together with another target realm and (5) no `(groupID, action, targetRealmID)`
bucket holds target group `"*"` together with another target group. -/
theorem Validate_accepts_well_formed (ord : RangeOrder) (rs : List Authorization)
    (allowed : List (String × List (String × String)))
    (h1 : Paired rs) (h2 : RealmsAllowed allowed rs) (h3 : GroupsAllowed allowed rs)
    (h4 : ¬WildcardRealmCoexistence rs) (h5 : ¬WildcardGroupCoexistence rs) :
    Validate ord rs allowed = .nil := by
  rcases Validate_matrix_phase ord rs allowed (checkRecords_eq_nil_of allowed rs h1 h2 h3)
    with ⟨h, _⟩ | ⟨_, h⟩ | ⟨_, h⟩
  · exact h
  · exact absurd h h4
  · exact absurd h h5

/-- C8 at a concrete rule set with an unscoped grant, a wildcard realm, a wildcard group and
concrete targets in separate buckets. -/
theorem Validate_accepts_well_formed_witness :
    Validate RangeOrder.reversed
      [⟨"master", "g1", "read", none, none⟩, ⟨"master", "g1", "read", some "*", none⟩,
       ⟨"master", "g2", "read", some "R1", some "*"⟩,
       ⟨"master", "g2", "write", some "R1", some "G1"⟩,
       ⟨"master", "g2", "write", some "R2", none⟩]
      [("*", []), ("R1", [("*", "*"), ("G1", "G1")]), ("R2", [])] = .nil :=
  Validate_accepts_well_formed RangeOrder.reversed
    [⟨"master", "g1", "read", none, none⟩, ⟨"master", "g1", "read", some "*", none⟩,
     ⟨"master", "g2", "read", some "R1", some "*"⟩,
     ⟨"master", "g2", "write", some "R1", some "G1"⟩,
     ⟨"master", "g2", "write", some "R2", none⟩]
    [("*", []), ("R1", [("*", "*"), ("G1", "G1")]), ("R2", [])]
    (by decide) (by decide) (by decide) (by decide) (by decide)

/-! ## C9, C10: which error is returned -/

/-- C9, counterexample. With the allow-list `R1 -> {G1}`, the rule set
`(g, a, R1, G9), (g, a, R2, absent)` has no pairing violation, holds a record whose target
realm `R2` is not an allowed key and a record with the allowed realm `R1` whose target
group `G9` is not allowed, and `Validate` returns `InvalidTargetGroup`, not
`InvalidTargetRealm`: the record with the bad group comes first. -/
theorem Validate_integrity_order_counterexample :
    Paired [⟨"master", "g", "a", some "R1", some "G9"⟩, ⟨"master", "g", "a", some "R2", none⟩] ∧
    (∃ r ∈ [(⟨"master", "g", "a", some "R1", some "G9"⟩ : Authorization),
            ⟨"master", "g", "a", some "R2", none⟩], BadRealm [("R1", [("G1", "G1")])] r) ∧
    (∃ r ∈ [(⟨"master", "g", "a", some "R1", some "G9"⟩ : Authorization),
            ⟨"master", "g", "a", some "R2", none⟩], BadGroup [("R1", [("G1", "G1")])] r) ∧
    Validate RangeOrder.stored
      [⟨"master", "g", "a", some "R1", some "G9"⟩, ⟨"master", "g", "a", some "R2", none⟩]
      [("R1", [("G1", "G1")])] = .error .InvalidTargetGroup ∧
    Validate RangeOrder.stored
      [⟨"master", "g", "a", some "R1", some "G9"⟩, ⟨"master", "g", "a", some "R2", none⟩]
      [("R1", [("G1", "G1")])] ≠ .error .InvalidTargetRealm := by
  decide

/-- C9, amended. The two integrity checks run record by record: for every allow-list and
every list of records without a pairing violation that contains a record whose target realm
is not an allowed key and a record (with an allowed realm) whose target group is not
allowed, `Validate` returns the error of the first offending record in list order:
`InvalidTargetRealm` when that record has a target realm that is not allowed,
`InvalidTargetGroup` when it has a target group that is not allowed. -/
theorem Validate_integrity_first_offender (ord : RangeOrder) (rs : List Authorization)
    (allowed : List (String × List (String × String)))
    (hp : Paired rs) (hr : ∃ r ∈ rs, BadRealm allowed r) (_hg : ∃ r ∈ rs, BadGroup allowed r) :
    ∃ pre r post, rs = pre ++ r :: post ∧
      (∀ x ∈ pre, ¬BadRealm allowed x ∧ ¬BadGroup allowed x) ∧
      ((BadRealm allowed r ∧ Validate ord rs allowed = .error .InvalidTargetRealm) ∨
       (BadGroup allowed r ∧ Validate ord rs allowed = .error .InvalidTargetGroup)) := by
  obtain ⟨r, hmem, hbad⟩ := hr
  obtain ⟨pre, r', post, heq, hpre, hne, hv⟩ := Validate_first_offender ord rs allowed
    ⟨r, hmem, checkRecord_ne_nil_of_badRealm allowed r hbad⟩
  have hmem' : r' ∈ rs := by rw [heq]; simp
  refine ⟨pre, r', post, heq, fun x hx => not_bad_of_checkRecord_nil allowed x (hpre x hx), ?_⟩
  rcases checkRecord_cases allowed r' with ⟨hc, hb⟩ | ⟨hc, hb⟩ | ⟨_, hg, hn⟩ | ⟨hc, _⟩
  · exact Or.inl ⟨hb, by rw [hv, hc]⟩
  · exact Or.inr ⟨hb, by rw [hv, hc]⟩
  · exact absurd hn (hp r' hmem' hg)
  · exact absurd hc hne

/-- C9 amended, at a concrete input: the record with the bad realm comes first. -/
theorem Validate_integrity_first_offender_witness :
    ∃ pre r post,
      [(⟨"master", "g", "a", some "R2", none⟩ : Authorization),
        ⟨"master", "g", "a", some "R1", some "G9"⟩] = pre ++ r :: post ∧
      (∀ x ∈ pre, ¬BadRealm [("R1", [("G1", "G1")])] x ∧ ¬BadGroup [("R1", [("G1", "G1")])] x) ∧
      ((BadRealm [("R1", [("G1", "G1")])] r ∧
          Validate RangeOrder.stored
            [⟨"master", "g", "a", some "R2", none⟩, ⟨"master", "g", "a", some "R1", some "G9"⟩]
            [("R1", [("G1", "G1")])] = .error .InvalidTargetRealm) ∨
       (BadGroup [("R1", [("G1", "G1")])] r ∧
          Validate RangeOrder.stored
            [⟨"master", "g", "a", some "R2", none⟩, ⟨"master", "g", "a", some "R1", some "G9"⟩]
            [("R1", [("G1", "G1")])] = .error .InvalidTargetGroup)) :=
  Validate_integrity_first_offender RangeOrder.stored
    [⟨"master", "g", "a", some "R2", none⟩, ⟨"master", "g", "a", some "R1", some "G9"⟩]
    [("R1", [("G1", "G1")])] (by decide) (by decide) (by decide)

/-- C10, counterexample. With the allow-list `"*" -> {}, R1 -> {"*", G1}`, the rule set
`(g, a, R1, "*"), (g, a, R1, G1), (g, a, "*", absent)` passes the integrity checks and
holds a wildcard-realm and a wildcard-group coexistence; `Validate` returns
`AmbiguousWildcardGroup` when the realm entry `R1` of the bucket is visited before the
entry `"*"`, and `AmbiguousWildcardRealm` when it is visited after it. -/
theorem Validate_wildcard_order_counterexample :
    Paired [⟨"master", "g", "a", some "R1", some "*"⟩,
            ⟨"master", "g", "a", some "R1", some "G1"⟩, ⟨"master", "g", "a", some "*", none⟩] ∧
    RealmsAllowed [("*", []), ("R1", [("*", "*"), ("G1", "G1")])]
      [⟨"master", "g", "a", some "R1", some "*"⟩,
       ⟨"master", "g", "a", some "R1", some "G1"⟩, ⟨"master", "g", "a", some "*", none⟩] ∧
    GroupsAllowed [("*", []), ("R1", [("*", "*"), ("G1", "G1")])]
      [⟨"master", "g", "a", some "R1", some "*"⟩,
       ⟨"master", "g", "a", some "R1", some "G1"⟩, ⟨"master", "g", "a", some "*", none⟩] ∧
    WildcardRealmCoexistence
      [⟨"master", "g", "a", some "R1", some "*"⟩,
       ⟨"master", "g", "a", some "R1", some "G1"⟩, ⟨"master", "g", "a", some "*", none⟩] ∧
    WildcardGroupCoexistence
      [⟨"master", "g", "a", some "R1", some "*"⟩,
       ⟨"master", "g", "a", some "R1", some "G1"⟩, ⟨"master", "g", "a", some "*", none⟩] ∧
    Validate RangeOrder.stored
      [⟨"master", "g", "a", some "R1", some "*"⟩,
       ⟨"master", "g", "a", some "R1", some "G1"⟩, ⟨"master", "g", "a", some "*", none⟩]
      [("*", []), ("R1", [("*", "*"), ("G1", "G1")])] = .error .AmbiguousWildcardGroup ∧
    Validate RangeOrder.reversed
      [⟨"master", "g", "a", some "R1", some "*"⟩,
       ⟨"master", "g", "a", some "R1", some "G1"⟩, ⟨"master", "g", "a", some "*", none⟩]
      [("*", []), ("R1", [("*", "*"), ("G1", "G1")])] = .error .AmbiguousWildcardRealm := by
  decide

/-- C10, amended. For every allow-list and every list of records that passes the integrity
checks and contains both a wildcard-realm coexistence and a wildcard-group coexistence,
`Validate` returns `AmbiguousWildcardRealm` or `AmbiguousWildcardGroup` and never nil, for
every order in which the matrix maps are visited; which of the two errors is returned
depends on that order. -/
theorem Validate_wildcard_either_error (ord : RangeOrder) (rs : List Authorization)
    (allowed : List (String × List (String × String)))
    (hp : Paired rs) (hr : RealmsAllowed allowed rs) (hg : GroupsAllowed allowed rs)
    (h : WildcardRealmCoexistence rs) (_h' : WildcardGroupCoexistence rs) :
    Validate ord rs allowed = .error .AmbiguousWildcardRealm ∨
    Validate ord rs allowed = .error .AmbiguousWildcardGroup := by
  rcases Validate_matrix_phase ord rs allowed (checkRecords_eq_nil_of allowed rs hp hr hg)
    with ⟨_, hn, _⟩ | ⟨hv, _⟩ | ⟨hv, _⟩
  · exact absurd h hn
  · exact Or.inl hv
  · exact Or.inr hv

/-- C10 amended, at a concrete input: two buckets, one with each coexistence. -/
theorem Validate_wildcard_either_error_witness :
    Validate RangeOrder.stored
      [⟨"master", "g1", "a", some "*", none⟩, ⟨"master", "g1", "a", some "R1", none⟩,
       ⟨"master", "g2", "a", some "R1", some "*"⟩, ⟨"master", "g2", "a", some "R1", some "G1"⟩]
      [("*", []), ("R1", [("*", "*"), ("G1", "G1")])] = .error .AmbiguousWildcardRealm ∨
    Validate RangeOrder.stored
      [⟨"master", "g1", "a", some "*", none⟩, ⟨"master", "g1", "a", some "R1", none⟩,
       ⟨"master", "g2", "a", some "R1", some "*"⟩, ⟨"master", "g2", "a", some "R1", some "G1"⟩]
      [("*", []), ("R1", [("*", "*"), ("G1", "G1")])] = .error .AmbiguousWildcardGroup :=
  Validate_wildcard_either_error RangeOrder.stored
    [⟨"master", "g1", "a", some "*", none⟩, ⟨"master", "g1", "a", some "R1", none⟩,
     ⟨"master", "g2", "a", some "R1", some "*"⟩, ⟨"master", "g2", "a", some "R1", some "G1"⟩]
    [("*", []), ("R1", [("*", "*"), ("G1", "G1")])]
    (by decide) (by decide) (by decide) (by decide) (by decide)

/-! ## Lemmas on the translators, record by record -/

theorem translateIDRecord_eta (mapping : List (String × String)) (r : Authorization) :
    translateIDRecord mapping r =
      match r.TargetGroupID with
      | none => some r
      | some gid =>
        match lookup gid mapping with
        | none => none
        | some v => some { r with TargetGroupID := some v } := by
  obtain ⟨a, b, c, d, e⟩ := r
  cases e with
  | none => rfl
  | some gid => rfl

theorem translateNameRecord_eta (mapper : List (String × List (String × String)))
    (r : Authorization) :
    translateNameRecord mapper r =
      match r.TargetRealmID, r.TargetGroupID with
      | some realm, some name =>
        match lookup2 realm name mapper with
        | none => none
        | some g => some { r with TargetGroupID := some g }
      | _, _ => some { r with TargetGroupID := none } := by
  obtain ⟨a, b, c, d, e⟩ := r
  cases d <;> cases e <;> rfl

theorem TranslateGroupIDIntoGroupName_eq (rs : List Authorization)
    (dir : List GroupRepresentation) (mp : List (String × String))
    (h : groupIDMapping dir = some mp) :
    TranslateGroupIDIntoGroupName rs dir = some (rs.filterMap (translateIDRecord mp)) := by
  simp only [TranslateGroupIDIntoGroupName, h]

theorem groupIDMapping_isSome (dir : List GroupRepresentation) (h : WellFormedDirectory dir) :
    ∃ mp, groupIDMapping dir = some mp :=
  fillGroupIDMapping_isSome dir h [("*", "*")]

theorem resolves_iff (dir : List GroupRepresentation) (mp : List (String × String))
    (h : groupIDMapping dir = some mp) (G N : String) :
    Resolves dir G N ↔ lookup G mp = some N := by
  constructor
  · rintro ⟨mp', hmp', hl⟩
    rw [h] at hmp'
    cases hmp'
    exact hl
  · intro hl
    exact ⟨mp, h, hl⟩

theorem length_filterMap_add_countP {α β : Type} (f : α → Option β) (l : List α) :
    (l.filterMap f).length + l.countP (fun a => (f a).isNone) = l.length := by
  induction l with
  | nil => rfl
  | cons a t ih =>
    cases hfa : f a with
    | none =>
      rw [List.filterMap_cons_none hfa, List.countP_cons_of_pos _ _ (by simp [hfa]),
        List.length_cons]
      omega
    | some b =>
      rw [List.filterMap_cons_some hfa, List.countP_cons_of_neg _ _ (by simp [hfa]),
        List.length_cons, List.length_cons]
      omega

theorem filterMap_map_eq_filter_map {α β γ : Type} (f : α → Option β) (kα : α → γ)
    (kβ : β → γ) (h : ∀ a b, f a = some b → kβ b = kα a) (l : List α) :
    (l.filterMap f).map kβ = (l.filter (fun a => (f a).isSome)).map kα := by
  induction l with
  | nil => rfl
  | cons a t ih =>
    cases hfa : f a with
    | none =>
      rw [List.filterMap_cons_none hfa, List.filter_cons_of_neg (by simp [hfa])]
      exact ih
    | some b =>
      rw [List.filterMap_cons_some hfa, List.filter_cons_of_pos (by simp [hfa]),
        List.map_cons, List.map_cons, ih, h a b hfa]

theorem translateIDRecord_isNone (dir : List GroupRepresentation)
    (mp : List (String × String)) (h : groupIDMapping dir = some mp) (r : Authorization) :
    (translateIDRecord mp r).isNone = unresolvableID dir r := by
  obtain ⟨a, b, c, d, e⟩ := r
  cases e with
  | none => simp [translateIDRecord, unresolvableID]
  | some gid =>
    cases hl : lookup gid mp <;> simp [translateIDRecord, unresolvableID, h, hl]

theorem translateNameRecord_isNone (mapper : List (String × List (String × String)))
    (r : Authorization) :
    (translateNameRecord mapper r).isNone = unresolvableName mapper r := by
  obtain ⟨a, b, c, d, e⟩ := r
  cases d with
  | none => cases e <;> simp [translateNameRecord, unresolvableName]
  | some realm =>
    cases e with
    | none => simp [translateNameRecord, unresolvableName]
    | some name =>
      cases hl : lookup2 realm name mapper <;> simp [translateNameRecord, unresolvableName, hl]

theorem translateIDRecord_fields (mp : List (String × String)) (a b : Authorization)
    (h : translateIDRecord mp a = some b) : untranslatedFields b = untranslatedFields a := by
  obtain ⟨a1, a2, a3, a4, a5⟩ := a
  cases a5 with
  | none =>
    simp only [translateIDRecord, Option.some.injEq] at h
    subst h
    rfl
  | some gid =>
    cases hl : lookup gid mp with
    | none => simp [translateIDRecord, hl] at h
    | some v =>
      simp only [translateIDRecord, hl, Option.some.injEq] at h
      subst h
      rfl

/-! ## From group IDs to group names (with C17) -/

/-- On a directory in which every entry has an ID and a name, a record with a target group
ID is translated in place when the directory resolves the ID, and the output has no record
at its place otherwise. -/
theorem TranslateGroupIDIntoGroupName_resolves_or_drops_of_wellFormed (pre post : List Authorization)
    (r : Authorization) (dir : List GroupRepresentation) (G : String)
    (hdir : WellFormedDirectory dir) (hG : r.TargetGroupID = some G) :
    ∃ outPre outPost,
      TranslateGroupIDIntoGroupName pre dir = some outPre ∧
      TranslateGroupIDIntoGroupName post dir = some outPost ∧
      (∀ N, Resolves dir G N →
        TranslateGroupIDIntoGroupName (pre ++ r :: post) dir =
          some (outPre ++ { r with TargetGroupID := some N } :: outPost)) ∧
      ((∀ N, ¬Resolves dir G N) →
        TranslateGroupIDIntoGroupName (pre ++ r :: post) dir = some (outPre ++ outPost)) := by
  obtain ⟨mp, hmp⟩ := groupIDMapping_isSome dir hdir
  refine ⟨pre.filterMap (translateIDRecord mp), post.filterMap (translateIDRecord mp),
    TranslateGroupIDIntoGroupName_eq pre dir mp hmp,
    TranslateGroupIDIntoGroupName_eq post dir mp hmp, ?_, ?_⟩
  · intro N hN
    have hl := (resolves_iff dir mp hmp G N).mp hN
    have hr : translateIDRecord mp r = some { r with TargetGroupID := some N } := by
      rw [translateIDRecord_eta, hG]
      simp only [hl]
    rw [TranslateGroupIDIntoGroupName_eq _ dir mp hmp, List.filterMap_append,
      List.filterMap_cons_some hr]
  · intro hN
    have hl : lookup G mp = none := by
      cases hl : lookup G mp with
      | none => rfl
      | some N => exact absurd ((resolves_iff dir mp hmp G N).mpr hl) (hN N)
    have hr : translateIDRecord mp r = none := by
      rw [translateIDRecord_eta, hG]
      simp only [hl]
    rw [TranslateGroupIDIntoGroupName_eq _ dir mp hmp, List.filterMap_append,
      List.filterMap_cons_none hr]

/-- At a concrete input: the middle record has the unknown group ID `"id9"`. -/
theorem TranslateGroupIDIntoGroupName_resolves_or_drops_of_wellFormed_witness :
    ∃ outPre outPost,
      TranslateGroupIDIntoGroupName [⟨"master", "g1", "read", some "R1", some "id1"⟩]
        [⟨some "id1", some "admins"⟩] = some outPre ∧
      TranslateGroupIDIntoGroupName [⟨"master", "g3", "read", none, none⟩]
        [⟨some "id1", some "admins"⟩] = some outPost ∧
      (∀ N, Resolves [⟨some "id1", some "admins"⟩] "id9" N →
        TranslateGroupIDIntoGroupName
          ([⟨"master", "g1", "read", some "R1", some "id1"⟩] ++
            ⟨"master", "g2", "read", some "R1", some "id9"⟩ ::
            [⟨"master", "g3", "read", none, none⟩])
          [⟨some "id1", some "admins"⟩] =
          some (outPre ++
            { (⟨"master", "g2", "read", some "R1", some "id9"⟩ : Authorization) with
              TargetGroupID := some N } :: outPost)) ∧
      ((∀ N, ¬Resolves [⟨some "id1", some "admins"⟩] "id9" N) →
        TranslateGroupIDIntoGroupName
          ([⟨"master", "g1", "read", some "R1", some "id1"⟩] ++
            ⟨"master", "g2", "read", some "R1", some "id9"⟩ ::
            [⟨"master", "g3", "read", none, none⟩])
          [⟨some "id1", some "admins"⟩] = some (outPre ++ outPost)) :=
  TranslateGroupIDIntoGroupName_resolves_or_drops_of_wellFormed
    [⟨"master", "g1", "read", some "R1", some "id1"⟩]
    [⟨"master", "g3", "read", none, none⟩]
    ⟨"master", "g2", "read", some "R1", some "id9"⟩
    [⟨some "id1", some "admins"⟩] "id9" (by decide) rfl

/-- On a directory in which every entry has an ID and a name, a record without target group
is in the output unchanged, at its place. -/
theorem TranslateGroupIDIntoGroupName_copies_untargeted_of_wellFormed (pre post : List Authorization)
    (r : Authorization) (dir : List GroupRepresentation)
    (hdir : WellFormedDirectory dir) (hG : r.TargetGroupID = none) :
    ∃ outPre outPost,
      TranslateGroupIDIntoGroupName pre dir = some outPre ∧
      TranslateGroupIDIntoGroupName post dir = some outPost ∧
      TranslateGroupIDIntoGroupName (pre ++ r :: post) dir = some (outPre ++ r :: outPost) := by
  obtain ⟨mp, hmp⟩ := groupIDMapping_isSome dir hdir
  refine ⟨pre.filterMap (translateIDRecord mp), post.filterMap (translateIDRecord mp),
    TranslateGroupIDIntoGroupName_eq pre dir mp hmp,
    TranslateGroupIDIntoGroupName_eq post dir mp hmp, ?_⟩
  have hr : translateIDRecord mp r = some r := by
    rw [translateIDRecord_eta, hG]
  rw [TranslateGroupIDIntoGroupName_eq _ dir mp hmp, List.filterMap_append,
    List.filterMap_cons_some hr]

/-- At a concrete input: a record with a target realm and no target group, after a
record that is dropped. -/
theorem TranslateGroupIDIntoGroupName_copies_untargeted_of_wellFormed_witness :
    ∃ outPre outPost,
      TranslateGroupIDIntoGroupName [⟨"master", "g1", "read", some "R1", some "id9"⟩]
        [⟨some "id1", some "admins"⟩] = some outPre ∧
      TranslateGroupIDIntoGroupName [] [⟨some "id1", some "admins"⟩] = some outPost ∧
      TranslateGroupIDIntoGroupName
        ([⟨"master", "g1", "read", some "R1", some "id9"⟩] ++
          ⟨"master", "g2", "read", some "R2", none⟩ :: [])
        [⟨some "id1", some "admins"⟩] =
        some (outPre ++ (⟨"master", "g2", "read", some "R2", none⟩ : Authorization) :: outPost) :=
  TranslateGroupIDIntoGroupName_copies_untargeted_of_wellFormed
    [⟨"master", "g1", "read", some "R1", some "id9"⟩] []
    ⟨"master", "g2", "read", some "R2", none⟩ [⟨some "id1", some "admins"⟩] (by decide) rfl

/-- On a directory in which every entry has an ID and a name, the output has the length of
the input minus the number of records whose target group ID is not resolved. -/
theorem TranslateGroupIDIntoGroupName_length_of_wellFormed (rs : List Authorization)
    (dir : List GroupRepresentation) (hdir : WellFormedDirectory dir) :
    ∃ out, TranslateGroupIDIntoGroupName rs dir = some out ∧
      out.length = rs.length - rs.countP (unresolvableID dir) ∧
      out.length + rs.countP (unresolvableID dir) = rs.length ∧
      ∀ r, unresolvableID dir r = true ↔
        ∃ G, r.TargetGroupID = some G ∧ ∀ N, ¬Resolves dir G N := by
  obtain ⟨mp, hmp⟩ := groupIDMapping_isSome dir hdir
  have hcount : (rs.filterMap (translateIDRecord mp)).length +
      rs.countP (unresolvableID dir) = rs.length := by
    have h := length_filterMap_add_countP (translateIDRecord mp) rs
    have hfun : (fun a => (translateIDRecord mp a).isNone) = unresolvableID dir :=
      funext (translateIDRecord_isNone dir mp hmp)
    rw [hfun] at h
    exact h
  refine ⟨rs.filterMap (translateIDRecord mp), TranslateGroupIDIntoGroupName_eq rs dir mp hmp,
    by omega, hcount, ?_⟩
  intro r
  obtain ⟨a, b, c, d, e⟩ := r
  cases e with
  | none => simp [unresolvableID]
  | some gid =>
    simp only [unresolvableID, hmp, Option.some.injEq, exists_eq_left', resolves_iff dir mp hmp]
    cases hl : lookup gid mp <;> simp

/-- At a concrete input: three records, one with an unknown target group ID. -/
theorem TranslateGroupIDIntoGroupName_length_of_wellFormed_witness :
    ∃ out,
      TranslateGroupIDIntoGroupName
        [⟨"master", "g1", "read", some "R1", some "id1"⟩,
         ⟨"master", "g2", "read", some "R1", some "id9"⟩, ⟨"master", "g3", "read", none, none⟩]
        [⟨some "id1", some "admins"⟩] = some out ∧
      out.length =
        [(⟨"master", "g1", "read", some "R1", some "id1"⟩ : Authorization),
          ⟨"master", "g2", "read", some "R1", some "id9"⟩,
          ⟨"master", "g3", "read", none, none⟩].length -
        [(⟨"master", "g1", "read", some "R1", some "id1"⟩ : Authorization),
          ⟨"master", "g2", "read", some "R1", some "id9"⟩,
          ⟨"master", "g3", "read", none, none⟩].countP
          (unresolvableID [⟨some "id1", some "admins"⟩]) ∧
      out.length +
        [(⟨"master", "g1", "read", some "R1", some "id1"⟩ : Authorization),
          ⟨"master", "g2", "read", some "R1", some "id9"⟩,
          ⟨"master", "g3", "read", none, none⟩].countP
          (unresolvableID [⟨some "id1", some "admins"⟩]) =
        [(⟨"master", "g1", "read", some "R1", some "id1"⟩ : Authorization),
          ⟨"master", "g2", "read", some "R1", some "id9"⟩,
          ⟨"master", "g3", "read", none, none⟩].length ∧
      ∀ r, unresolvableID [⟨some "id1", some "admins"⟩] r = true ↔
        ∃ G, r.TargetGroupID = some G ∧ ∀ N, ¬Resolves [⟨some "id1", some "admins"⟩] G N :=
  TranslateGroupIDIntoGroupName_length_of_wellFormed
    [⟨"master", "g1", "read", some "R1", some "id1"⟩,
     ⟨"master", "g2", "read", some "R1", some "id9"⟩, ⟨"master", "g3", "read", none, none⟩]
    [⟨some "id1", some "admins"⟩] (by decide)

/-- On a directory in which every entry has an ID and a name, the copied fields of the
output are those of the kept input records, in input order. -/
theorem TranslateGroupIDIntoGroupName_order_of_wellFormed (rs : List Authorization)
    (dir : List GroupRepresentation) (hdir : WellFormedDirectory dir) :
    ∃ out, TranslateGroupIDIntoGroupName rs dir = some out ∧
      out.map untranslatedFields =
        (rs.filter (fun r => !unresolvableID dir r)).map untranslatedFields ∧
      List.Sublist (out.map untranslatedFields) (rs.map untranslatedFields) := by
  obtain ⟨mp, hmp⟩ := groupIDMapping_isSome dir hdir
  have hkept : (rs.filterMap (translateIDRecord mp)).map untranslatedFields =
      (rs.filter (fun r => !unresolvableID dir r)).map untranslatedFields := by
    rw [filterMap_map_eq_filter_map (translateIDRecord mp) untranslatedFields
      untranslatedFields (fun a b h => translateIDRecord_fields mp a b h) rs]
    have hfun : (fun a => (translateIDRecord mp a).isSome) =
        (fun r => !unresolvableID dir r) := by
      funext a
      rw [← translateIDRecord_isNone dir mp hmp a]
      cases translateIDRecord mp a <;> rfl
    rw [hfun]
  refine ⟨rs.filterMap (translateIDRecord mp), TranslateGroupIDIntoGroupName_eq rs dir mp hmp,
    hkept, ?_⟩
  rw [hkept]
  exact List.Sublist.map _ (List.filter_sublist _)

/-- At a concrete input: the dropped record is the middle one. -/
theorem TranslateGroupIDIntoGroupName_order_of_wellFormed_witness :
    ∃ out,
      TranslateGroupIDIntoGroupName
        [⟨"master", "g1", "read", some "R1", some "id1"⟩,
         ⟨"master", "g2", "read", some "R1", some "id9"⟩, ⟨"master", "g3", "read", none, none⟩]
        [⟨some "id1", some "admins"⟩] = some out ∧
      out.map untranslatedFields =
        ([(⟨"master", "g1", "read", some "R1", some "id1"⟩ : Authorization),
          ⟨"master", "g2", "read", some "R1", some "id9"⟩,
          ⟨"master", "g3", "read", none, none⟩].filter
          (fun r => !unresolvableID [⟨some "id1", some "admins"⟩] r)).map untranslatedFields ∧
      List.Sublist (out.map untranslatedFields)
        ([(⟨"master", "g1", "read", some "R1", some "id1"⟩ : Authorization),
          ⟨"master", "g2", "read", some "R1", some "id9"⟩,
          ⟨"master", "g3", "read", none, none⟩].map untranslatedFields) :=
  TranslateGroupIDIntoGroupName_order_of_wellFormed
    [⟨"master", "g1", "read", some "R1", some "id1"⟩,
     ⟨"master", "g2", "read", some "R1", some "id9"⟩, ⟨"master", "g3", "read", none, none⟩]
    [⟨some "id1", some "admins"⟩] (by decide)

theorem fillGroupIDMapping_lookup_ne_none (k : String) (groups : List GroupRepresentation)
    (init mp : List (String × String)) (h : fillGroupIDMapping groups init = some mp)
    (hk : lookup k init ≠ none) : lookup k mp ≠ none := by
  induction groups generalizing init with
  | nil =>
    simp only [fillGroupIDMapping, Option.some.injEq] at h
    subst h
    exact hk
  | cons g gs ih =>
    obtain ⟨id, name⟩ := g
    cases id with
    | none => simp [fillGroupIDMapping] at h
    | some id =>
      cases name with
      | none => simp [fillGroupIDMapping] at h
      | some name =>
        simp only [fillGroupIDMapping] at h
        apply ih _ h
        simp only [lookup]
        split_ifs
        · simp
        · exact hk

theorem fillGroupIDMapping_lookup_of_no_entry (k : String) (groups : List GroupRepresentation)
    (init mp : List (String × String)) (h : fillGroupIDMapping groups init = some mp)
    (hk : ∀ g ∈ groups, g.Id ≠ some k) : lookup k mp = lookup k init := by
  induction groups generalizing init with
  | nil =>
    simp only [fillGroupIDMapping, Option.some.injEq] at h
    subst h
    rfl
  | cons g gs ih =>
    have hg := hk g (List.mem_cons_self _ _)
    have hgs : ∀ x ∈ gs, x.Id ≠ some k := fun x hx => hk x (List.mem_cons_of_mem _ hx)
    obtain ⟨id, name⟩ := g
    cases id with
    | none => simp [fillGroupIDMapping] at h
    | some id =>
      cases name with
      | none => simp [fillGroupIDMapping] at h
      | some name =>
        simp only [fillGroupIDMapping] at h
        rw [ih _ h hgs]
        have hne : id ≠ k := fun hid => hg (by simp [hid])
        simp [lookup, hne]

/-- C17, counterexample. The directory with the single entry `"*" -> "everyone"` overwrites
the sentinel: the record with target group ID `"*"` is kept, and its target group in the
output is `"everyone"`, not `"*"`. -/
theorem TranslateGroupIDIntoGroupName_wildcard_counterexample :
    TranslateGroupIDIntoGroupName [⟨"master", "g1", "read", some "R1", some "*"⟩]
      [⟨some "*", some "everyone"⟩] =
      some [⟨"master", "g1", "read", some "R1", some "everyone"⟩] := by
  decide

/-- C17, amended. The key `"*"` is always present in the ID-to-name lookup: for every
directory and every record (at any position) whose target group ID is `"*"`,
`TranslateGroupIDIntoGroupName` keeps the record at its place, with the name the lookup
holds for `"*"` as target group; that name is `"*"` when no directory entry has the ID
`"*"`. -/
theorem TranslateGroupIDIntoGroupName_wildcard_kept (pre post : List Authorization)
    (r : Authorization) (dir : List GroupRepresentation)
    (hdir : WellFormedDirectory dir) (hG : r.TargetGroupID = some "*") :
    ∃ outPre outPost N,
      TranslateGroupIDIntoGroupName pre dir = some outPre ∧
      TranslateGroupIDIntoGroupName post dir = some outPost ∧
      Resolves dir "*" N ∧
      TranslateGroupIDIntoGroupName (pre ++ r :: post) dir =
        some (outPre ++ { r with TargetGroupID := some N } :: outPost) ∧
      ((∀ g ∈ dir, g.Id ≠ some "*") → N = "*") := by
  obtain ⟨mp, hmp⟩ := groupIDMapping_isSome dir hdir
  have hne : lookup "*" mp ≠ none :=
    fillGroupIDMapping_lookup_ne_none "*" dir [("*", "*")] mp hmp (by simp [lookup])
  obtain ⟨N, hN⟩ := Option.ne_none_iff_exists'.mp hne
  have hr : translateIDRecord mp r = some { r with TargetGroupID := some N } := by
    rw [translateIDRecord_eta, hG]
    simp only [hN]
  refine ⟨pre.filterMap (translateIDRecord mp), post.filterMap (translateIDRecord mp), N,
    TranslateGroupIDIntoGroupName_eq pre dir mp hmp,
    TranslateGroupIDIntoGroupName_eq post dir mp hmp, ⟨mp, hmp, hN⟩, ?_, ?_⟩
  · rw [TranslateGroupIDIntoGroupName_eq _ dir mp hmp, List.filterMap_append,
      List.filterMap_cons_some hr]
  · intro hno
    have h := fillGroupIDMapping_lookup_of_no_entry "*" dir [("*", "*")] mp hmp hno
    rw [hN] at h
    simpa [lookup] using h

/-- C17 amended, at a concrete input: a directory without an entry of ID `"*"`. -/
theorem TranslateGroupIDIntoGroupName_wildcard_kept_witness :
    ∃ outPre outPost N,
      TranslateGroupIDIntoGroupName [] [⟨some "id1", some "admins"⟩] = some outPre ∧
      TranslateGroupIDIntoGroupName [] [⟨some "id1", some "admins"⟩] = some outPost ∧
      Resolves [⟨some "id1", some "admins"⟩] "*" N ∧
      TranslateGroupIDIntoGroupName
        ([] ++ (⟨"master", "g1", "read", some "R1", some "*"⟩ : Authorization) :: [])
        [⟨some "id1", some "admins"⟩] =
        some (outPre ++
          { (⟨"master", "g1", "read", some "R1", some "*"⟩ : Authorization) with
            TargetGroupID := some N } :: outPost) ∧
      ((∀ g ∈ [(⟨some "id1", some "admins"⟩ : GroupRepresentation)], g.Id ≠ some "*") →
        N = "*") :=
  TranslateGroupIDIntoGroupName_wildcard_kept [] []
    ⟨"master", "g1", "read", some "R1", some "*"⟩ [⟨some "id1", some "admins"⟩]
    (by decide) rfl

/-! ## C18 to C20: from group names to group IDs -/

/-- C18. `TranslateGroupNameIntoGroupID` clears partial targets: for every mapper, an input
record (at any position) in which the target realm or the target group is absent is kept
in the output at its place, with its target group absent and its other fields, the target
realm included, unchanged, whatever target group it had in the input. -/
theorem TranslateGroupNameIntoGroupID_clears_partial (pre post : List Authorization)
    (r : Authorization) (m : List (String × List (String × String)))
    (h : r.TargetRealmID = none ∨ r.TargetGroupID = none) :
    TranslateGroupNameIntoGroupID (pre ++ r :: post) m =
      TranslateGroupNameIntoGroupID pre m ++
        { r with TargetGroupID := none } :: TranslateGroupNameIntoGroupID post m := by
  have hr : translateNameRecord m r = some { r with TargetGroupID := none } := by
    rw [translateNameRecord_eta]
    obtain ⟨a, b, c, d, e⟩ := r
    rcases h with h | h
    · simp only at h
      subst h
      rfl
    · simp only at h
      subst h
      cases d <;> rfl
  simp only [TranslateGroupNameIntoGroupID, List.filterMap_append, List.filterMap_cons_some hr]

/-- C18 at a concrete input: a record with a target group and no target realm loses its
target group and is kept. -/
theorem TranslateGroupNameIntoGroupID_clears_partial_witness :
    TranslateGroupNameIntoGroupID
      ([⟨"master", "g1", "read", some "R1", some "nobody"⟩] ++
        (⟨"master", "g2", "read", none, some "admins"⟩ : Authorization) :: [])
      [("R1", [("admins", "id1")])] =
      TranslateGroupNameIntoGroupID [⟨"master", "g1", "read", some "R1", some "nobody"⟩]
        [("R1", [("admins", "id1")])] ++
        { (⟨"master", "g2", "read", none, some "admins"⟩ : Authorization) with
          TargetGroupID := none } ::
        TranslateGroupNameIntoGroupID [] [("R1", [("admins", "id1")])] :=
  TranslateGroupNameIntoGroupID_clears_partial
    [⟨"master", "g1", "read", some "R1", some "nobody"⟩] []
    ⟨"master", "g2", "read", none, some "admins"⟩ [("R1", [("admins", "id1")])] (Or.inl rfl)

/-- C19. `TranslateGroupNameIntoGroupID` resolves or drops: for every mapper and every input
record (at any position) with both target realm `R` and target group name `N` present, the
record is translated in place with target group `mapper[R][N]` when that entry exists, and
the output has no record at its place when it does not exist. -/
theorem TranslateGroupNameIntoGroupID_resolves_or_drops (pre post : List Authorization)
    (r : Authorization) (m : List (String × List (String × String))) (R N : String)
    (hR : r.TargetRealmID = some R) (hN : r.TargetGroupID = some N) :
    (∀ G, lookup2 R N m = some G →
      TranslateGroupNameIntoGroupID (pre ++ r :: post) m =
        TranslateGroupNameIntoGroupID pre m ++
          { r with TargetGroupID := some G } :: TranslateGroupNameIntoGroupID post m) ∧
    (lookup2 R N m = none →
      TranslateGroupNameIntoGroupID (pre ++ r :: post) m =
        TranslateGroupNameIntoGroupID pre m ++ TranslateGroupNameIntoGroupID post m) := by
  constructor
  · intro G hl
    have hr : translateNameRecord m r = some { r with TargetGroupID := some G } := by
      rw [translateNameRecord_eta, hR, hN]
      simp only [hl]
    simp only [TranslateGroupNameIntoGroupID, List.filterMap_append,
      List.filterMap_cons_some hr]
  · intro hl
    have hr : translateNameRecord m r = none := by
      rw [translateNameRecord_eta, hR, hN]
      simp only [hl]
    simp only [TranslateGroupNameIntoGroupID, List.filterMap_append,
      List.filterMap_cons_none hr]

/-- C19 at a concrete input: the realm of the middle record is not a key of the mapper. -/
theorem TranslateGroupNameIntoGroupID_resolves_or_drops_witness :
    (∀ G, lookup2 "R2" "admins" [("R1", [("admins", "id1")])] = some G →
      TranslateGroupNameIntoGroupID
        ([⟨"master", "g1", "read", some "R1", some "admins"⟩] ++
          (⟨"master", "g2", "read", some "R2", some "admins"⟩ : Authorization) ::
          [⟨"master", "g3", "read", none, none⟩])
        [("R1", [("admins", "id1")])] =
        TranslateGroupNameIntoGroupID [⟨"master", "g1", "read", some "R1", some "admins"⟩]
          [("R1", [("admins", "id1")])] ++
          { (⟨"master", "g2", "read", some "R2", some "admins"⟩ : Authorization) with
            TargetGroupID := some G } ::
          TranslateGroupNameIntoGroupID [⟨"master", "g3", "read", none, none⟩]
            [("R1", [("admins", "id1")])]) ∧
    (lookup2 "R2" "admins" [("R1", [("admins", "id1")])] = none →
      TranslateGroupNameIntoGroupID
        ([⟨"master", "g1", "read", some "R1", some "admins"⟩] ++
          (⟨"master", "g2", "read", some "R2", some "admins"⟩ : Authorization) ::
          [⟨"master", "g3", "read", none, none⟩])
        [("R1", [("admins", "id1")])] =
        TranslateGroupNameIntoGroupID [⟨"master", "g1", "read", some "R1", some "admins"⟩]
          [("R1", [("admins", "id1")])] ++
          TranslateGroupNameIntoGroupID [⟨"master", "g3", "read", none, none⟩]
            [("R1", [("admins", "id1")])]) :=
  TranslateGroupNameIntoGroupID_resolves_or_drops
    [⟨"master", "g1", "read", some "R1", some "admins"⟩]
    [⟨"master", "g3", "read", none, none⟩]
    ⟨"master", "g2", "read", some "R2", some "admins"⟩
    [("R1", [("admins", "id1")])] "R2" "admins" rfl rfl

/-- C20. Lossy drop count, names to IDs: for every list of records and every mapper, the
output of `TranslateGroupNameIntoGroupID` has the length of the input minus the number of
input records with both target fields present and no entry
`mapper[targetRealmID][targetGroupID]`. -/
theorem TranslateGroupNameIntoGroupID_length (rs : List Authorization)
    (m : List (String × List (String × String))) :
    (TranslateGroupNameIntoGroupID rs m).length =
      rs.length - rs.countP (unresolvableName m) ∧
    (TranslateGroupNameIntoGroupID rs m).length + rs.countP (unresolvableName m) = rs.length ∧
    ∀ r, unresolvableName m r = true ↔
      ∃ R N, r.TargetRealmID = some R ∧ r.TargetGroupID = some N ∧ lookup2 R N m = none := by
  have hcount : (rs.filterMap (translateNameRecord m)).length +
      rs.countP (unresolvableName m) = rs.length := by
    have h := length_filterMap_add_countP (translateNameRecord m) rs
    have hfun : (fun a => (translateNameRecord m a).isNone) = unresolvableName m :=
      funext (translateNameRecord_isNone m)
    rw [hfun] at h
    exact h
  refine ⟨?_, hcount, ?_⟩
  · show (rs.filterMap (translateNameRecord m)).length = _
    omega
  · intro r
    obtain ⟨a, b, c, d, e⟩ := r
    cases d with
    | none => simp [unresolvableName]
    | some realm =>
      cases e with
      | none => simp [unresolvableName]
      | some name => simp [unresolvableName]

/-! ## Which results the iteration order can produce -/

theorem checkRealmEntries_eq_some_group (ord : RangeOrder) (k : String × String) (n : Nat)
    (l : RealmEntries) (h : checkRealmEntries ord k n l = some .AmbiguousWildcardGroup) :
    ∃ p ∈ l, ("*" ∈ p.2 ∧ p.2.length ≠ 1) ∧ ¬(p.1 = "*" ∧ n ≠ 1) := by
  induction l with
  | nil => simp [checkRealmEntries] at h
  | cons p t ih =>
    obtain ⟨realmID, v⟩ := p
    simp only [checkRealmEntries] at h
    split_ifs at h with hc
    · cases h
    · cases hg : checkGroupKeys v.length (ord.groups k realmID v) with
      | some e' =>
        obtain ⟨_, hm, hn⟩ := checkGroupKeys_eq_some _ _ _ hg
        exact ⟨(realmID, v), List.mem_cons_self _ _,
          ⟨((ord.groups_perm k realmID v).mem_iff).mp hm, hn⟩, hc⟩
      | none =>
        rw [hg] at h
        obtain ⟨q, hq, hq'⟩ := ih h
        exact ⟨q, List.mem_cons_of_mem _ hq, hq'⟩

theorem checkBuckets_eq_some_group (ord : RangeOrder) (m : AuthorizationMatrix)
    (h : checkBuckets ord m = some .AmbiguousWildcardGroup) : StrictGroupViolation m := by
  induction m with
  | nil => simp [checkBuckets] at h
  | cons b t ih =>
    obtain ⟨k, u⟩ := b
    simp only [checkBuckets] at h
    cases hu : checkRealmEntries ord k u.length (ord.realms k u) with
    | some e' =>
      rw [hu] at h
      have hee : e' = .AmbiguousWildcardGroup := Option.some.inj h
      subst hee
      obtain ⟨p, hp, hp'⟩ := checkRealmEntries_eq_some_group _ _ _ _ hu
      exact ⟨(k, u), List.mem_cons_self _ _, p, ((ord.realms_perm k u).mem_iff).mp hp, hp'⟩
    | none =>
      rw [hu] at h
      obtain ⟨b, hb, hrest⟩ := ih h
      exact ⟨b, List.mem_cons_of_mem _ hb, hrest⟩

theorem checkMatrix_eq_some_group (ord : RangeOrder) (m : AuthorizationMatrix)
    (h : checkMatrix ord m = some .AmbiguousWildcardGroup) : StrictGroupViolation m := by
  obtain ⟨b, hb, hrest⟩ := checkBuckets_eq_some_group ord _ h
  exact ⟨b, ((ord.buckets_perm m).mem_iff).mp hb, hrest⟩

theorem visitFirst_of_mem {α : Type} [DecidableEq α] (x : α) (l : List α) (h : x ∈ l) :
    ∃ rest, visitFirst x l = x :: rest := by
  unfold visitFirst
  rw [if_pos h]
  exact ⟨_, rfl⟩

theorem startingWith_buckets (m : AuthorizationMatrix)
    (b : (String × String) × RealmEntries) (hb : b ∈ m) (p : String × List String) :
    ∃ rest, (RangeOrder.startingWith b p).buckets m = b :: rest :=
  visitFirst_of_mem b m hb

theorem startingWith_realms (b : (String × String) × RealmEntries) (p : String × List String)
    (k : String × String) (u : RealmEntries) (hp : p ∈ u) :
    ∃ rest, (RangeOrder.startingWith b p).realms k u = p :: rest :=
  visitFirst_of_mem p u hp

theorem checkMatrix_startingWith_realm (m : AuthorizationMatrix)
    (b : (String × String) × RealmEntries) (hb : b ∈ m) (p : String × List String)
    (hp : p ∈ b.2) (h : p.1 = "*" ∧ b.2.length ≠ 1) :
    checkMatrix (RangeOrder.startingWith b p) m = some .AmbiguousWildcardRealm := by
  obtain ⟨k, u⟩ := b
  obtain ⟨realmID, v⟩ := p
  obtain ⟨rest, hrest⟩ := startingWith_buckets m (k, u) hb (realmID, v)
  obtain ⟨rest', hrest'⟩ := startingWith_realms (k, u) (realmID, v) k u hp
  rw [checkMatrix, hrest, checkBuckets, hrest', checkRealmEntries, if_pos h]

theorem checkMatrix_startingWith_group (m : AuthorizationMatrix)
    (b : (String × String) × RealmEntries) (hb : b ∈ m) (p : String × List String)
    (hp : p ∈ b.2) (h : "*" ∈ p.2 ∧ p.2.length ≠ 1) (hr : ¬(p.1 = "*" ∧ b.2.length ≠ 1)) :
    checkMatrix (RangeOrder.startingWith b p) m = some .AmbiguousWildcardGroup := by
  obtain ⟨k, u⟩ := b
  obtain ⟨realmID, v⟩ := p
  obtain ⟨rest, hrest⟩ := startingWith_buckets m (k, u) hb (realmID, v)
  obtain ⟨rest', hrest'⟩ := startingWith_realms (k, u) (realmID, v) k u hp
  rw [checkMatrix, hrest, checkBuckets, hrest', checkRealmEntries, if_neg hr]
  have hgroups : (RangeOrder.startingWith (k, u) (realmID, v)).groups k realmID v = v := rfl
  rw [hgroups]
  cases hg : checkGroupKeys v.length v with
  | none => exact absurd h ((checkGroupKeys_eq_none_iff _ _).mp hg)
  | some e =>
    obtain ⟨he, _⟩ := checkGroupKeys_eq_some _ _ _ hg
    subst he
    rfl

theorem strictGroupViolation_iff (rs : List Authorization) :
    StrictGroupViolation (ConvertToAPIAuthorizations rs).Matrix ↔ StrictGroupCoexistence rs := by
  constructor
  · rintro ⟨⟨k, u⟩, hb, ⟨R, v⟩, hp, ⟨hstar, hlen⟩, hnr⟩
    obtain ⟨_, hu⟩ := (mem_matrix rs _).mp hb
    simp only at hu hstar hlen hp hnr
    subst hu
    obtain ⟨R', hR'mem, heq⟩ := List.mem_map.mp hp
    simp only [Prod.mk.injEq] at heq
    obtain ⟨hRR, hv⟩ := heq
    subst hRR hv
    obtain ⟨G, hG, hne⟩ :=
      (length_ne_one_iff_exists_ne (List.nodup_dedup _) hstar).mp hlen
    obtain ⟨r₁, hr₁, hk₁, hT₁, hG₁⟩ := (mem_targetGroupsOf _ _ _ _).mp hstar
    obtain ⟨r₂, hr₂, hk₂, hT₂, hG₂⟩ := (mem_targetGroupsOf _ _ _ _).mp hG
    refine ⟨r₁, hr₁, r₂, hr₂,
      ⟨hk₁.trans hk₂.symm, ?_, hT₁.trans hT₂.symm, hG₁, ?_, ?_⟩, ?_⟩
    · rw [hT₁]; simp
    · rw [hG₂]; simp
    · rw [hG₂]; simpa using hne
    · rintro ⟨hstarRealm, r₃, hr₃, hk₃, hT₃, hT₃'⟩
      apply hnr
      have hR : R' = "*" := by
        rw [hT₁] at hstarRealm
        exact Option.some.inj hstarRealm
      refine ⟨hR, ?_⟩
      rw [List.length_map]
      obtain ⟨R₃, hR₃⟩ := Option.ne_none_iff_exists'.mp hT₃
      have hmem₃ : R₃ ∈ targetRealmsOf k rs :=
        (mem_targetRealmsOf _ _ _).mpr ⟨r₃, hr₃, hk₃.trans hk₁, hR₃⟩
      have hne₃ : R₃ ≠ "*" := by
        intro h
        rw [hR₃, h] at hT₃'
        exact hT₃' rfl
      exact (length_ne_one_iff_exists_ne (List.nodup_dedup _) (hR ▸ hR'mem)).mpr
        ⟨R₃, hmem₃, hne₃⟩
  · rintro ⟨r₁, hr₁, r₂, hr₂, ⟨hk, hT₁, hT, hG₁, hG₂, hG₂'⟩, hnr⟩
    obtain ⟨R, hR⟩ := Option.ne_none_iff_exists'.mp hT₁
    obtain ⟨G, hG⟩ := Option.ne_none_iff_exists'.mp hG₂
    have hR₂ : r₂.TargetRealmID = some R := hT ▸ hR
    have hstar : "*" ∈ targetGroupsOf (bucketKey r₁) R rs :=
      (mem_targetGroupsOf _ _ _ _).mpr ⟨r₁, hr₁, rfl, hR, hG₁⟩
    have hmemG : G ∈ targetGroupsOf (bucketKey r₁) R rs :=
      (mem_targetGroupsOf _ _ _ _).mpr ⟨r₂, hr₂, hk.symm, hR₂, hG⟩
    have hne : G ≠ "*" := by
      intro h
      rw [hG, h] at hG₂'
      exact hG₂' rfl
    have hRmem : R ∈ targetRealmsOf (bucketKey r₁) rs :=
      (mem_targetRealmsOf _ _ _).mpr ⟨r₁, hr₁, rfl, hR⟩
    refine ⟨(bucketKey r₁, (targetRealmsOf (bucketKey r₁) rs).map
        (fun realm => (realm, targetGroupsOf (bucketKey r₁) realm rs))),
      (mem_matrix rs _).mpr ⟨⟨r₁, hr₁, rfl⟩, rfl⟩,
      (R, targetGroupsOf (bucketKey r₁) R rs), ?_, ⟨hstar, ?_⟩, ?_⟩
    · exact List.mem_map.mpr ⟨R, hRmem, rfl⟩
    · exact (length_ne_one_iff_exists_ne (List.nodup_dedup _) hstar).mpr ⟨G, hmemG, hne⟩
    · rintro ⟨hRstar, hlen⟩
      simp only at hRstar hlen
      rw [List.length_map] at hlen
      subst hRstar
      obtain ⟨R₃, hR₃, hne₃⟩ :=
        (length_ne_one_iff_exists_ne (List.nodup_dedup _) hRmem).mp hlen
      obtain ⟨r₃, hr₃, hk₃, hT₃⟩ := (mem_targetRealmsOf _ _ _).mp hR₃
      apply hnr
      refine ⟨hR, r₃, hr₃, hk₃, ?_, ?_⟩
      · rw [hT₃]; simp
      · rw [hT₃]; simpa using hne₃

theorem checkRecords_ne_wildcard (allowed : List (String × List (String × String)))
    (rs : List Authorization) :
    checkRecords allowed rs ≠ .error .AmbiguousWildcardRealm ∧
    checkRecords allowed rs ≠ .error .AmbiguousWildcardGroup := by
  by_cases hnil : checkRecords allowed rs = .nil
  · rw [hnil]
    exact ⟨by simp, by simp⟩
  · have hex : ∃ r ∈ rs, checkRecord allowed r ≠ .nil := by
      by_contra hcon
      push_neg at hcon
      exact hnil ((checkRecords_eq_nil_iff allowed rs).mpr hcon)
    obtain ⟨pre, r, post, heq, hpre, hr⟩ := exists_first_offender allowed rs hex
    rw [heq, checkRecords_eq_first_offender allowed pre post r hpre hr]
    rcases checkRecord_cases allowed r with ⟨h, _⟩ | ⟨h, _⟩ | ⟨h, _⟩ | ⟨h, _⟩ <;>
      rw [h] <;> exact ⟨by simp, by simp⟩

/-- The results `Validate` can return on a rule set, over all iteration orders: the outcome
of the first loop when it is not nil; otherwise nil when the rule set has no wildcard
coexistence, the realm error when it has a wildcard-realm coexistence, the group error when
it has a wildcard-group coexistence under a realm whose realm check passes. -/
theorem Validate_possible_iff (rs : List Authorization)
    (allowed : List (String × List (String × String))) (res : ValidateResult) :
    (∃ ord, Validate ord rs allowed = res) ↔
      (checkRecords allowed rs ≠ .nil ∧ res = checkRecords allowed rs) ∨
      (checkRecords allowed rs = .nil ∧
        ((res = .nil ∧ ¬WildcardRealmCoexistence rs ∧ ¬WildcardGroupCoexistence rs) ∨
         (res = .error .AmbiguousWildcardRealm ∧ WildcardRealmCoexistence rs) ∨
         (res = .error .AmbiguousWildcardGroup ∧ StrictGroupCoexistence rs))) := by
  constructor
  · rintro ⟨ord, hres⟩
    by_cases hnil : checkRecords allowed rs = .nil
    · refine Or.inr ⟨hnil, ?_⟩
      rw [Validate_of_checkRecords_nil ord rs allowed hnil] at hres
      cases hm : checkMatrix ord (ConvertToAPIAuthorizations rs).Matrix with
      | none =>
        rw [hm] at hres
        rw [checkMatrix_eq_none_iff, realmViolation_iff, groupViolation_iff] at hm
        exact Or.inl ⟨hres.symm, hm⟩
      | some e =>
        rw [hm] at hres
        rcases checkMatrix_eq_some _ _ _ hm with ⟨he, hv⟩ | ⟨he, _⟩
        · subst he
          exact Or.inr (Or.inl ⟨hres.symm, (realmViolation_iff rs).mp hv⟩)
        · subst he
          exact Or.inr (Or.inr ⟨hres.symm,
            (strictGroupViolation_iff rs).mp (checkMatrix_eq_some_group _ _ hm)⟩)
    · refine Or.inl ⟨hnil, ?_⟩
      rw [Validate_of_checkRecords_ne_nil ord rs allowed hnil] at hres
      exact hres.symm
  · rintro (⟨hne, hres⟩ | ⟨hnil, h⟩)
    · exact ⟨RangeOrder.stored, by
        rw [Validate_of_checkRecords_ne_nil _ rs allowed hne, hres]⟩
    · rcases h with ⟨hres, hnr, hng⟩ | ⟨hres, hr⟩ | ⟨hres, hg⟩
      · refine ⟨RangeOrder.stored, ?_⟩
        rcases Validate_matrix_phase RangeOrder.stored rs allowed hnil
          with ⟨h, _⟩ | ⟨_, h⟩ | ⟨_, h⟩
        · rw [h, hres]
        · exact absurd h hnr
        · exact absurd h hng
      · obtain ⟨b, hb, q, hq, hq'⟩ := (realmViolation_iff rs).mpr hr
        refine ⟨RangeOrder.startingWith b q, ?_⟩
        rw [Validate_of_checkRecords_nil _ rs allowed hnil,
          checkMatrix_startingWith_realm _ b hb q hq hq', hres]
      · obtain ⟨b, hb, q, hq, hq', hq''⟩ := (strictGroupViolation_iff rs).mpr hg
        refine ⟨RangeOrder.startingWith b q, ?_⟩
        rw [Validate_of_checkRecords_nil _ rs allowed hnil,
          checkMatrix_startingWith_group _ b hb q hq hq' hq'', hres]

theorem Validate_eq_nil_iff (ord : RangeOrder) (rs : List Authorization)
    (allowed : List (String × List (String × String))) :
    Validate ord rs allowed = .nil ↔
      checkRecords allowed rs = .nil ∧ ¬WildcardRealmCoexistence rs ∧
        ¬WildcardGroupCoexistence rs := by
  constructor
  · intro h
    by_cases hnil : checkRecords allowed rs = .nil
    · refine ⟨hnil, ?_⟩
      rcases Validate_matrix_phase ord rs allowed hnil with ⟨_, h'⟩ | ⟨h', _⟩ | ⟨h', _⟩
      · exact h'
      · rw [h] at h'; cases h'
      · rw [h] at h'; cases h'
    · rw [Validate_of_checkRecords_ne_nil ord rs allowed hnil] at h
      exact absurd h hnil
  · rintro ⟨hnil, hnr, hng⟩
    rcases Validate_matrix_phase ord rs allowed hnil with ⟨h, _⟩ | ⟨_, h⟩ | ⟨_, h⟩
    · exact h
    · exact absurd h hnr
    · exact absurd h hng

theorem wildcardRealmCoexistence_congr {rs rs' : List Authorization}
    (h : ∀ x, x ∈ rs' ↔ x ∈ rs) :
    WildcardRealmCoexistence rs' ↔ WildcardRealmCoexistence rs := by
  simp only [WildcardRealmCoexistence, h]

theorem wildcardGroupCoexistence_congr {rs rs' : List Authorization}
    (h : ∀ x, x ∈ rs' ↔ x ∈ rs) :
    WildcardGroupCoexistence rs' ↔ WildcardGroupCoexistence rs := by
  simp only [WildcardGroupCoexistence, h]

theorem strictGroupCoexistence_congr {rs rs' : List Authorization}
    (h : ∀ x, x ∈ rs' ↔ x ∈ rs) :
    StrictGroupCoexistence rs' ↔ StrictGroupCoexistence rs := by
  simp only [StrictGroupCoexistence, h]

theorem mem_append_duplicate {rs : List Authorization} {r : Authorization} (hr : r ∈ rs)
    (x : Authorization) : x ∈ rs ++ [r] ↔ x ∈ rs := by
  simp only [List.mem_append, List.mem_singleton]
  constructor
  · rintro (h | rfl)
    · exact h
    · exact hr
  · exact Or.inl

theorem checkRecords_append_duplicate (allowed : List (String × List (String × String)))
    (rs : List Authorization) (r : Authorization) (hr : r ∈ rs) :
    checkRecords allowed (rs ++ [r]) = checkRecords allowed rs := by
  by_cases hnil : checkRecords allowed rs = .nil
  · rw [hnil, checkRecords_eq_nil_iff]
    intro x hx
    exact (checkRecords_eq_nil_iff allowed rs).mp hnil x ((mem_append_duplicate hr x).mp hx)
  · have hex : ∃ x ∈ rs, checkRecord allowed x ≠ .nil := by
      by_contra hcon
      push_neg at hcon
      exact hnil ((checkRecords_eq_nil_iff allowed rs).mpr hcon)
    obtain ⟨pre, x, post, heq, hpre, hx⟩ := exists_first_offender allowed rs hex
    have h1 : checkRecords allowed rs = checkRecord allowed x := by
      rw [heq]
      exact checkRecords_eq_first_offender allowed pre post x hpre hx
    have h2 : checkRecords allowed (rs ++ [r]) = checkRecord allowed x := by
      rw [heq, List.append_assoc, List.cons_append]
      exact checkRecords_eq_first_offender allowed pre (post ++ [r]) x hpre hx
    rw [h1, h2]

theorem lookup_ne_none_of_lookup2 {V : Type} (a b : String)
    (m : List (String × List (String × V))) (h : lookup2 a b m ≠ none) :
    lookup a m ≠ none := by
  intro hl
  apply h
  simp only [lookup2, hl]

/-! ## C11: buckets; duplicates -/

/-- C11. Wildcard exclusivity is checked per `(groupID, action)` bucket: for every
allow-list that has the key `"*"` and allows group `G` under realm `R`, every action `a`
and every two different groups `g1` and `g2`, `Validate` returns nil on the rule set
`(g1, a, "*", absent), (g2, a, R, G)`, for every iteration order. -/
theorem Validate_distinct_groups_no_conflict (ord : RangeOrder)
    (allowed : List (String × List (String × String)))
    (realm₁ realm₂ g1 g2 a R G : String)
    (hg : g1 ≠ g2) (hstar : lookup "*" allowed ≠ none) (hRG : lookup2 R G allowed ≠ none) :
    Validate ord [⟨realm₁, g1, a, some "*", none⟩, ⟨realm₂, g2, a, some R, some G⟩] allowed =
      .nil := by
  have hR := lookup_ne_none_of_lookup2 R G allowed hRG
  apply Validate_eq_nil_of
  · intro r hr
    simp only [List.mem_cons, List.mem_singleton, List.not_mem_nil, or_false] at hr
    rcases hr with rfl | rfl <;> simp
  · intro r hr R' hR'
    simp only [List.mem_cons, List.mem_singleton, List.not_mem_nil, or_false] at hr
    rcases hr with rfl | rfl
    · simp only [Option.mem_def, Option.some.injEq] at hR'
      subst hR'
      exact hstar
    · simp only [Option.mem_def, Option.some.injEq] at hR'
      subst hR'
      exact hR
  · intro r hr R' hR' G' hG'
    simp only [List.mem_cons, List.mem_singleton, List.not_mem_nil, or_false] at hr
    rcases hr with rfl | rfl
    · simp at hG'
    · simp only [Option.mem_def, Option.some.injEq] at hR' hG'
      subst hR' hG'
      exact hRG
  · rintro ⟨r₁, hr₁, r₂, hr₂, hk, h₁, _, h₂⟩
    simp only [List.mem_cons, List.mem_singleton, List.not_mem_nil, or_false] at hr₁ hr₂
    rcases hr₁ with rfl | rfl <;> rcases hr₂ with rfl | rfl
    · exact h₂ h₁
    · simp only [bucketKey, Prod.mk.injEq] at hk
      exact hg hk.1
    · simp only [bucketKey, Prod.mk.injEq] at hk
      exact hg hk.1.symm
    · exact h₂ h₁
  · rintro ⟨r₁, hr₁, r₂, hr₂, hk, _, _, h₁, _, h₂⟩
    simp only [List.mem_cons, List.mem_singleton, List.not_mem_nil, or_false] at hr₁ hr₂
    rcases hr₁ with rfl | rfl <;> rcases hr₂ with rfl | rfl
    · exact h₂ h₁
    · simp only [bucketKey, Prod.mk.injEq] at hk
      exact hg hk.1
    · simp only [bucketKey, Prod.mk.injEq] at hk
      exact hg hk.1.symm
    · exact h₂ h₁

/-- C11 at a concrete input: groups `g1` and `g2`, action `read`. -/
theorem Validate_distinct_groups_no_conflict_witness :
    Validate RangeOrder.reversed
      [⟨"master", "g1", "read", some "*", none⟩, ⟨"master", "g2", "read", some "R1", some "G1"⟩]
      [("*", []), ("R1", [("G1", "G1")])] = .nil :=
  Validate_distinct_groups_no_conflict RangeOrder.reversed [("*", []), ("R1", [("G1", "G1")])]
    "master" "master" "g1" "g2" "read" "R1" "G1" (by decide) (by decide) (by decide)

/-- Appending a record that the rule set already holds changes neither the set of results
that the iteration orders can produce nor acceptance; a rule set made of one record
repeated never gives a wildcard error. -/
theorem Validate_duplicate_same_result_sets (rs : List Authorization)
    (allowed : List (String × List (String × String))) (r : Authorization) (hr : r ∈ rs) :
    (∀ res, (∃ ord, Validate ord (rs ++ [r]) allowed = res) ↔
      (∃ ord, Validate ord rs allowed = res)) ∧
    (∀ ord ord', Validate ord (rs ++ [r]) allowed = .nil ↔ Validate ord' rs allowed = .nil) ∧
    (∀ ord n, Validate ord (List.replicate (n + 1) r) allowed ≠ .error .AmbiguousWildcardRealm ∧
      Validate ord (List.replicate (n + 1) r) allowed ≠ .error .AmbiguousWildcardGroup) := by
  have hmem := mem_append_duplicate hr
  have hc := checkRecords_append_duplicate allowed rs r hr
  refine ⟨?_, ?_, ?_⟩
  · intro res
    rw [Validate_possible_iff, Validate_possible_iff, hc, wildcardRealmCoexistence_congr hmem,
      wildcardGroupCoexistence_congr hmem, strictGroupCoexistence_congr hmem]
  · intro ord ord'
    rw [Validate_eq_nil_iff, Validate_eq_nil_iff, hc, wildcardRealmCoexistence_congr hmem,
      wildcardGroupCoexistence_congr hmem]
  · intro ord n
    have hnr : ¬WildcardRealmCoexistence (List.replicate (n + 1) r) := by
      rintro ⟨r₁, hr₁, r₂, hr₂, _, h₁, _, h₂⟩
      rw [List.eq_of_mem_replicate hr₁] at h₁
      rw [List.eq_of_mem_replicate hr₂] at h₂
      exact h₂ h₁
    have hng : ¬WildcardGroupCoexistence (List.replicate (n + 1) r) := by
      rintro ⟨r₁, hr₁, r₂, hr₂, _, _, _, h₁, _, h₂⟩
      rw [List.eq_of_mem_replicate hr₁] at h₁
      rw [List.eq_of_mem_replicate hr₂] at h₂
      exact h₂ h₁
    by_cases hnil : checkRecords allowed (List.replicate (n + 1) r) = .nil
    · rw [(Validate_eq_nil_iff ord _ allowed).mpr ⟨hnil, hnr, hng⟩]
      exact ⟨by simp, by simp⟩
    · rw [Validate_of_checkRecords_ne_nil ord _ allowed hnil]
      exact checkRecords_ne_wildcard allowed _

/-! ## C21 to C23: what the translators change and when they fail -/

theorem translateNameRecord_fields (m : List (String × List (String × String)))
    (a b : Authorization) (h : translateNameRecord m a = some b) :
    untranslatedFields b = untranslatedFields a := by
  obtain ⟨a1, a2, a3, a4, a5⟩ := a
  cases a4 with
  | none =>
    cases a5 <;>
    · simp only [translateNameRecord, Option.some.injEq] at h
      subst h
      rfl
  | some realm =>
    cases a5 with
    | none =>
      simp only [translateNameRecord, Option.some.injEq] at h
      subst h
      rfl
    | some name =>
      cases hl : lookup2 realm name m with
      | none => simp [translateNameRecord, hl] at h
      | some v =>
        simp only [translateNameRecord, hl, Option.some.injEq] at h
        subst h
        rfl

theorem forall₂_filter_filterMap {α β : Type} (f : α → Option β) (R : α → β → Prop)
    (h : ∀ a b, f a = some b → R a b) (l : List α) :
    List.Forall₂ R (l.filter (fun a => (f a).isSome)) (l.filterMap f) := by
  induction l with
  | nil => exact List.Forall₂.nil
  | cons a t ih =>
    cases hfa : f a with
    | none =>
      rw [List.filterMap_cons_none hfa, List.filter_cons_of_neg (by simp [hfa])]
      exact ih
    | some b =>
      rw [List.filterMap_cons_some hfa, List.filter_cons_of_pos (by simp [hfa])]
      exact List.Forall₂.cons (h a b hfa) ih

theorem fillGroupIDMapping_eq_none (groups : List GroupRepresentation)
    (h : ¬WellFormedDirectory groups) (init : List (String × String)) :
    fillGroupIDMapping groups init = none := by
  induction groups generalizing init with
  | nil => exact absurd (fun g hg => absurd hg (List.not_mem_nil g)) h
  | cons g gs ih =>
    obtain ⟨id, name⟩ := g
    cases id with
    | none => simp [fillGroupIDMapping]
    | some id =>
      cases name with
      | none => simp [fillGroupIDMapping]
      | some name =>
        simp only [fillGroupIDMapping]
        apply ih
        intro hgs
        apply h
        intro x hx
        rcases List.mem_cons.mp hx with rfl | hx
        · simp
        · exact hgs x hx

/-- C21. Only the target group is translated: the records kept by
`TranslateGroupIDIntoGroupName` and by `TranslateGroupNameIntoGroupID` are paired, in
order, with the output records, and each output record has the `realmID`, `groupID`,
`action` and `targetRealmID` of the input record it comes from. -/
theorem translators_change_only_target_group (rs : List Authorization)
    (dir : List GroupRepresentation) (m : List (String × List (String × String)))
    (hdir : WellFormedDirectory dir) :
    (∃ out, TranslateGroupIDIntoGroupName rs dir = some out ∧
      List.Forall₂ (fun a b => untranslatedFields b = untranslatedFields a)
        (rs.filter (fun r => !unresolvableID dir r)) out) ∧
    List.Forall₂ (fun a b => untranslatedFields b = untranslatedFields a)
      (rs.filter (fun r => !unresolvableName m r)) (TranslateGroupNameIntoGroupID rs m) := by
  obtain ⟨mp, hmp⟩ := groupIDMapping_isSome dir hdir
  constructor
  · refine ⟨rs.filterMap (translateIDRecord mp),
      TranslateGroupIDIntoGroupName_eq rs dir mp hmp, ?_⟩
    have hfun : (fun r => !unresolvableID dir r) =
        (fun a => (translateIDRecord mp a).isSome) := by
      funext a
      rw [← translateIDRecord_isNone dir mp hmp a]
      cases translateIDRecord mp a <;> rfl
    rw [hfun]
    exact forall₂_filter_filterMap _ _ (fun a b h => translateIDRecord_fields mp a b h) rs
  · have hfun : (fun r => !unresolvableName m r) =
        (fun a => (translateNameRecord m a).isSome) := by
      funext a
      rw [← translateNameRecord_isNone m a]
      cases translateNameRecord m a <;> rfl
    rw [hfun]
    exact forall₂_filter_filterMap _ _ (fun a b h => translateNameRecord_fields m a b h) rs

/-- C21 at a concrete input: one record is dropped in each direction. -/
theorem translators_change_only_target_group_witness :
    (∃ out,
      TranslateGroupIDIntoGroupName
        [⟨"master", "g1", "read", some "R1", some "id1"⟩,
         ⟨"master", "g2", "read", some "R1", some "id9"⟩]
        [⟨some "id1", some "admins"⟩] = some out ∧
      List.Forall₂ (fun a b => untranslatedFields b = untranslatedFields a)
        ([(⟨"master", "g1", "read", some "R1", some "id1"⟩ : Authorization),
          ⟨"master", "g2", "read", some "R1", some "id9"⟩].filter
          (fun r => !unresolvableID [⟨some "id1", some "admins"⟩] r)) out) ∧
    List.Forall₂ (fun a b => untranslatedFields b = untranslatedFields a)
      ([(⟨"master", "g1", "read", some "R1", some "id1"⟩ : Authorization),
        ⟨"master", "g2", "read", some "R1", some "id9"⟩].filter
        (fun r => !unresolvableName [("R1", [("id1", "x1")])] r))
      (TranslateGroupNameIntoGroupID
        [⟨"master", "g1", "read", some "R1", some "id1"⟩,
         ⟨"master", "g2", "read", some "R1", some "id9"⟩]
        [("R1", [("id1", "x1")])]) :=
  translators_change_only_target_group
    [⟨"master", "g1", "read", some "R1", some "id1"⟩,
     ⟨"master", "g2", "read", some "R1", some "id9"⟩]
    [⟨some "id1", some "admins"⟩] [("R1", [("id1", "x1")])] (by decide)

/-- C22. Evaluation at the failing inputs: whenever a group entry of the directory has no
ID or no name, `TranslateGroupIDIntoGroupName` returns no list of records, whatever the
records: building the mapping dereferences the nil `group.Id` or `group.Name`. -/
theorem TranslateGroupIDIntoGroupName_nil_entry (rs : List Authorization)
    (dir : List GroupRepresentation) (h : ¬WellFormedDirectory dir) :
    TranslateGroupIDIntoGroupName rs dir = none := by
  have hnone : groupIDMapping dir = none := fillGroupIDMapping_eq_none dir h _
  simp only [TranslateGroupIDIntoGroupName, hnone]

/-- C22 at the failing input: an empty rule set and a directory whose only entry has a name
and no ID. -/
theorem TranslateGroupIDIntoGroupName_nil_entry_witness :
    TranslateGroupIDIntoGroupName [] [⟨none, some "admins"⟩] = none :=
  TranslateGroupIDIntoGroupName_nil_entry [] [⟨none, some "admins"⟩] (by decide)

/-- C23. `TranslateGroupNameIntoGroupID` never fails: it returns a list of records for
every list of records and every mapper, no longer than its input; in particular a record
(at any position) with a target group and a target realm that is not a key of the mapper
is dropped: the output is that of the records before it followed by that of the records
after it. -/
theorem TranslateGroupNameIntoGroupID_unknown_realm_dropped (pre post : List Authorization)
    (r : Authorization) (m : List (String × List (String × String))) (R N : String)
    (hR : r.TargetRealmID = some R) (hN : r.TargetGroupID = some N)
    (hm : lookup R m = none) :
    TranslateGroupNameIntoGroupID (pre ++ r :: post) m =
      TranslateGroupNameIntoGroupID pre m ++ TranslateGroupNameIntoGroupID post m ∧
    (TranslateGroupNameIntoGroupID (pre ++ r :: post) m).length ≤ (pre ++ r :: post).length := by
  have hl : lookup2 R N m = none := by simp only [lookup2, hm]
  have hr : translateNameRecord m r = none := by
    rw [translateNameRecord_eta, hR, hN]
    simp only [hl]
  constructor
  · simp only [TranslateGroupNameIntoGroupID, List.filterMap_append,
      List.filterMap_cons_none hr]
  · exact List.length_filterMap_le _ _

/-- C23 at a concrete input: the mapper has no entry for realm `R2`. -/
theorem TranslateGroupNameIntoGroupID_unknown_realm_dropped_witness :
    TranslateGroupNameIntoGroupID
      ([⟨"master", "g1", "read", some "R1", some "admins"⟩] ++
        (⟨"master", "g2", "read", some "R2", some "admins"⟩ : Authorization) :: [])
      [("R1", [("admins", "id1")])] =
      TranslateGroupNameIntoGroupID [⟨"master", "g1", "read", some "R1", some "admins"⟩]
        [("R1", [("admins", "id1")])] ++
      TranslateGroupNameIntoGroupID [] [("R1", [("admins", "id1")])] ∧
    (TranslateGroupNameIntoGroupID
      ([⟨"master", "g1", "read", some "R1", some "admins"⟩] ++
        (⟨"master", "g2", "read", some "R2", some "admins"⟩ : Authorization) :: [])
      [("R1", [("admins", "id1")])]).length ≤
      ([(⟨"master", "g1", "read", some "R1", some "admins"⟩ : Authorization)] ++
        (⟨"master", "g2", "read", some "R2", some "admins"⟩ : Authorization) :: []).length :=
  TranslateGroupNameIntoGroupID_unknown_realm_dropped
    [⟨"master", "g1", "read", some "R1", some "admins"⟩] []
    ⟨"master", "g2", "read", some "R2", some "admins"⟩ [("R1", [("admins", "id1")])]
    "R2" "admins" rfl rfl (by decide)

/-! ## C24: query on the matrix -/

/-- C24. Wildcard matching at query time: for every rule set that contains the record
`(g, a, "*", "*")`, the query `isGranted(matrix, g, a, R, G)` on the matrix built from the
rule set is true for every target realm `R` and target group `G`. -/
theorem isGranted_of_full_wildcard (rs : List Authorization) (realm g a R G : String)
    (h : (⟨realm, g, a, some "*", some "*"⟩ : Authorization) ∈ rs) :
    isGranted (ConvertToAPIAuthorizations rs) g a R G = true := by
  have hb : ((g, a), (targetRealmsOf (g, a) rs).map
      (fun realm => (realm, targetGroupsOf (g, a) realm rs))) ∈
      (ConvertToAPIAuthorizations rs).Matrix :=
    (mem_matrix rs _).mpr ⟨⟨_, h, rfl⟩, rfl⟩
  have hrealm : "*" ∈ targetRealmsOf (g, a) rs :=
    (mem_targetRealmsOf _ _ _).mpr ⟨_, h, rfl, rfl⟩
  have hgroup : "*" ∈ targetGroupsOf (g, a) "*" rs :=
    (mem_targetGroupsOf _ _ _ _).mpr ⟨_, h, rfl, rfl, rfl⟩
  unfold isGranted
  rw [List.any_eq_true]
  refine ⟨_, hb, ?_⟩
  simp only [decide_True, Bool.true_and]
  rw [List.any_eq_true]
  refine ⟨("*", targetGroupsOf (g, a) "*" rs), List.mem_map.mpr ⟨"*", hrealm, rfl⟩, ?_⟩
  simp [hgroup]

/-- C24 at a concrete input: the full wildcard grant of group `g1` for `read`. -/
theorem isGranted_of_full_wildcard_witness :
    isGranted
      (ConvertToAPIAuthorizations
        [⟨"master", "g2", "read", some "R1", some "G1"⟩,
         ⟨"master", "g1", "read", some "*", some "*"⟩])
      "g1" "read" "R7" "G7" = true :=
  isGranted_of_full_wildcard
    [⟨"master", "g2", "read", some "R1", some "G1"⟩,
     ⟨"master", "g1", "read", some "*", some "*"⟩]
    "master" "g1" "read" "R7" "G7" (by decide)

/-! ## C29, C30: pairing of translated rule sets, removal of records -/

theorem translateNameRecord_paired (m : List (String × List (String × String)))
    (a b : Authorization) (h : translateNameRecord m a = some b) :
    b.TargetGroupID ≠ none → b.TargetRealmID ≠ none := by
  obtain ⟨a1, a2, a3, a4, a5⟩ := a
  cases a4 with
  | none =>
    cases a5 <;>
    · simp only [translateNameRecord, Option.some.injEq] at h
      subst h
      simp
  | some realm =>
    cases a5 with
    | none =>
      simp only [translateNameRecord, Option.some.injEq] at h
      subst h
      simp
    | some name =>
      cases hl : lookup2 realm name m with
      | none => simp [translateNameRecord, hl] at h
      | some v =>
        simp only [translateNameRecord, hl, Option.some.injEq] at h
        subst h
        simp

theorem checkRecords_ne_panic_of_paired (allowed : List (String × List (String × String)))
    (rs : List Authorization) (hp : Paired rs) : checkRecords allowed rs ≠ .panic := by
  by_cases hnil : checkRecords allowed rs = .nil
  · rw [hnil]
    simp
  · have hex : ∃ r ∈ rs, checkRecord allowed r ≠ .nil := by
      by_contra hcon
      push_neg at hcon
      exact hnil ((checkRecords_eq_nil_iff allowed rs).mpr hcon)
    obtain ⟨pre, r, post, heq, hpre, hr⟩ := exists_first_offender allowed rs hex
    have hmem : r ∈ rs := by rw [heq]; simp
    rw [heq, checkRecords_eq_first_offender allowed pre post r hpre hr]
    rcases checkRecord_cases allowed r with ⟨h, _⟩ | ⟨h, _⟩ | ⟨_, hg, hn⟩ | ⟨h, _⟩
    · rw [h]; simp
    · rw [h]; simp
    · exact absurd hn (hp r hmem hg)
    · rw [h]; simp

theorem Validate_ne_panic_of_paired (ord : RangeOrder) (rs : List Authorization)
    (allowed : List (String × List (String × String))) (hp : Paired rs) :
    Validate ord rs allowed ≠ .panic := by
  by_cases hnil : checkRecords allowed rs = .nil
  · rcases Validate_matrix_phase ord rs allowed hnil with ⟨h, _⟩ | ⟨h, _⟩ | ⟨h, _⟩ <;>
      rw [h] <;> simp
  · rw [Validate_of_checkRecords_ne_nil ord rs allowed hnil]
    exact checkRecords_ne_panic_of_paired allowed rs hp

theorem wildcardRealmCoexistence_mono {rs rs' : List Authorization}
    (h : ∀ x ∈ rs', x ∈ rs) (hc : WildcardRealmCoexistence rs') :
    WildcardRealmCoexistence rs := by
  obtain ⟨r₁, hr₁, r₂, hr₂, hrest⟩ := hc
  exact ⟨r₁, h r₁ hr₁, r₂, h r₂ hr₂, hrest⟩

theorem wildcardGroupCoexistence_mono {rs rs' : List Authorization}
    (h : ∀ x ∈ rs', x ∈ rs) (hc : WildcardGroupCoexistence rs') :
    WildcardGroupCoexistence rs := by
  obtain ⟨r₁, hr₁, r₂, hr₂, hrest⟩ := hc
  exact ⟨r₁, h r₁ hr₁, r₂, h r₂ hr₂, hrest⟩

/-- C29. The output of `TranslateGroupNameIntoGroupID` satisfies the pairing invariant: for
every list of records and every mapper, no output record has a target group together with
an absent target realm, so `Validate` on that output never stops on the dereference of an
absent target realm, for every allow-list and iteration order. -/
theorem TranslateGroupNameIntoGroupID_paired (rs : List Authorization)
    (m : List (String × List (String × String))) :
    Paired (TranslateGroupNameIntoGroupID rs m) ∧
    ∀ (ord : RangeOrder) (allowed : List (String × List (String × String))),
      Validate ord (TranslateGroupNameIntoGroupID rs m) allowed ≠ .panic := by
  have hp : Paired (TranslateGroupNameIntoGroupID rs m) := by
    intro b hb
    obtain ⟨a, _, ha⟩ := List.mem_filterMap.mp hb
    exact translateNameRecord_paired m a b ha
  exact ⟨hp, fun ord allowed => Validate_ne_panic_of_paired ord _ allowed hp⟩

/-- C30. Acceptance is closed under removing records: for every allow-list and every list
of records `rs` on which `Validate` returns nil, `Validate` returns nil on every sub-list
of `rs` (records removed, order kept), whatever the iteration orders of the two runs. -/
theorem Validate_nil_of_sublist (ord ord' : RangeOrder) (rs rs' : List Authorization)
    (allowed : List (String × List (String × String)))
    (hsub : List.Sublist rs' rs) (h : Validate ord rs allowed = .nil) :
    Validate ord' rs' allowed = .nil := by
  obtain ⟨hnil, hnr, hng⟩ := (Validate_eq_nil_iff ord rs allowed).mp h
  have hmem : ∀ x ∈ rs', x ∈ rs := fun x hx => hsub.subset hx
  refine (Validate_eq_nil_iff ord' rs' allowed).mpr ⟨?_, ?_, ?_⟩
  · rw [checkRecords_eq_nil_iff] at hnil ⊢
    exact fun r hr => hnil r (hmem r hr)
  · exact fun hc => hnr (wildcardRealmCoexistence_mono hmem hc)
  · exact fun hc => hng (wildcardGroupCoexistence_mono hmem hc)

/-- C30 at a concrete input: the middle record of an accepted rule set is removed. -/
theorem Validate_nil_of_sublist_witness :
    Validate RangeOrder.reversed
      [⟨"master", "g1", "read", some "*", none⟩, ⟨"master", "g2", "write", some "R1", none⟩]
      [("*", []), ("R1", [("G1", "G1")])] = .nil :=
  Validate_nil_of_sublist RangeOrder.stored RangeOrder.reversed
    [⟨"master", "g1", "read", some "*", none⟩,
     ⟨"master", "g2", "read", some "R1", some "G1"⟩,
     ⟨"master", "g2", "write", some "R1", none⟩]
    [⟨"master", "g1", "read", some "*", none⟩, ⟨"master", "g2", "write", some "R1", none⟩]
    [("*", []), ("R1", [("G1", "G1")])] (by decide) (by decide)

/-! ## C25 to C27: account API conversions -/

/-- C25. `ConvertCredential` never transmits the credential value: for every Keycloak
credential `c`, the result has `Value` absent, also when `c.Value` is set, has `ID`,
`Type`, `UserLabel`, `CreatedDate`, `CredentialData` and `Temporary` equal to those of
`c`, and is the same for every input that differs from `c` only in `Value`. -/
theorem ConvertCredential_drops_value (c : KcCredentialRepresentation) :
    (∃ cred, ConvertCredential (some c) = some cred ∧ cred.Value = none ∧
      cred.ID = c.ID ∧ cred.CredentialType = c.CredentialType ∧
      cred.UserLabel = c.UserLabel ∧ cred.CreatedDate = c.CreatedDate ∧
      cred.CredentialData = c.CredentialData ∧ cred.Temporary = c.Temporary) ∧
    ∀ v, ConvertCredential (some { c with Value := v }) = ConvertCredential (some c) :=
  ⟨⟨_, rfl, rfl, rfl, rfl, rfl, rfl, rfl, rfl⟩, fun _ => rfl⟩

theorem convertToAccreditations_append
    (unmarshal : String → Option AccreditationRepresentation)
    (isDateInThePast : Option String → Option Bool) (xs ys : List String) :
    convertToAccreditations unmarshal isDateInThePast (xs ++ ys) =
      convertToAccreditations unmarshal isDateInThePast xs ++
        convertToAccreditations unmarshal isDateInThePast ys := by
  simp only [convertToAccreditations, List.filterMap_append]

theorem convertToAccreditations_cons_some
    (unmarshal : String → Option AccreditationRepresentation)
    (isDateInThePast : Option String → Option Bool) (j : String) (rest : List String)
    (accred : AccreditationRepresentation) (h : unmarshal j = some accred) :
    convertToAccreditations unmarshal isDateInThePast (j :: rest) =
      convertAccreditation isDateInThePast accred ::
        convertToAccreditations unmarshal isDateInThePast rest := by
  simp only [convertToAccreditations]
  rw [List.filterMap_cons_some]
  simp only [h]

/-- C26. Revoked accreditations are reported as expired: for every list of accreditation
JSON values, an accreditation (at any position) that parses with `revoked = true` is
returned at its place with `Expired = true`, and every returned accreditation has its
`Revoked` field absent. -/
theorem convertToAccreditations_revoked_expired
    (unmarshal : String → Option AccreditationRepresentation)
    (isDateInThePast : Option String → Option Bool) (pre post : List String) (j : String)
    (accred : AccreditationRepresentation)
    (hj : unmarshal j = some accred) (hrev : accred.Revoked = some true) :
    convertToAccreditations unmarshal isDateInThePast (pre ++ j :: post) =
      convertToAccreditations unmarshal isDateInThePast pre ++
        { accred with Expired := some true, Revoked := none } ::
          convertToAccreditations unmarshal isDateInThePast post ∧
    ∀ values, ∀ x ∈ convertToAccreditations unmarshal isDateInThePast values,
      x.Revoked = none := by
  constructor
  · rw [convertToAccreditations_append,
      convertToAccreditations_cons_some unmarshal isDateInThePast j post accred hj]
    have hc : convertAccreditation isDateInThePast accred =
        { accred with Expired := some true, Revoked := none } := by
      simp only [convertAccreditation, hrev, if_true]
    rw [hc]
  · intro values x hx
    simp only [convertToAccreditations, List.mem_filterMap] at hx
    obtain ⟨j', _, hj'⟩ := hx
    cases hu : unmarshal j' with
    | none => simp [hu] at hj'
    | some a =>
      simp only [hu, Option.some.injEq] at hj'
      subst hj'
      rfl

/-- C26 at a concrete input: the value `"b"` parses to a revoked accreditation, the value
`"a"` to one that is not revoked, every other value does not parse. -/
theorem convertToAccreditations_revoked_expired_witness :
    convertToAccreditations
      (fun j => if j = "a" then some ⟨some "ONE", some "01.01.2050", none, none⟩
        else if j = "b" then some ⟨some "TWO", some "01.01.2050", some false, some true⟩
        else none)
      (fun _ => some false) (["a", "x"] ++ "b" :: ["a"]) =
      convertToAccreditations
        (fun j => if j = "a" then some ⟨some "ONE", some "01.01.2050", none, none⟩
          else if j = "b" then some ⟨some "TWO", some "01.01.2050", some false, some true⟩
          else none)
        (fun _ => some false) ["a", "x"] ++
        { (⟨some "TWO", some "01.01.2050", some false, some true⟩ :
              AccreditationRepresentation) with
            Expired := some true, Revoked := none } ::
          convertToAccreditations
            (fun j => if j = "a" then some ⟨some "ONE", some "01.01.2050", none, none⟩
              else if j = "b" then
                some ⟨some "TWO", some "01.01.2050", some false, some true⟩
              else none)
            (fun _ => some false) ["a"] ∧
    ∀ values, ∀ x ∈ convertToAccreditations
        (fun j => if j = "a" then some ⟨some "ONE", some "01.01.2050", none, none⟩
          else if j = "b" then some ⟨some "TWO", some "01.01.2050", some false, some true⟩
          else none)
        (fun _ => some false) values,
      x.Revoked = none :=
  convertToAccreditations_revoked_expired
    (fun j => if j = "a" then some ⟨some "ONE", some "01.01.2050", none, none⟩
      else if j = "b" then some ⟨some "TWO", some "01.01.2050", some false, some true⟩
      else none)
    (fun _ => some false) ["a", "x"] ["a"] "b"
    ⟨some "TWO", some "01.01.2050", some false, some true⟩ (by decide) rfl

theorem lookup_mapSet_self {V : Type} (k : String) (v : V) (m : List (String × V)) :
    lookup k (mapSet k v m) = some v := by
  induction m with
  | nil => simp [mapSet, lookup]
  | cons p t ih =>
    obtain ⟨k', v'⟩ := p
    simp only [mapSet]
    split_ifs with h
    · simp [lookup]
    · simp [lookup, h, ih]

theorem lookup_mapSet_of_ne {V : Type} (k k' : String) (v : V) (m : List (String × V))
    (h : k' ≠ k) : lookup k' (mapSet k v m) = lookup k' m := by
  induction m with
  | nil => simp [mapSet, lookup, h.symm]
  | cons p t ih =>
    obtain ⟨k₀, v₀⟩ := p
    simp only [mapSet]
    split_ifs with h₀
    · subst h₀
      simp [lookup, h.symm]
    · simp only [lookup, ih]

theorem mapSet_ne_nil {V : Type} (k : String) (v : V) (m : List (String × V)) :
    mapSet k v m ≠ [] := by
  cases m with
  | nil => simp [mapSet]
  | cons p t =>
    obtain ⟨k', v'⟩ := p
    simp only [mapSet]
    split_ifs <;> simp

/-- C27. For every account representation `u`, `ConvertToKCUser(u)` copies `Username`,
`Email`, `FirstName` and `LastName` from `u`; its `Attributes` field is absent exactly when
both `u.PhoneNumber` and `u.Locale` are absent; otherwise it holds exactly the phone-number
and locale attributes that are present in `u`, each with its single value, and no other
attribute. The two attribute keys are different keys. -/
theorem ConvertToKCUser_attributes (attrbPhoneNumber attrbLocale : String)
    (u : AccountRepresentation) (hkeys : attrbPhoneNumber ≠ attrbLocale) :
    (ConvertToKCUser attrbPhoneNumber attrbLocale u).Username = u.Username ∧
    (ConvertToKCUser attrbPhoneNumber attrbLocale u).Email = u.Email ∧
    (ConvertToKCUser attrbPhoneNumber attrbLocale u).FirstName = u.FirstName ∧
    (ConvertToKCUser attrbPhoneNumber attrbLocale u).LastName = u.LastName ∧
    ((ConvertToKCUser attrbPhoneNumber attrbLocale u).Attributes = none ↔
      u.PhoneNumber = none ∧ u.Locale = none) ∧
    ∀ attributes, (ConvertToKCUser attrbPhoneNumber attrbLocale u).Attributes = some attributes →
      lookup attrbPhoneNumber attributes = u.PhoneNumber.map (fun v => [v]) ∧
      lookup attrbLocale attributes = u.Locale.map (fun v => [v]) ∧
      ∀ k, k ≠ attrbPhoneNumber → k ≠ attrbLocale → lookup k attributes = none := by
  refine ⟨rfl, rfl, rfl, rfl, ?_, ?_⟩
  · cases hp : u.PhoneNumber <;> cases hl : u.Locale <;>
      simp [ConvertToKCUser, SetStringWhenNotNil, hp, hl, mapSet, List.length_pos,
        mapSet_ne_nil, hkeys]
  · intro attributes hattr
    cases hp : u.PhoneNumber with
    | none =>
      cases hl : u.Locale with
      | none => simp [ConvertToKCUser, SetStringWhenNotNil, hp, hl] at hattr
      | some l =>
        simp only [ConvertToKCUser, SetStringWhenNotNil, hp, hl, mapSet, List.length_singleton,
          gt_iff_lt, Nat.lt_one_iff, if_true, Option.some.injEq, Nat.zero_lt_one] at hattr
        subst hattr
        refine ⟨?_, ?_, ?_⟩
        · simp [lookup, hkeys.symm]
        · simp [lookup]
        · intro k _ hk
          simp [lookup, hk.symm]
    | some ph =>
      cases hl : u.Locale with
      | none =>
        simp only [ConvertToKCUser, SetStringWhenNotNil, hp, hl, mapSet, List.length_singleton,
          gt_iff_lt, if_true, Option.some.injEq, Nat.zero_lt_one] at hattr
        subst hattr
        refine ⟨?_, ?_, ?_⟩
        · simp [lookup]
        · simp [lookup, hkeys]
        · intro k hk _
          simp [lookup, hk.symm]
      | some l =>
        simp only [ConvertToKCUser, SetStringWhenNotNil, hp, hl, mapSet, hkeys, if_false,
          List.length_cons, List.length_nil, gt_iff_lt, Nat.zero_lt_succ, if_true,
          Option.some.injEq] at hattr
        subst hattr
        refine ⟨?_, ?_, ?_⟩
        · simp [lookup]
        · simp [lookup, hkeys]
        · intro k hk hk'
          simp [lookup, hk.symm, hk'.symm]

/-- C27 at a concrete input: the keys `phoneNumber` and `locale`, an account with a phone
number and no locale. -/
theorem ConvertToKCUser_attributes_witness :
    (ConvertToKCUser "phoneNumber" "locale"
      ⟨none, some "Marc", some "Bichon", some "mbichon", some "m@elca.ch", none,
       some "+41767676767", none, none, none, none, none, none, none, none, none,
       none⟩).Attributes = some [("phoneNumber", ["+41767676767"])] ∧
    lookup "phoneNumber" [("phoneNumber", ["+41767676767"])] = some ["+41767676767"] ∧
    lookup "locale" [("phoneNumber", ["+41767676767"])] = none :=
  have h : (ConvertToKCUser "phoneNumber" "locale"
      ⟨none, some "Marc", some "Bichon", some "mbichon", some "m@elca.ch", none,
       some "+41767676767", none, none, none, none, none, none, none, none, none,
       none⟩).Attributes = some [("phoneNumber", ["+41767676767"])] := by decide
  ⟨h,
   ((ConvertToKCUser_attributes "phoneNumber" "locale"
      ⟨none, some "Marc", some "Bichon", some "mbichon", some "m@elca.ch", none,
       some "+41767676767", none, none, none, none, none, none, none, none, none, none⟩
      (by decide)).2.2.2.2.2 _ h).1,
   ((ConvertToKCUser_attributes "phoneNumber" "locale"
      ⟨none, some "Marc", some "Bichon", some "mbichon", some "m@elca.ch", none,
       some "+41767676767", none, none, none, none, none, none, none, none, none, none⟩
      (by decide)).2.2.2.2.2 _ h).2.1⟩

/-! ## C28: verified phone number -/

/-- C28. `isPhoneNumberVerified` returns true only when the attributes are present and the
`phoneNumberVerified` attribute holds the boolean value true: it returns false for absent
attributes, for attributes without a `phoneNumberVerified` entry, for the value
`"not a boolean"` and for `"false"`, and true for `"true"`. The reading of booleans is any
function that reads `"true"` as true, `"false"` as false and does not read
`"not a boolean"`. -/
theorem isPhoneNumberVerified_spec (parseBool : String → Option Bool)
    (hT : parseBool "true" = some true) (hF : parseBool "false" = some false)
    (hN : parseBool "not a boolean" = none) :
    isPhoneNumberVerified parseBool none = false ∧
    isPhoneNumberVerified parseBool (some []) = false ∧
    isPhoneNumberVerified parseBool
      (some (mapSet "phoneNumberVerified" ["not a boolean"] [])) = false ∧
    isPhoneNumberVerified parseBool
      (some (mapSet "phoneNumberVerified" ["false"]
        (mapSet "phoneNumberVerified" ["not a boolean"] []))) = false ∧
    isPhoneNumberVerified parseBool
      (some (mapSet "phoneNumberVerified" ["true"]
        (mapSet "phoneNumberVerified" ["false"]
          (mapSet "phoneNumberVerified" ["not a boolean"] [])))) = true ∧
    ∀ attrbs, isPhoneNumberVerified parseBool attrbs = true ↔
      ∃ m value rest, attrbs = some m ∧
        lookup "phoneNumberVerified" m = some (value :: rest) ∧
        parseBool value = some true := by
  refine ⟨rfl, rfl, ?_, ?_, ?_, ?_⟩
  · simp [isPhoneNumberVerified, mapSet, lookup, hN]
  · simp [isPhoneNumberVerified, mapSet, lookup, hF]
  · simp [isPhoneNumberVerified, mapSet, lookup, hT]
  · intro attrbs
    cases attrbs with
    | none => simp [isPhoneNumberVerified]
    | some m =>
      cases hl : lookup "phoneNumberVerified" m with
      | none => simp [isPhoneNumberVerified, hl]
      | some values =>
        cases values with
        | nil => simp [isPhoneNumberVerified, hl]
        | cons value rest => simp [isPhoneNumberVerified, hl]

/-- C28 for a reading of booleans that knows `"true"` and `"false"` only. -/
theorem isPhoneNumberVerified_spec_witness :
    isPhoneNumberVerified
      (fun v => if v = "true" then some true else if v = "false" then some false else none)
      (some [("phoneNumberVerified", ["true"])]) = true ∧
    isPhoneNumberVerified
      (fun v => if v = "true" then some true else if v = "false" then some false else none)
      (some [("phoneNumber", ["true"])]) = false :=
  have h := isPhoneNumberVerified_spec
    (fun v => if v = "true" then some true else if v = "false" then some false else none)
    (by decide) (by decide) (by decide)
  ⟨(h.2.2.2.2.2 _).mpr ⟨_, "true", [], rfl, by decide, by decide⟩,
   by
    cases hv : isPhoneNumberVerified
      (fun v => if v = "true" then some true else if v = "false" then some false else none)
      (some [("phoneNumber", ["true"])]) with
    | false => rfl
    | true =>
      obtain ⟨m, value, rest, hm, hl, _⟩ := (h.2.2.2.2.2 _).mp hv
      cases hm
      simp [lookup] at hl⟩

/-! ## C31, C32: acceptance under a larger allow-list and under reordering -/

theorem checkRecord_nil_mono (A B : List (String × List (String × String)))
    (hkeys : ∀ R, lookup R A ≠ none → lookup R B ≠ none)
    (hgroups : ∀ R G, lookup2 R G A ≠ none → lookup2 R G B ≠ none)
    (r : Authorization) (h : checkRecord A r = .nil) : checkRecord B r = .nil := by
  have hA := not_bad_of_checkRecord_nil A r h
  have hpair : r.TargetGroupID ≠ none → r.TargetRealmID ≠ none := by
    rcases checkRecord_cases A r with ⟨h', _⟩ | ⟨h', _⟩ | ⟨h', _⟩ | ⟨_, _, _, hp⟩
    · rw [h] at h'; cases h'
    · rw [h] at h'; cases h'
    · rw [h] at h'; cases h'
    · exact hp
  apply checkRecord_eq_nil_of B r _ _ hpair
  · rintro ⟨R, hR, hl⟩
    have hRA : lookup R A ≠ none := fun hla => hA.1 ⟨R, hR, hla⟩
    exact hkeys R hRA hl
  · rintro ⟨R, hR, G, hG, _, hl⟩
    have hRA : lookup R A ≠ none := fun hla => hA.1 ⟨R, hR, hla⟩
    have hGA : lookup2 R G A ≠ none := fun hla => hA.2 ⟨R, hR, G, hG, hRA, hla⟩
    exact hgroups R G hGA hl

/-- C31. Acceptance is monotone in the allow-list: for every list of records and
allow-lists `A` and `B` such that every realm key of `A` is a key of `B` and every group
allowed under a realm in `A` is allowed under that realm in `B`, if `Validate` returns nil
with `A` then it returns nil with `B`, whatever the iteration orders of the two runs. -/
theorem Validate_nil_mono_allowed (ord ord' : RangeOrder) (rs : List Authorization)
    (A B : List (String × List (String × String)))
    (hkeys : ∀ R, lookup R A ≠ none → lookup R B ≠ none)
    (hgroups : ∀ R G, lookup2 R G A ≠ none → lookup2 R G B ≠ none)
    (h : Validate ord rs A = .nil) : Validate ord' rs B = .nil := by
  obtain ⟨hnil, hnr, hng⟩ := (Validate_eq_nil_iff ord rs A).mp h
  refine (Validate_eq_nil_iff ord' rs B).mpr ⟨?_, hnr, hng⟩
  rw [checkRecords_eq_nil_iff] at hnil ⊢
  exact fun r hr => checkRecord_nil_mono A B hkeys hgroups r (hnil r hr)

/-- C31 at a concrete input: the allow-list gains a realm and a group. -/
theorem Validate_nil_mono_allowed_witness :
    Validate RangeOrder.reversed
      [⟨"master", "g1", "read", some "R1", some "G1"⟩, ⟨"master", "g1", "read", some "R1", none⟩]
      [("R2", []), ("R1", [("G2", "G2"), ("G1", "G1")])] = .nil :=
  Validate_nil_mono_allowed RangeOrder.stored RangeOrder.reversed
    [⟨"master", "g1", "read", some "R1", some "G1"⟩, ⟨"master", "g1", "read", some "R1", none⟩]
    [("R1", [("G1", "G1")])] [("R2", []), ("R1", [("G2", "G2"), ("G1", "G1")])]
    (by
      intro R hR
      by_cases h : R = "R1"
      · subst h; decide
      · exact absurd (by simp [lookup, Ne.symm h]) hR)
    (by
      intro R G hRG
      by_cases h : R = "R1"
      · subst h
        by_cases hG : G = "G1"
        · subst hG; decide
        · exact absurd (by simp [lookup2, lookup, Ne.symm hG]) hRG
      · exact absurd (by simp [lookup2, lookup, Ne.symm h]) hRG)
    (by decide)

/-- C32. Acceptance does not depend on record order: for every allow-list, every list of
records `rs` and every permutation `rs'` of `rs`, `Validate` returns nil on `rs` if and
only if it returns nil on `rs'`, whatever the iteration orders of the two runs. -/
theorem Validate_nil_perm (ord ord' : RangeOrder) (rs rs' : List Authorization)
    (allowed : List (String × List (String × String))) (hperm : rs'.Perm rs) :
    Validate ord rs allowed = .nil ↔ Validate ord' rs' allowed = .nil := by
  have hmem : ∀ x, x ∈ rs' ↔ x ∈ rs := fun x => hperm.mem_iff
  rw [Validate_eq_nil_iff, Validate_eq_nil_iff, wildcardRealmCoexistence_congr hmem,
    wildcardGroupCoexistence_congr hmem, checkRecords_eq_nil_iff, checkRecords_eq_nil_iff]
  simp only [hmem]

/-- C32 at a concrete input: a rejected rule set and its reverse. -/
theorem Validate_nil_perm_witness :
    Validate RangeOrder.stored
      [⟨"master", "g", "a", some "*", none⟩, ⟨"master", "g", "a", some "R1", some "G1"⟩]
      [("*", []), ("R1", [("G1", "G1")])] = .nil ↔
    Validate RangeOrder.reversed
      [⟨"master", "g", "a", some "R1", some "G1"⟩, ⟨"master", "g", "a", some "*", none⟩]
      [("*", []), ("R1", [("G1", "G1")])] = .nil :=
  Validate_nil_perm RangeOrder.stored RangeOrder.reversed
    [⟨"master", "g", "a", some "*", none⟩, ⟨"master", "g", "a", some "R1", some "G1"⟩]
    [⟨"master", "g", "a", some "R1", some "G1"⟩, ⟨"master", "g", "a", some "*", none⟩]
    [("*", []), ("R1", [("G1", "G1")])] (List.Perm.swap _ _ _)

/-! ## Unscoped grants -/

theorem checkRecord_unscoped (allowed : List (String × List (String × String)))
    (u : Authorization) (hR : u.TargetRealmID = none) (hG : u.TargetGroupID = none) :
    checkRecord allowed u = .nil := by
  obtain ⟨a, b, c, d, e⟩ := u
  simp only at hR hG
  subst hR hG
  rfl

theorem checkRecords_cons_of_nil (allowed : List (String × List (String × String)))
    (r : Authorization) (rest : List Authorization) (h : checkRecord allowed r = .nil) :
    checkRecords allowed (r :: rest) = checkRecords allowed rest := by
  rw [checkRecords, h]

theorem checkRecords_insert_nil (allowed : List (String × List (String × String)))
    (pre post : List Authorization) (u : Authorization) (hu : checkRecord allowed u = .nil) :
    checkRecords allowed (pre ++ u :: post) = checkRecords allowed (pre ++ post) := by
  induction pre with
  | nil => exact checkRecords_cons_of_nil allowed u post hu
  | cons a t ih =>
    show checkRecords allowed (a :: (t ++ u :: post)) = checkRecords allowed (a :: (t ++ post))
    by_cases ha : checkRecord allowed a = .nil
    · rw [checkRecords_cons_of_nil allowed a _ ha, checkRecords_cons_of_nil allowed a _ ha, ih]
    · rw [checkRecords_cons_of_ne_nil allowed a _ ha, checkRecords_cons_of_ne_nil allowed a _ ha]

theorem mem_insert_of_mem {pre post : List Authorization} (u : Authorization)
    {x : Authorization} (h : x ∈ pre ++ post) : x ∈ pre ++ u :: post := by
  rcases List.mem_append.mp h with h | h
  · exact List.mem_append.mpr (Or.inl h)
  · exact List.mem_append.mpr (Or.inr (List.mem_cons_of_mem _ h))

theorem mem_of_mem_insert_scoped {pre post : List Authorization} {u x : Authorization}
    (hu : u.TargetRealmID = none) (h : x ∈ pre ++ u :: post) (hx : x.TargetRealmID ≠ none) :
    x ∈ pre ++ post := by
  rcases List.mem_append.mp h with h | h
  · exact List.mem_append.mpr (Or.inl h)
  · rcases List.mem_cons.mp h with rfl | h
    · exact absurd hu hx
    · exact List.mem_append.mpr (Or.inr h)

theorem wildcardRealmCoexistence_insert_unscoped (pre post : List Authorization)
    (u : Authorization) (hu : u.TargetRealmID = none) :
    WildcardRealmCoexistence (pre ++ u :: post) ↔ WildcardRealmCoexistence (pre ++ post) := by
  constructor
  · rintro ⟨r₁, hr₁, r₂, hr₂, hk, h₁, h₂, h₂'⟩
    exact ⟨r₁, mem_of_mem_insert_scoped hu hr₁ (by rw [h₁]; simp),
      r₂, mem_of_mem_insert_scoped hu hr₂ h₂, hk, h₁, h₂, h₂'⟩
  · exact wildcardRealmCoexistence_mono (fun x hx => mem_insert_of_mem u hx)

theorem wildcardGroupCoexistence_insert_unscoped (pre post : List Authorization)
    (u : Authorization) (hu : u.TargetRealmID = none) :
    WildcardGroupCoexistence (pre ++ u :: post) ↔ WildcardGroupCoexistence (pre ++ post) := by
  constructor
  · rintro ⟨r₁, hr₁, r₂, hr₂, hk, h₁, hT, hrest⟩
    exact ⟨r₁, mem_of_mem_insert_scoped hu hr₁ h₁,
      r₂, mem_of_mem_insert_scoped hu hr₂ (hT ▸ h₁), hk, h₁, hT, hrest⟩
  · exact wildcardGroupCoexistence_mono (fun x hx => mem_insert_of_mem u hx)

theorem strictGroupCoexistence_insert_unscoped (pre post : List Authorization)
    (u : Authorization) (hu : u.TargetRealmID = none) :
    StrictGroupCoexistence (pre ++ u :: post) ↔ StrictGroupCoexistence (pre ++ post) := by
  constructor
  · rintro ⟨r₁, hr₁, r₂, hr₂, ⟨hk, h₁, hT, hrest⟩, hnr⟩
    refine ⟨r₁, mem_of_mem_insert_scoped hu hr₁ h₁,
      r₂, mem_of_mem_insert_scoped hu hr₂ (hT ▸ h₁), ⟨hk, h₁, hT, hrest⟩, ?_⟩
    rintro ⟨hstar, r₃, hr₃, hrest₃⟩
    exact hnr ⟨hstar, r₃, mem_insert_of_mem u hr₃, hrest₃⟩
  · rintro ⟨r₁, hr₁, r₂, hr₂, hcore, hnr⟩
    refine ⟨r₁, mem_insert_of_mem u hr₁, r₂, mem_insert_of_mem u hr₂, hcore, ?_⟩
    rintro ⟨hstar, r₃, hr₃, hk₃, hT₃, hT₃'⟩
    exact hnr ⟨hstar, r₃, mem_of_mem_insert_scoped hu hr₃ hT₃, hk₃, hT₃, hT₃'⟩

theorem Validate_insert_unscoped_nil_iff (ord ord' : RangeOrder)
    (pre post : List Authorization) (u : Authorization)
    (allowed : List (String × List (String × String)))
    (hR : u.TargetRealmID = none) (hG : u.TargetGroupID = none) :
    Validate ord (pre ++ u :: post) allowed = .nil ↔
      Validate ord' (pre ++ post) allowed = .nil := by
  rw [Validate_eq_nil_iff, Validate_eq_nil_iff,
    checkRecords_insert_nil allowed pre post u (checkRecord_unscoped allowed u hR hG),
    wildcardRealmCoexistence_insert_unscoped pre post u hR,
    wildcardGroupCoexistence_insert_unscoped pre post u hR]

/-- Inserting a record without target realm and target group changes neither the set of
results that the iteration orders can produce nor acceptance; next to a wildcard target
realm of its bucket it is accepted when the wildcard is an allowed realm. -/
theorem Validate_insert_unscoped_same_result_sets (pre post : List Authorization) (u : Authorization)
    (allowed : List (String × List (String × String)))
    (hR : u.TargetRealmID = none) (hG : u.TargetGroupID = none) :
    (∀ res, (∃ ord, Validate ord (pre ++ u :: post) allowed = res) ↔
      (∃ ord, Validate ord (pre ++ post) allowed = res)) ∧
    (∀ ord ord', Validate ord (pre ++ u :: post) allowed = .nil ↔
      Validate ord' (pre ++ post) allowed = .nil) ∧
    (∀ (ord : RangeOrder) (realm : String), lookup "*" allowed ≠ none →
      Validate ord [⟨realm, u.GroupID, u.Action, some "*", none⟩, u] allowed = .nil) := by
  refine ⟨?_, ?_, ?_⟩
  · intro res
    rw [Validate_possible_iff, Validate_possible_iff,
      checkRecords_insert_nil allowed pre post u (checkRecord_unscoped allowed u hR hG),
      wildcardRealmCoexistence_insert_unscoped pre post u hR,
      wildcardGroupCoexistence_insert_unscoped pre post u hR,
      strictGroupCoexistence_insert_unscoped pre post u hR]
  · exact fun ord ord' =>
      Validate_insert_unscoped_nil_iff ord ord' pre post u allowed hR hG
  · intro ord realm hstar
    have h := Validate_insert_unscoped_nil_iff ord ord
      [⟨realm, u.GroupID, u.Action, some "*", none⟩] [] u allowed hR hG
    apply h.mpr
    apply Validate_eq_nil_of
    · intro r hr
      simp only [List.append_nil, List.mem_singleton] at hr
      subst hr
      simp
    · intro r hr R' hR'
      simp only [List.append_nil, List.mem_singleton] at hr
      subst hr
      simp only [Option.mem_def, Option.some.injEq] at hR'
      subst hR'
      exact hstar
    · intro r hr R' _ G' hG'
      simp only [List.append_nil, List.mem_singleton] at hr
      subst hr
      simp at hG'
    · rintro ⟨r₁, hr₁, r₂, hr₂, _, h₁, _, h₂⟩
      simp only [List.append_nil, List.mem_singleton] at hr₁ hr₂
      subst hr₁ hr₂
      exact h₂ h₁
    · rintro ⟨r₁, hr₁, r₂, hr₂, _, _, _, h₁, _, h₂⟩
      simp only [List.append_nil, List.mem_singleton] at hr₁ hr₂
      subst hr₁ hr₂
      exact h₂ h₁

/-! ## C35: repeated directory entries; record independence -/

/-- On a directory in which every entry has an ID and a name, both translators distribute
over the concatenation of rule sets and map the empty rule set to the empty rule set. -/
theorem translators_append_of_wellFormed (xs ys : List Authorization) (dir : List GroupRepresentation)
    (m : List (String × List (String × String))) (hdir : WellFormedDirectory dir) :
    (∃ outXs outYs,
      TranslateGroupIDIntoGroupName xs dir = some outXs ∧
      TranslateGroupIDIntoGroupName ys dir = some outYs ∧
      TranslateGroupIDIntoGroupName (xs ++ ys) dir = some (outXs ++ outYs)) ∧
    TranslateGroupIDIntoGroupName [] dir = some [] ∧
    TranslateGroupNameIntoGroupID (xs ++ ys) m =
      TranslateGroupNameIntoGroupID xs m ++ TranslateGroupNameIntoGroupID ys m ∧
    TranslateGroupNameIntoGroupID [] m = [] := by
  obtain ⟨mp, hmp⟩ := groupIDMapping_isSome dir hdir
  refine ⟨⟨xs.filterMap (translateIDRecord mp), ys.filterMap (translateIDRecord mp),
    TranslateGroupIDIntoGroupName_eq xs dir mp hmp,
    TranslateGroupIDIntoGroupName_eq ys dir mp hmp, ?_⟩, ?_, ?_, rfl⟩
  · rw [TranslateGroupIDIntoGroupName_eq _ dir mp hmp, List.filterMap_append]
  · rw [TranslateGroupIDIntoGroupName_eq _ dir mp hmp]
    rfl
  · simp only [TranslateGroupNameIntoGroupID, List.filterMap_append]

/-- At a concrete input: two lists of two records, one dropped in each list. -/
theorem translators_append_of_wellFormed_witness :
    (∃ outXs outYs,
      TranslateGroupIDIntoGroupName
        [⟨"master", "g1", "read", some "R1", some "id1"⟩,
         ⟨"master", "g2", "read", some "R1", some "id9"⟩]
        [⟨some "id1", some "admins"⟩] = some outXs ∧
      TranslateGroupIDIntoGroupName
        [⟨"master", "g3", "read", some "R1", some "id8"⟩, ⟨"master", "g4", "read", none, none⟩]
        [⟨some "id1", some "admins"⟩] = some outYs ∧
      TranslateGroupIDIntoGroupName
        ([⟨"master", "g1", "read", some "R1", some "id1"⟩,
          ⟨"master", "g2", "read", some "R1", some "id9"⟩] ++
         [⟨"master", "g3", "read", some "R1", some "id8"⟩,
          ⟨"master", "g4", "read", none, none⟩])
        [⟨some "id1", some "admins"⟩] = some (outXs ++ outYs)) ∧
    TranslateGroupIDIntoGroupName [] [⟨some "id1", some "admins"⟩] = some [] ∧
    TranslateGroupNameIntoGroupID
      ([⟨"master", "g1", "read", some "R1", some "id1"⟩,
        ⟨"master", "g2", "read", some "R1", some "id9"⟩] ++
       [⟨"master", "g3", "read", some "R1", some "id8"⟩,
        ⟨"master", "g4", "read", none, none⟩])
      [("R1", [("id1", "x1")])] =
      TranslateGroupNameIntoGroupID
        [⟨"master", "g1", "read", some "R1", some "id1"⟩,
         ⟨"master", "g2", "read", some "R1", some "id9"⟩]
        [("R1", [("id1", "x1")])] ++
      TranslateGroupNameIntoGroupID
        [⟨"master", "g3", "read", some "R1", some "id8"⟩, ⟨"master", "g4", "read", none, none⟩]
        [("R1", [("id1", "x1")])] ∧
    TranslateGroupNameIntoGroupID [] [("R1", [("id1", "x1")])] = [] :=
  translators_append_of_wellFormed
    [⟨"master", "g1", "read", some "R1", some "id1"⟩,
     ⟨"master", "g2", "read", some "R1", some "id9"⟩]
    [⟨"master", "g3", "read", some "R1", some "id8"⟩, ⟨"master", "g4", "read", none, none⟩]
    [⟨some "id1", some "admins"⟩] [("R1", [("id1", "x1")])] (by decide)

theorem fillGroupIDMapping_append (pre rest : List GroupRepresentation)
    (init : List (String × String)) :
    fillGroupIDMapping (pre ++ rest) init =
      match fillGroupIDMapping pre init with
      | some mid => fillGroupIDMapping rest mid
      | none => none := by
  induction pre generalizing init with
  | nil => rfl
  | cons g gs ih =>
    obtain ⟨id, name⟩ := g
    cases id with
    | none => rfl
    | some id =>
      cases name with
      | none => rfl
      | some name =>
        show fillGroupIDMapping (gs ++ rest) ((id, name) :: init) = _
        rw [ih]
        rfl

theorem resolves_last_entry (pre post : List GroupRepresentation) (G N : String)
    (hdir : WellFormedDirectory (pre ++ ⟨some G, some N⟩ :: post))
    (hlast : ∀ g ∈ post, g.Id ≠ some G) :
    Resolves (pre ++ ⟨some G, some N⟩ :: post) G N := by
  obtain ⟨mp, hmp⟩ := groupIDMapping_isSome _ hdir
  refine ⟨mp, hmp, ?_⟩
  have hfill : fillGroupIDMapping (pre ++ ⟨some G, some N⟩ :: post) [("*", "*")] = some mp :=
    hmp
  rw [fillGroupIDMapping_append] at hfill
  cases hpre : fillGroupIDMapping pre [("*", "*")] with
  | none => simp [hpre] at hfill
  | some mid =>
    simp only [hpre] at hfill
    have hpost : fillGroupIDMapping post ((G, N) :: mid) = some mp := hfill
    rw [fillGroupIDMapping_lookup_of_no_entry G post _ mp hpost hlast]
    simp [lookup]

/-- C35. When the directory passed to `TranslateGroupIDIntoGroupName` lists the same group
ID more than once (with well-formed entries), the directory resolves that ID to the name of
the last entry with that ID, and every record (at any position) whose target group is that
ID is translated in place to that name. -/
theorem TranslateGroupIDIntoGroupName_last_entry (pre post : List GroupRepresentation)
    (G N : String) (rsPre rsPost : List Authorization) (r : Authorization)
    (hdir : WellFormedDirectory (pre ++ ⟨some G, some N⟩ :: post))
    (hlast : ∀ g ∈ post, g.Id ≠ some G) (hG : r.TargetGroupID = some G) :
    Resolves (pre ++ ⟨some G, some N⟩ :: post) G N ∧
    ∃ outPre outPost,
      TranslateGroupIDIntoGroupName rsPre (pre ++ ⟨some G, some N⟩ :: post) = some outPre ∧
      TranslateGroupIDIntoGroupName rsPost (pre ++ ⟨some G, some N⟩ :: post) = some outPost ∧
      TranslateGroupIDIntoGroupName (rsPre ++ r :: rsPost)
        (pre ++ ⟨some G, some N⟩ :: post) =
        some (outPre ++ { r with TargetGroupID := some N } :: outPost) := by
  have hres := resolves_last_entry pre post G N hdir hlast
  obtain ⟨mp, hmp⟩ := groupIDMapping_isSome _ hdir
  have hl := (resolves_iff _ mp hmp G N).mp hres
  have hr : translateIDRecord mp r = some { r with TargetGroupID := some N } := by
    rw [translateIDRecord_eta, hG]
    simp only [hl]
  refine ⟨hres, rsPre.filterMap (translateIDRecord mp), rsPost.filterMap (translateIDRecord mp),
    TranslateGroupIDIntoGroupName_eq rsPre _ mp hmp,
    TranslateGroupIDIntoGroupName_eq rsPost _ mp hmp, ?_⟩
  rw [TranslateGroupIDIntoGroupName_eq _ _ mp hmp, List.filterMap_append,
    List.filterMap_cons_some hr]

/-- C35 at a concrete input: the ID `id1` is listed with the names `old` and `new`; the
record is translated to `new`. -/
theorem TranslateGroupIDIntoGroupName_last_entry_witness :
    TranslateGroupIDIntoGroupName [⟨"master", "g1", "read", some "R1", some "id1"⟩]
      [⟨some "id1", some "old"⟩, ⟨some "id2", some "other"⟩, ⟨some "id1", some "new"⟩,
       ⟨some "id3", some "third"⟩] =
      some [⟨"master", "g1", "read", some "R1", some "new"⟩] :=
  have h := TranslateGroupIDIntoGroupName_last_entry
    [⟨some "id1", some "old"⟩, ⟨some "id2", some "other"⟩] [⟨some "id3", some "third"⟩]
    "id1" "new" [] [] ⟨"master", "g1", "read", some "R1", some "id1"⟩
    (by decide) (by decide) rfl
  by
    obtain ⟨_, outPre, outPost, hpre, hpost, hall⟩ := h
    have h1 : outPre = [] := by
      have : TranslateGroupIDIntoGroupName []
          ([⟨some "id1", some "old"⟩, ⟨some "id2", some "other"⟩] ++
            ⟨some "id1", some "new"⟩ :: [⟨some "id3", some "third"⟩]) = some [] := by decide
      rw [this] at hpre
      exact (Option.some.inj hpre).symm
    subst h1
    have h2 : outPost = [] := by
      have : TranslateGroupIDIntoGroupName []
          ([⟨some "id1", some "old"⟩, ⟨some "id2", some "other"⟩] ++
            ⟨some "id1", some "new"⟩ :: [⟨some "id3", some "third"⟩]) = some [] := by decide
      rw [this] at hpost
      exact (Option.some.inj hpost).symm
    subst h2
    exact hall

/-! ## C12, C33: when two calls return the same result -/

theorem integrity_of_checkRecords_nil (allowed : List (String × List (String × String)))
    (rs : List Authorization) (h : checkRecords allowed rs = .nil) :
    Paired rs ∧ RealmsAllowed allowed rs ∧ GroupsAllowed allowed rs := by
  have hall := (checkRecords_eq_nil_iff allowed rs).mp h
  have hcase : ∀ r ∈ rs, ¬BadRealm allowed r ∧ ¬BadGroup allowed r ∧
      (r.TargetGroupID ≠ none → r.TargetRealmID ≠ none) := by
    intro r hr
    have hnil := hall r hr
    rcases checkRecord_cases allowed r with ⟨h', _⟩ | ⟨h', _⟩ | ⟨h', _⟩ | ⟨_, h1, h2, h3⟩
    · rw [hnil] at h'; cases h'
    · rw [hnil] at h'; cases h'
    · rw [hnil] at h'; cases h'
    · exact ⟨h1, h2, h3⟩
  refine ⟨fun r hr => (hcase r hr).2.2, ?_, ?_⟩
  · intro r hr R hR hl
    exact (hcase r hr).1 ⟨R, hR, hl⟩
  · intro r hr R hR G hG hl
    have hRA : lookup R allowed ≠ none := fun hla => (hcase r hr).1 ⟨R, hR, hla⟩
    exact (hcase r hr).2.1 ⟨R, hR, G, hG, hRA, hl⟩

/-- Two rule sets with the same outcome of the first loop and the same wildcard
coexistences give the same result, whatever the iteration orders of the two runs, unless
the rule set passes the first loop and holds both kinds of coexistence. -/
theorem Validate_eq_of_congr (ord ord' : RangeOrder) (rs rs' : List Authorization)
    (allowed : List (String × List (String × String)))
    (hc : checkRecords allowed rs' = checkRecords allowed rs)
    (hr : WildcardRealmCoexistence rs' ↔ WildcardRealmCoexistence rs)
    (hg : WildcardGroupCoexistence rs' ↔ WildcardGroupCoexistence rs)
    (hdet : ¬(Paired rs ∧ RealmsAllowed allowed rs ∧ GroupsAllowed allowed rs ∧
      WildcardRealmCoexistence rs ∧ WildcardGroupCoexistence rs)) :
    Validate ord rs' allowed = Validate ord' rs allowed := by
  by_cases hnil : checkRecords allowed rs = .nil
  · have hint := integrity_of_checkRecords_nil allowed rs hnil
    have hnot : ¬(WildcardRealmCoexistence rs ∧ WildcardGroupCoexistence rs) :=
      fun h => hdet ⟨hint.1, hint.2.1, hint.2.2, h.1, h.2⟩
    rcases Validate_matrix_phase ord rs' allowed (hc.trans hnil)
      with ⟨h1, n1, n1'⟩ | ⟨h1, c1⟩ | ⟨h1, c1⟩
    · rcases Validate_matrix_phase ord' rs allowed hnil with ⟨h2, _, _⟩ | ⟨_, c2⟩ | ⟨_, c2⟩
      · rw [h1, h2]
      · exact absurd (hr.mpr c2) n1
      · exact absurd (hg.mpr c2) n1'
    · rcases Validate_matrix_phase ord' rs allowed hnil with ⟨_, n2, _⟩ | ⟨h2, _⟩ | ⟨_, c2⟩
      · exact absurd (hr.mp c1) n2
      · rw [h1, h2]
      · exact absurd ⟨hr.mp c1, c2⟩ hnot
    · rcases Validate_matrix_phase ord' rs allowed hnil with ⟨_, _, n2'⟩ | ⟨_, c2⟩ | ⟨h2, _⟩
      · exact absurd (hg.mp c1) n2'
      · exact absurd ⟨c2, hg.mp c1⟩ hnot
      · rw [h1, h2]
  · have hnil' : checkRecords allowed rs' ≠ .nil := by rw [hc]; exact hnil
    rw [Validate_of_checkRecords_ne_nil ord rs' allowed hnil',
      Validate_of_checkRecords_ne_nil ord' rs allowed hnil, hc]

/-- C12, counterexample. With the allow-list `"*" -> {}, R1 -> {"*", G1}` and the rule set
`rs = (g, a, R1, "*"), (g, a, R1, G1), (g, a, "*", absent)`, whose first record `r` is
appended again, each of the two calls `Validate(rs ++ [r], A)` and `Validate(rs, A)`
returns `AmbiguousWildcardRealm` when the realm entry `"*"` of the bucket is visited first
and `AmbiguousWildcardGroup` when the entry `R1` is visited first: the two calls need not
return the same result. -/
theorem Validate_duplicate_counterexample :
    (⟨"master", "g", "a", some "R1", some "*"⟩ : Authorization) ∈
      [(⟨"master", "g", "a", some "R1", some "*"⟩ : Authorization),
       ⟨"master", "g", "a", some "R1", some "G1"⟩, ⟨"master", "g", "a", some "*", none⟩] ∧
    Validate RangeOrder.stored
      ([⟨"master", "g", "a", some "R1", some "*"⟩,
        ⟨"master", "g", "a", some "R1", some "G1"⟩, ⟨"master", "g", "a", some "*", none⟩] ++
       [⟨"master", "g", "a", some "R1", some "*"⟩])
      [("*", []), ("R1", [("*", "*"), ("G1", "G1")])] = .error .AmbiguousWildcardRealm ∧
    Validate RangeOrder.reversed
      ([⟨"master", "g", "a", some "R1", some "*"⟩,
        ⟨"master", "g", "a", some "R1", some "G1"⟩, ⟨"master", "g", "a", some "*", none⟩] ++
       [⟨"master", "g", "a", some "R1", some "*"⟩])
      [("*", []), ("R1", [("*", "*"), ("G1", "G1")])] = .error .AmbiguousWildcardGroup ∧
    Validate RangeOrder.stored
      [⟨"master", "g", "a", some "R1", some "*"⟩,
       ⟨"master", "g", "a", some "R1", some "G1"⟩, ⟨"master", "g", "a", some "*", none⟩]
      [("*", []), ("R1", [("*", "*"), ("G1", "G1")])] = .error .AmbiguousWildcardGroup ∧
    Validate RangeOrder.reversed
      [⟨"master", "g", "a", some "R1", some "*"⟩,
       ⟨"master", "g", "a", some "R1", some "G1"⟩, ⟨"master", "g", "a", some "*", none⟩]
      [("*", []), ("R1", [("*", "*"), ("G1", "G1")])] = .error .AmbiguousWildcardRealm := by
  decide

/-- C12, amended. Duplicates collapse: for every list of records `rs`, every allow-list and
every record `r` that occurs in `rs`, `Validate` on `rs ++ [r]` returns the same result as
on `rs`, whatever the iteration orders of the two runs, unless `rs` passes the pairing and
integrity checks and holds both a wildcard-realm and a wildcard-group coexistence; in
every case the results the iteration orders can produce are the same on both rule sets and
one is accepted (nil) exactly when the other is. In particular a rule set made of one
record repeated is never reported as ambiguous. -/
theorem Validate_duplicate_same_result (rs : List Authorization)
    (allowed : List (String × List (String × String))) (r : Authorization) (hr : r ∈ rs) :
    (¬(Paired rs ∧ RealmsAllowed allowed rs ∧ GroupsAllowed allowed rs ∧
        WildcardRealmCoexistence rs ∧ WildcardGroupCoexistence rs) →
      ∀ ord ord', Validate ord (rs ++ [r]) allowed = Validate ord' rs allowed) ∧
    (∀ res, (∃ ord, Validate ord (rs ++ [r]) allowed = res) ↔
      (∃ ord, Validate ord rs allowed = res)) ∧
    (∀ ord ord', Validate ord (rs ++ [r]) allowed = .nil ↔ Validate ord' rs allowed = .nil) ∧
    (∀ ord n, Validate ord (List.replicate (n + 1) r) allowed ≠ .error .AmbiguousWildcardRealm ∧
      Validate ord (List.replicate (n + 1) r) allowed ≠ .error .AmbiguousWildcardGroup) := by
  have hmem := mem_append_duplicate hr
  refine ⟨?_, Validate_duplicate_same_result_sets rs allowed r hr⟩
  intro hdet ord ord'
  exact Validate_eq_of_congr ord ord' rs (rs ++ [r]) allowed
    (checkRecords_append_duplicate allowed rs r hr)
    (wildcardRealmCoexistence_congr hmem) (wildcardGroupCoexistence_congr hmem) hdet

/-- C12 amended, at a concrete input: the wildcard-realm record of a rule set with a
wildcard-realm coexistence is repeated; both calls return `AmbiguousWildcardRealm`. -/
theorem Validate_duplicate_same_result_witness :
    Validate RangeOrder.stored
      ([⟨"master", "g", "a", some "*", none⟩, ⟨"master", "g", "a", some "R1", some "G1"⟩] ++
        [⟨"master", "g", "a", some "*", none⟩])
      [("*", []), ("R1", [("G1", "G1")])] =
    Validate RangeOrder.reversed
      [⟨"master", "g", "a", some "*", none⟩, ⟨"master", "g", "a", some "R1", some "G1"⟩]
      [("*", []), ("R1", [("G1", "G1")])] ∧
    Validate RangeOrder.reversed
      [⟨"master", "g", "a", some "*", none⟩, ⟨"master", "g", "a", some "R1", some "G1"⟩]
      [("*", []), ("R1", [("G1", "G1")])] = .error .AmbiguousWildcardRealm :=
  ⟨(Validate_duplicate_same_result
      [⟨"master", "g", "a", some "*", none⟩, ⟨"master", "g", "a", some "R1", some "G1"⟩]
      [("*", []), ("R1", [("G1", "G1")])] ⟨"master", "g", "a", some "*", none⟩
      (by decide)).1 (by decide) RangeOrder.stored RangeOrder.reversed,
   by decide⟩

/-- C33, counterexample. With the allow-list `"*" -> {}, R1 -> {"*", G1}`, the rule set
`rs = (g, a, R1, "*"), (g, a, R1, G1), (g, a, "*", absent)` and the unscoped record
`u = (g, a, absent, absent)` inserted in front, the call `Validate(u :: rs, A)` returns
`AmbiguousWildcardRealm` when the realm entry `"*"` of the bucket is visited first, and the
call `Validate(rs, A)` returns `AmbiguousWildcardGroup` when the entry `R1` is visited
first: the two calls need not return the same result. -/
theorem Validate_insert_unscoped_counterexample :
    Validate RangeOrder.reversed
      ([] ++ (⟨"master", "g", "a", none, none⟩ : Authorization) ::
        [⟨"master", "g", "a", some "R1", some "*"⟩,
         ⟨"master", "g", "a", some "R1", some "G1"⟩, ⟨"master", "g", "a", some "*", none⟩])
      [("*", []), ("R1", [("*", "*"), ("G1", "G1")])] = .error .AmbiguousWildcardRealm ∧
    Validate RangeOrder.stored
      ([] ++ [⟨"master", "g", "a", some "R1", some "*"⟩,
         ⟨"master", "g", "a", some "R1", some "G1"⟩, ⟨"master", "g", "a", some "*", none⟩])
      [("*", []), ("R1", [("*", "*"), ("G1", "G1")])] = .error .AmbiguousWildcardGroup := by
  decide

/-- C33, amended. Unscoped grants never conflict with anything: for every allow-list, every
list of records and every record `u` whose target realm and target group are both absent,
`Validate` on the list with `u` inserted at any position returns the same result as on the
list itself, whatever the iteration orders of the two runs, unless the list passes the
pairing and integrity checks and holds both a wildcard-realm and a wildcard-group
coexistence; in every case the results the iteration orders can produce are the same and
one rule set is accepted (nil) exactly when the other is. In particular an unscoped grant
next to a `"*"` target realm of the same `(groupID, action)` bucket is accepted when `"*"`
is an allowed realm. -/
theorem Validate_insert_unscoped (pre post : List Authorization) (u : Authorization)
    (allowed : List (String × List (String × String)))
    (hR : u.TargetRealmID = none) (hG : u.TargetGroupID = none) :
    (¬(Paired (pre ++ post) ∧ RealmsAllowed allowed (pre ++ post) ∧
        GroupsAllowed allowed (pre ++ post) ∧ WildcardRealmCoexistence (pre ++ post) ∧
        WildcardGroupCoexistence (pre ++ post)) →
      ∀ ord ord', Validate ord (pre ++ u :: post) allowed =
        Validate ord' (pre ++ post) allowed) ∧
    (∀ res, (∃ ord, Validate ord (pre ++ u :: post) allowed = res) ↔
      (∃ ord, Validate ord (pre ++ post) allowed = res)) ∧
    (∀ ord ord', Validate ord (pre ++ u :: post) allowed = .nil ↔
      Validate ord' (pre ++ post) allowed = .nil) ∧
    (∀ (ord : RangeOrder) (realm : String), lookup "*" allowed ≠ none →
      Validate ord [⟨realm, u.GroupID, u.Action, some "*", none⟩, u] allowed = .nil) := by
  refine ⟨?_, Validate_insert_unscoped_same_result_sets pre post u allowed hR hG⟩
  intro hdet ord ord'
  exact Validate_eq_of_congr ord ord' (pre ++ post) (pre ++ u :: post) allowed
    (checkRecords_insert_nil allowed pre post u (checkRecord_unscoped allowed u hR hG))
    (wildcardRealmCoexistence_insert_unscoped pre post u hR)
    (wildcardGroupCoexistence_insert_unscoped pre post u hR) hdet

/-- C33 amended, at a concrete input: an unscoped grant of bucket `(g, a)` is inserted
between a `"*"` target realm of that bucket and a record of another bucket; both calls
return nil. -/
theorem Validate_insert_unscoped_witness :
    Validate RangeOrder.stored
      ([⟨"master", "g", "a", some "*", none⟩] ++
        (⟨"master", "g", "a", none, none⟩ : Authorization) ::
        [⟨"master", "g2", "a", some "R1", some "G1"⟩])
      [("*", []), ("R1", [("G1", "G1")])] =
    Validate RangeOrder.reversed
      ([⟨"master", "g", "a", some "*", none⟩] ++
        [⟨"master", "g2", "a", some "R1", some "G1"⟩])
      [("*", []), ("R1", [("G1", "G1")])] ∧
    Validate RangeOrder.reversed
      ([⟨"master", "g", "a", some "*", none⟩] ++
        [⟨"master", "g2", "a", some "R1", some "G1"⟩])
      [("*", []), ("R1", [("G1", "G1")])] = .nil :=
  ⟨(Validate_insert_unscoped [⟨"master", "g", "a", some "*", none⟩]
      [⟨"master", "g2", "a", some "R1", some "G1"⟩] ⟨"master", "g", "a", none, none⟩
      [("*", []), ("R1", [("G1", "G1")])] rfl rfl).1 (by decide)
      RangeOrder.stored RangeOrder.reversed,
   by decide⟩

/-! ## C1, C13 to C16, C34: the ID-to-name translator on every directory -/

theorem TranslateGroupIDIntoGroupName_eq_none (rs : List Authorization)
    (dir : List GroupRepresentation) (h : ¬WellFormedDirectory dir) :
    TranslateGroupIDIntoGroupName rs dir = none := by
  have hnone : groupIDMapping dir = none := fillGroupIDMapping_eq_none dir h _
  simp only [TranslateGroupIDIntoGroupName, hnone]

/-- C1. Round trip on every directory: for every list of records `rs`, every group
directory `dir` and every per-realm mapper `m` that meet the per-record condition (each
record has no target group, or has a target realm `R` and a target group ID `G` such that
`dir` resolves `G` to a name `N` and `m[R][N] = G`), translating `rs` to names and back to
IDs returns `rs` when every entry of `dir` has an ID and a name, and returns no rule set
when some entry has no ID or no name: the translation to names stops on the nil
dereference of `group.Id` or `group.Name` (line 18). -/
theorem translate_roundtrip (rs : List Authorization) (dir : List GroupRepresentation)
    (m : List (String × List (String × String)))
    (h : ∀ r ∈ rs, r.TargetGroupID = none ∨
      ∃ R G N, r.TargetRealmID = some R ∧ r.TargetGroupID = some G ∧
        Resolves dir G N ∧ lookup2 R N m = some G) :
    (WellFormedDirectory dir →
      (TranslateGroupIDIntoGroupName rs dir).map
        (fun named => TranslateGroupNameIntoGroupID named m) = some rs) ∧
    (¬WellFormedDirectory dir →
      (TranslateGroupIDIntoGroupName rs dir).map
        (fun named => TranslateGroupNameIntoGroupID named m) = none) := by
  refine ⟨fun hdir => translate_roundtrip_of_wellFormed rs dir m hdir h, fun hdir => ?_⟩
  rw [TranslateGroupIDIntoGroupName_eq_none rs dir hdir]
  rfl

/-- C1 at the failing input: one record without target group meets the condition, and the
directory has an entry with a name and no ID. -/
theorem translate_roundtrip_witness :
    (TranslateGroupIDIntoGroupName [⟨"master", "g1", "read", none, none⟩]
        [⟨none, some "admins"⟩]).map
      (fun named => TranslateGroupNameIntoGroupID named [("R1", [("admins", "id1")])]) = none :=
  (translate_roundtrip [⟨"master", "g1", "read", none, none⟩] [⟨none, some "admins"⟩]
    [("R1", [("admins", "id1")])]
    (by
      intro r hr
      simp only [List.mem_singleton] at hr
      subst hr
      exact Or.inl rfl)).2 (by decide)

/-- C13. `TranslateGroupIDIntoGroupName` on a record with a target group ID `G`, at any
position and for every directory: when every entry of the directory has an ID and a name,
the record is translated in place to the name the directory resolves `G` to, or the output
has no record at its place when the directory (sentinel included) does not have `G`; when
some entry has no ID or no name, there is no output at all, also when another entry holds
`G`: the function stops on the nil dereference of line 18. -/
theorem TranslateGroupIDIntoGroupName_resolves_or_drops (pre post : List Authorization)
    (r : Authorization) (dir : List GroupRepresentation) (G : String)
    (hG : r.TargetGroupID = some G) :
    (WellFormedDirectory dir →
      ∃ outPre outPost,
        TranslateGroupIDIntoGroupName pre dir = some outPre ∧
        TranslateGroupIDIntoGroupName post dir = some outPost ∧
        (∀ N, Resolves dir G N →
          TranslateGroupIDIntoGroupName (pre ++ r :: post) dir =
            some (outPre ++ { r with TargetGroupID := some N } :: outPost)) ∧
        ((∀ N, ¬Resolves dir G N) →
          TranslateGroupIDIntoGroupName (pre ++ r :: post) dir = some (outPre ++ outPost))) ∧
    (¬WellFormedDirectory dir →
      TranslateGroupIDIntoGroupName (pre ++ r :: post) dir = none) :=
  ⟨fun hdir => TranslateGroupIDIntoGroupName_resolves_or_drops_of_wellFormed pre post r dir G
      hdir hG,
   fun hdir => TranslateGroupIDIntoGroupName_eq_none _ dir hdir⟩

/-- C13 at the failing input: the directory holds `id1 -> admins` and an entry `id2` without
name; the record with target group `id1` is not in any output. -/
theorem TranslateGroupIDIntoGroupName_resolves_or_drops_witness :
    TranslateGroupIDIntoGroupName
      ([] ++ (⟨"master", "g1", "read", some "R1", some "id1"⟩ : Authorization) :: [])
      [⟨some "id1", some "admins"⟩, ⟨some "id2", none⟩] = none :=
  (TranslateGroupIDIntoGroupName_resolves_or_drops [] []
    ⟨"master", "g1", "read", some "R1", some "id1"⟩
    [⟨some "id1", some "admins"⟩, ⟨some "id2", none⟩] "id1" rfl).2 (by decide)

/-- C14. `TranslateGroupIDIntoGroupName` on a record without target group, at any position
and for every directory: when every entry of the directory has an ID and a name, the record
is in the output at its place with all five fields unchanged; when some entry has no ID or
no name, there is no output and the record is lost with the others: the function stops on
the nil dereference of line 18. -/
theorem TranslateGroupIDIntoGroupName_copies_untargeted (pre post : List Authorization)
    (r : Authorization) (dir : List GroupRepresentation) (hG : r.TargetGroupID = none) :
    (WellFormedDirectory dir →
      ∃ outPre outPost,
        TranslateGroupIDIntoGroupName pre dir = some outPre ∧
        TranslateGroupIDIntoGroupName post dir = some outPost ∧
        TranslateGroupIDIntoGroupName (pre ++ r :: post) dir =
          some (outPre ++ r :: outPost)) ∧
    (¬WellFormedDirectory dir →
      TranslateGroupIDIntoGroupName (pre ++ r :: post) dir = none) :=
  ⟨fun hdir => TranslateGroupIDIntoGroupName_copies_untargeted_of_wellFormed pre post r dir
      hdir hG,
   fun hdir => TranslateGroupIDIntoGroupName_eq_none _ dir hdir⟩

/-- C14 at the failing input: a record without target group and a directory whose entry has
a name and no ID. -/
theorem TranslateGroupIDIntoGroupName_copies_untargeted_witness :
    TranslateGroupIDIntoGroupName
      ([] ++ (⟨"master", "g1", "read", some "R1", none⟩ : Authorization) :: [])
      [⟨none, some "admins"⟩] = none :=
  (TranslateGroupIDIntoGroupName_copies_untargeted [] []
    ⟨"master", "g1", "read", some "R1", none⟩ [⟨none, some "admins"⟩] rfl).2 (by decide)

/-- C15. Length of the output of `TranslateGroupIDIntoGroupName`, for every list of records
and every directory: when every entry of the directory has an ID and a name, the output
has the length of the input minus the number of input records whose target group ID is
present and not resolved by the directory; when some entry has no ID or no name, there is
no output of any length: the function stops on the nil dereference of line 18. -/
theorem TranslateGroupIDIntoGroupName_length (rs : List Authorization)
    (dir : List GroupRepresentation) :
    (WellFormedDirectory dir →
      ∃ out, TranslateGroupIDIntoGroupName rs dir = some out ∧
        out.length = rs.length - rs.countP (unresolvableID dir) ∧
        out.length + rs.countP (unresolvableID dir) = rs.length ∧
        ∀ r, unresolvableID dir r = true ↔
          ∃ G, r.TargetGroupID = some G ∧ ∀ N, ¬Resolves dir G N) ∧
    (¬WellFormedDirectory dir → TranslateGroupIDIntoGroupName rs dir = none) :=
  ⟨fun hdir => TranslateGroupIDIntoGroupName_length_of_wellFormed rs dir hdir,
   fun hdir => TranslateGroupIDIntoGroupName_eq_none rs dir hdir⟩

/-- C15 at the failing input: one record without target group and a directory whose entry
has a name and no ID; the claim gives an output of length one. -/
theorem TranslateGroupIDIntoGroupName_length_witness :
    TranslateGroupIDIntoGroupName [⟨"master", "g1", "read", none, none⟩]
      [⟨none, some "admins"⟩] = none :=
  (TranslateGroupIDIntoGroupName_length [⟨"master", "g1", "read", none, none⟩]
    [⟨none, some "admins"⟩]).2 (by decide)

/-- C16. Order of the output of `TranslateGroupIDIntoGroupName`, for every list of records
and every directory: when every entry of the directory has an ID and a name, the
`(realmID, groupID, action, targetRealmID)` tuples of the output are those of the input
records that are not dropped, in input order, hence a subsequence of those of the input;
when some entry has no ID or no name, there is no output and no kept record is listed: the
function stops on the nil dereference of line 18. -/
theorem TranslateGroupIDIntoGroupName_order (rs : List Authorization)
    (dir : List GroupRepresentation) :
    (WellFormedDirectory dir →
      ∃ out, TranslateGroupIDIntoGroupName rs dir = some out ∧
        out.map untranslatedFields =
          (rs.filter (fun r => !unresolvableID dir r)).map untranslatedFields ∧
        List.Sublist (out.map untranslatedFields) (rs.map untranslatedFields)) ∧
    (¬WellFormedDirectory dir → TranslateGroupIDIntoGroupName rs dir = none) :=
  ⟨fun hdir => TranslateGroupIDIntoGroupName_order_of_wellFormed rs dir hdir,
   fun hdir => TranslateGroupIDIntoGroupName_eq_none rs dir hdir⟩

/-- C16 at the failing input: two records that the claim keeps, and a directory whose second
entry has an ID and no name. -/
theorem TranslateGroupIDIntoGroupName_order_witness :
    TranslateGroupIDIntoGroupName
      [⟨"master", "g1", "read", some "R1", some "id1"⟩, ⟨"master", "g2", "read", none, none⟩]
      [⟨some "id1", some "admins"⟩, ⟨some "id2", none⟩] = none :=
  (TranslateGroupIDIntoGroupName_order
    [⟨"master", "g1", "read", some "R1", some "id1"⟩, ⟨"master", "g2", "read", none, none⟩]
    [⟨some "id1", some "admins"⟩, ⟨some "id2", none⟩]).2 (by decide)

/-- C34. Record independence of the two translators, for all lists of records `xs` and `ys`,
every directory and every mapper: `TranslateGroupNameIntoGroupID` distributes over
`xs ++ ys` and maps the empty list to the empty list; `TranslateGroupIDIntoGroupName` does
the same when every entry of the directory has an ID and a name, and returns no list, not
even for the empty list, when some entry has no ID or no name: it stops on the nil
dereference of line 18. -/
theorem translators_append (xs ys : List Authorization) (dir : List GroupRepresentation)
    (m : List (String × List (String × String))) :
    (WellFormedDirectory dir →
      (∃ outXs outYs,
        TranslateGroupIDIntoGroupName xs dir = some outXs ∧
        TranslateGroupIDIntoGroupName ys dir = some outYs ∧
        TranslateGroupIDIntoGroupName (xs ++ ys) dir = some (outXs ++ outYs)) ∧
      TranslateGroupIDIntoGroupName [] dir = some []) ∧
    (¬WellFormedDirectory dir →
      TranslateGroupIDIntoGroupName (xs ++ ys) dir = none ∧
      TranslateGroupIDIntoGroupName [] dir = none) ∧
    TranslateGroupNameIntoGroupID (xs ++ ys) m =
      TranslateGroupNameIntoGroupID xs m ++ TranslateGroupNameIntoGroupID ys m ∧
    TranslateGroupNameIntoGroupID [] m = [] := by
  refine ⟨fun hdir => ?_, fun hdir => ?_, ?_, rfl⟩
  · have h := translators_append_of_wellFormed xs ys dir m hdir
    exact ⟨h.1, h.2.1⟩
  · exact ⟨TranslateGroupIDIntoGroupName_eq_none _ dir hdir,
      TranslateGroupIDIntoGroupName_eq_none _ dir hdir⟩
  · simp only [TranslateGroupNameIntoGroupID, List.filterMap_append]

/-- C34 at the failing input: with a directory whose entry has a name and no ID, the empty
list is not translated to the empty list. -/
theorem translators_append_witness :
    TranslateGroupIDIntoGroupName ([] ++ []) [⟨none, some "admins"⟩] = none ∧
    TranslateGroupIDIntoGroupName [] [⟨none, some "admins"⟩] = none :=
  (translators_append [] [] [⟨none, some "admins"⟩] []).2.1 (by decide)

end KeycloakBridge
